import Mathlib

/-!
# Rego playground: the `opa` orchestration package and its handlers

A shallow embedding of `opa/errors.go` and `opa/opa.go` and the properties of
the safety guard, the capability filter, the selection parser, the evaluation
boundary and the error classifier; and of the parts of `api/api.go` and
`api/mem_store.go` that call them or store their requests: share keys, the
query handler, the update handler.

Conventions of the embedding

* Go code that can panic returns `Except PanicValue α`; `.error p` is the panic.
* A Go closure writing through a captured pointer is a function that takes the
  pointed-to value and returns the new one.
* A Go `error` interface value is `Option GoError`, `none` being `nil`.
* The engine (`github.com/open-policy-agent/opa`) is not part of the repository.
  Its syntax tree and the few accessors the package calls are modelled here;
  its parsers are taken as function parameters.
* A Go string whose bytes matter (share keys) is the list of its bytes; the
  functions of `encoding/hex`, `encoding/base64` and `strings` it goes through
  are written out.
-/

namespace Opa

/-! ## The engine's syntax tree (package `ast`) -/

/-- Source position `ast.Location`; only the fields the package reads. -/
structure Location where
  Row : Int
  Col : Int
deriving DecidableEq, Repr

mutual
/-- Values `ast.Value`. A term `*ast.Term` is identified with its value: term
locations are never read by the package. `number` keeps the literal text.
`object` and `set` list their members in the engine's iteration order. -/
inductive Value where
  | null
  | boolean (b : Bool)
  | number (n : String)
  | string (s : String)
  | var (v : String)
  | ref (r : List Value)
  | array (xs : List Value)
  | object (kvs : List (Value × Value))
  | set (xs : List Value)
  | arrayComprehension (term : Value) (body : List Expr)
  | objectComprehension (key value : Value) (body : List Expr)
  | setComprehension (term : Value) (body : List Expr)
  | call (c : List Value)
/-- The dynamic type of `Expr.Terms`: a single `*Term`, a `[]*Term` (operator
followed by operands; the engine always puts a ref term first, so the operator
is kept as a ref), a `*SomeDecl` or an `*Every`. -/
inductive ExprTerms where
  | term (t : Value)
  | call (operator : List Value) (operands : List Value)
  | someDecl (symbols : List Value)
  | every (key : Option Value) (value domain : Value) (body : List Expr)
/-- One modifier `*ast.With`. -/
inductive With where
  | mk (Target Value : Value)
/-- Expression `*ast.Expr`. -/
inductive Expr where
  | mk (With : List With) (Terms : ExprTerms) (Index : Int) (Generated Negated : Bool)
      (Location : Option Location)
end

/-- A term, `*ast.Term`, identified with its value. -/
abbrev Term := Value

/-- References `ast.Ref`, a slice of terms. -/
abbrev Ref := List Term

/-- Query bodies `ast.Body`, a slice of expressions. -/
abbrev Body := List Expr

/-- Field `With` of an expression. -/
def Expr.With : Expr → List With
  | .mk w _ _ _ _ _ => w

/-- Field `Terms` of an expression. -/
def Expr.Terms : Expr → ExprTerms
  | .mk _ t _ _ _ _ => t

/-- Field `Index` of an expression. -/
def Expr.Index : Expr → Int
  | .mk _ _ i _ _ _ => i

/-- Field `Negated` of an expression. -/
def Expr.Negated : Expr → Bool
  | .mk _ _ _ _ n _ => n

/-- Field `Location` of an expression (a pointer, possibly nil). -/
def Expr.Location : Expr → Option Location
  | .mk _ _ _ _ _ l => l

/-- Overwrites the field `Index`. -/
def Expr.setIndex : Expr → Int → Expr
  | .mk w t _ g n l, i => .mk w t i g n l

/-- The constructor `ast.NewExpr(terms)`: every other field is zero. -/
def NewExpr (terms : ExprTerms) : Expr :=
  .mk [] terms 0 false false none

mutual
/-- Value comparison `Compare(a, b) == 0`, as structural equality (the engine
compares numbers by magnitude; no number is compared in this development). -/
def Value.Equal : Value → Value → Bool
  | .null, y => match y with
    | .null => true
    | _ => false
  | .boolean a, y => match y with
    | .boolean b => a == b
    | _ => false
  | .number a, y => match y with
    | .number b => a == b
    | _ => false
  | .string a, y => match y with
    | .string b => a == b
    | _ => false
  | .var a, y => match y with
    | .var b => a == b
    | _ => false
  | .ref a, y => match y with
    | .ref b => Value.EqualList a b
    | _ => false
  | .array a, y => match y with
    | .array b => Value.EqualList a b
    | _ => false
  | .object a, y => match y with
    | .object b => Value.EqualPairs a b
    | _ => false
  | .set a, y => match y with
    | .set b => Value.EqualList a b
    | _ => false
  | .arrayComprehension t1 b1, y => match y with
    | .arrayComprehension t2 b2 => Value.Equal t1 t2 && Expr.EqualList b1 b2
    | _ => false
  | .objectComprehension k1 v1 b1, y => match y with
    | .objectComprehension k2 v2 b2 =>
      Value.Equal k1 k2 && Value.Equal v1 v2 && Expr.EqualList b1 b2
    | _ => false
  | .setComprehension t1 b1, y => match y with
    | .setComprehension t2 b2 => Value.Equal t1 t2 && Expr.EqualList b1 b2
    | _ => false
  | .call a, y => match y with
    | .call b => Value.EqualList a b
    | _ => false
termination_by structural x => x
/-- Slice comparison, element by element. -/
def Value.EqualList : List Value → List Value → Bool
  | [], ys => ys.isEmpty
  | a :: as, ys => match ys with
    | b :: bs => Value.Equal a b && Value.EqualList as bs
    | [] => false
termination_by structural x => x
/-- Comparison of key/value lists, element by element. -/
def Value.EqualPairs : List (Value × Value) → List (Value × Value) → Bool
  | [], ys => ys.isEmpty
  | (k1, v1) :: as, ys => match ys with
    | (k2, v2) :: bs => Value.Equal k1 k2 && Value.Equal v1 v2 && Value.EqualPairs as bs
    | [] => false
termination_by structural x => x
/-- Comparison of the dynamic `Terms` of two expressions. -/
def ExprTerms.Equal : ExprTerms → ExprTerms → Bool
  | .term a, y => match y with
    | .term b => Value.Equal a b
    | _ => false
  | .call o1 a1, y => match y with
    | .call o2 a2 => Value.EqualList o1 o2 && Value.EqualList a1 a2
    | _ => false
  | .someDecl a, y => match y with
    | .someDecl b => Value.EqualList a b
    | _ => false
  | .every none v1 d1 b1, y => match y with
    | .every none v2 d2 b2 => Value.Equal v1 v2 && Value.Equal d1 d2 && Expr.EqualList b1 b2
    | _ => false
  | .every (some k1) v1 d1 b1, y => match y with
    | .every (some k2) v2 d2 b2 =>
      Value.Equal k1 k2 && Value.Equal v1 v2 && Value.Equal d1 d2 && Expr.EqualList b1 b2
    | _ => false
termination_by structural x => x
/-- Comparison of two modifiers. -/
def With.Equal : With → With → Bool
  | .mk t1 v1, .mk t2 v2 => Value.Equal t1 t2 && Value.Equal v1 v2
termination_by structural x => x
/-- Comparison of modifier slices. -/
def With.EqualList : List With → List With → Bool
  | [], ys => ys.isEmpty
  | a :: as, ys => match ys with
    | b :: bs => With.Equal a b && With.EqualList as bs
    | [] => false
termination_by structural x => x
/-- Method `Expr.Equal`: expressions are compared by negation, terms and
modifiers; index and location are not compared. -/
def Expr.Equal : Expr → Expr → Bool
  | .mk w1 t1 _ _ n1 _, .mk w2 t2 _ _ n2 _ =>
      (n1 == n2) && ExprTerms.Equal t1 t2 && With.EqualList w1 w2
termination_by structural x => x
/-- Method `Body.Equal`. -/
def Expr.EqualList : List Expr → List Expr → Bool
  | [], ys => ys.isEmpty
  | a :: as, ys => match ys with
    | b :: bs => Expr.Equal a b && Expr.EqualList as bs
    | [] => false
termination_by structural x => x
end

/-- Method `Ref.Equal`. -/
def Ref.Equal (a b : Ref) : Bool :=
  Value.EqualList a b

/-- Method `Expr.IsCall`: the terms are a `[]*Term`. -/
def Expr.IsCall (expr : Expr) : Bool :=
  match expr.Terms with
  | .call _ _ => true
  | _ => false

/-- Method `Expr.Operator`: the ref of the called function, the nil ref when the
expression is not a call. -/
def Expr.Operator (expr : Expr) : Ref :=
  match expr.Terms with
  | .call op _ => op
  | _ => []

/-- Method `Expr.Operand(pos)`: the term at `pos` after the operator, nil when
the expression does not have that many terms. -/
def Expr.Operand (expr : Expr) (pos : Nat) : Option Term :=
  match expr.Terms with
  | .call _ args => args.get? pos
  | _ => none

/-- Helper `isGlobalBuiltin(expr, name)`: a call whose operator is the
one-element ref made of the variable `name`. -/
def isGlobalBuiltin (expr : Expr) (name : String) : Bool :=
  match expr.Terms with
  | .call [.var head] _ => head == name
  | _ => false

/-- Method `Expr.IsEquality`: a call of `ast.Equality`, whose name is `eq`. -/
def Expr.IsEquality (expr : Expr) : Bool :=
  isGlobalBuiltin expr "eq"

/-- Method `Expr.IsAssignment`: a call of `ast.Assign`, whose name is `assign`. -/
def Expr.IsAssignment (expr : Expr) : Bool :=
  isGlobalBuiltin expr "assign"

/-! ## Errors and panics -/

/-- Compile error `*ast.Error`. -/
structure AstError where
  Code : String
  Location : Option Location
  Message : String
deriving DecidableEq, Repr

/-- Error lists `ast.Errors`. -/
abbrev Errors := List AstError

/-- Error code `ast.TypeErr`. -/
def TypeErr : String := "rego_type_error"

/-- The constructor `ast.NewError(code, loc, msg)`. -/
def NewError (code : String) (loc : Option Location) (msg : String) : AstError :=
  ⟨code, loc, msg⟩

/-- Evaluation error `topdown.Error`. -/
structure TopdownError where
  Code : String
  Message : String
  Location : Option Location
deriving DecidableEq, Repr

/-- The dynamic values an `error` interface holds in this package. -/
inductive GoError where
  | writeableBuiltInErrors (es : List TopdownError)
  | topdown (e : TopdownError)
  | astErrors (es : Errors)
  | runtimeError (msg : String)
  | errorString (msg : String)
deriving DecidableEq, Repr

/-- The value a panic carries: an `error` or anything else. -/
inductive PanicValue where
  | err (e : GoError)
  | other (descr : String)
deriving DecidableEq, Repr

/-- The runtime panic of dereferencing a nil pointer. -/
def nilDereference : PanicValue :=
  .err (.runtimeError "invalid memory address or nil pointer dereference")

/-! ## `opa/errors.go`: the safety guard -/

/-- The ref `ast.MustParseRef("http.send")`. -/
def httpSend : Ref := [.var "http", .string "send"]

/-- The ref of the other primitive removed by `capabilities`, `net.lookup_ip_addr`. -/
def netLookupIPAddr : Ref := [.var "net", .string "lookup_ip_addr"]

/-- The violation both rules of `checkExpr` record. -/
def unsafeCallError (expr : Expr) : AstError :=
  NewError TypeErr expr.Location "unsafe built-in function calls in expression: http.send"

/-- The visitor returned by `checkExpr(errs)`, with `*errs` passed through. The
Boolean is the visitor's result, `true` stopping the walk below `expr`.
`expr.Operand(1).Value` dereferences the operand, which is nil when the
equality has fewer than two operands. -/
def checkExpr (expr : Expr) (errs : Errors) : Except PanicValue (Bool × Errors) :=
  if expr.IsCall && Ref.Equal expr.Operator httpSend then
    .ok (true, errs ++ [unsafeCallError expr])
  else if expr.IsEquality then
    match expr.Operand 1 with
    | none => .error nilDereference
    | some (.ref r0) =>
      if Ref.Equal r0 httpSend then
        .ok (true, errs ++ [unsafeCallError expr])
      else
        .ok (false, errs)
    | some _ => .ok (false, errs)
  else
    .ok (false, errs)

/-- A visitor passed to `ast.WalkExprs`, with the state it writes to passed
through; it may panic. -/
abbrev Visitor (σ : Type) := Expr → σ → Except PanicValue (Bool × σ)

mutual
/-- The walk of `ast.GenericVisitor` below a value (and a term). -/
def walkValue {σ : Type} (f : Visitor σ) : Value → σ → Except PanicValue σ
  | .null, s => .ok s
  | .boolean _, s => .ok s
  | .number _, s => .ok s
  | .string _, s => .ok s
  | .var _, s => .ok s
  | .ref r, s => walkValues f r s
  | .array xs, s => walkValues f xs s
  | .object kvs, s => walkPairs f kvs s
  | .set xs, s => walkValues f xs s
  | .arrayComprehension t b, s =>
    (walkValue f t s).bind (fun s1 => walkBody f b s1)
  | .objectComprehension k v b, s =>
    ((walkValue f k s).bind (fun s1 => walkValue f v s1)).bind (fun s2 => walkBody f b s2)
  | .setComprehension t b, s =>
    (walkValue f t s).bind (fun s1 => walkBody f b s1)
  | .call c, s => walkValues f c s
termination_by structural x => x
/-- The walk over a slice of terms, in order. -/
def walkValues {σ : Type} (f : Visitor σ) : List Value → σ → Except PanicValue σ
  | [], s => .ok s
  | v :: vs, s => (walkValue f v s).bind (fun s1 => walkValues f vs s1)
termination_by structural x => x
/-- The walk over the members of an object: key, then value. -/
def walkPairs {σ : Type} (f : Visitor σ) : List (Value × Value) → σ → Except PanicValue σ
  | [], s => .ok s
  | (k, v) :: kvs, s =>
    ((walkValue f k s).bind (fun s1 => walkValue f v s1)).bind (fun s2 => walkPairs f kvs s2)
termination_by structural x => x
/-- The walk below the terms of an expression. -/
def walkExprTerms {σ : Type} (f : Visitor σ) : ExprTerms → σ → Except PanicValue σ
  | .term t, s => walkValue f t s
  | .call op args, s => (walkValues f op s).bind (fun s1 => walkValues f args s1)
  | .someDecl syms, s => walkValues f syms s
  | .every none v d b, s =>
    ((walkValue f v s).bind (fun s1 => walkValue f d s1)).bind (fun s2 => walkBody f b s2)
  | .every (some k) v d b, s =>
    (((walkValue f k s).bind (fun s1 => walkValue f v s1)).bind
      (fun s2 => walkValue f d s2)).bind (fun s3 => walkBody f b s3)
termination_by structural x => x
/-- The walk below a modifier: target, then value. -/
def walkWith {σ : Type} (f : Visitor σ) : With → σ → Except PanicValue σ
  | .mk t v, s => (walkValue f t s).bind (fun s1 => walkValue f v s1)
termination_by structural x => x
/-- The walk over the modifiers of an expression. -/
def walkWiths {σ : Type} (f : Visitor σ) : List With → σ → Except PanicValue σ
  | [], s => .ok s
  | w :: ws, s => (walkWith f w s).bind (fun s1 => walkWiths f ws s1)
termination_by structural x => x
/-- The walk at an expression: the visitor is called, and unless it returns true
the walk goes on below the expression, terms first and modifiers next. -/
def walkExpr {σ : Type} (f : Visitor σ) : Expr → σ → Except PanicValue σ
  | .mk w t i g n l, s =>
    match f (.mk w t i g n l) s with
    | .error p => .error p
    | .ok (true, s1) => .ok s1
    | .ok (false, s1) => (walkExprTerms f t s1).bind (fun s2 => walkWiths f w s2)
termination_by structural x => x
/-- The walk over a body, expression by expression. -/
def walkBody {σ : Type} (f : Visitor σ) : List Expr → σ → Except PanicValue σ
  | [], s => .ok s
  | e :: es, s => (walkExpr f e s).bind (fun s1 => walkBody f es s1)
termination_by structural x => x
end

mutual
/-- Every expression at or below a value, in the order of the walk. -/
def Value.allExprs : Value → List Expr
  | .null => []
  | .boolean _ => []
  | .number _ => []
  | .string _ => []
  | .var _ => []
  | .ref r => Value.allExprsList r
  | .array xs => Value.allExprsList xs
  | .object kvs => Value.allExprsPairs kvs
  | .set xs => Value.allExprsList xs
  | .arrayComprehension t b => t.allExprs ++ Expr.allExprsList b
  | .objectComprehension k v b => (k.allExprs ++ v.allExprs) ++ Expr.allExprsList b
  | .setComprehension t b => t.allExprs ++ Expr.allExprsList b
  | .call c => Value.allExprsList c
termination_by structural x => x
/-- Every expression below a slice of terms. -/
def Value.allExprsList : List Value → List Expr
  | [] => []
  | v :: vs => v.allExprs ++ Value.allExprsList vs
termination_by structural x => x
/-- Every expression below the members of an object. -/
def Value.allExprsPairs : List (Value × Value) → List Expr
  | [] => []
  | (k, v) :: kvs => (k.allExprs ++ v.allExprs) ++ Value.allExprsPairs kvs
termination_by structural x => x
/-- Every expression below the terms of an expression. -/
def ExprTerms.allExprs : ExprTerms → List Expr
  | .term t => t.allExprs
  | .call op args => Value.allExprsList op ++ Value.allExprsList args
  | .someDecl syms => Value.allExprsList syms
  | .every none v d b => (v.allExprs ++ d.allExprs) ++ Expr.allExprsList b
  | .every (some k) v d b => ((k.allExprs ++ v.allExprs) ++ d.allExprs) ++ Expr.allExprsList b
termination_by structural x => x
/-- Every expression below a modifier. -/
def With.allExprs : With → List Expr
  | .mk t v => t.allExprs ++ v.allExprs
termination_by structural x => x
/-- Every expression below the modifiers of an expression. -/
def With.allExprsList : List With → List Expr
  | [] => []
  | w :: ws => w.allExprs ++ With.allExprsList ws
termination_by structural x => x
/-- An expression and every expression nested in it. -/
def Expr.allExprs : Expr → List Expr
  | .mk w t i g n l => .mk w t i g n l :: (t.allExprs ++ With.allExprsList w)
termination_by structural x => x
/-- Every expression of a body, nested ones included. -/
def Expr.allExprsList : List Expr → List Expr
  | [] => []
  | e :: es => e.allExprs ++ Expr.allExprsList es
termination_by structural x => x
end

mutual
/-- The expressions selected by `d` that are not nested in another selected
expression, in the order of the walk. -/
def Value.outermost (d : Expr → Bool) : Value → List Expr
  | .null => []
  | .boolean _ => []
  | .number _ => []
  | .string _ => []
  | .var _ => []
  | .ref r => Value.outermostList d r
  | .array xs => Value.outermostList d xs
  | .object kvs => Value.outermostPairs d kvs
  | .set xs => Value.outermostList d xs
  | .arrayComprehension t b => t.outermost d ++ Expr.outermostList d b
  | .objectComprehension k v b => (k.outermost d ++ v.outermost d) ++ Expr.outermostList d b
  | .setComprehension t b => t.outermost d ++ Expr.outermostList d b
  | .call c => Value.outermostList d c
termination_by structural x => x
/-- The outermost selected expressions below a slice of terms. -/
def Value.outermostList (d : Expr → Bool) : List Value → List Expr
  | [] => []
  | v :: vs => v.outermost d ++ Value.outermostList d vs
termination_by structural x => x
/-- The outermost selected expressions below the members of an object. -/
def Value.outermostPairs (d : Expr → Bool) : List (Value × Value) → List Expr
  | [] => []
  | (k, v) :: kvs => (k.outermost d ++ v.outermost d) ++ Value.outermostPairs d kvs
termination_by structural x => x
/-- The outermost selected expressions below the terms of an expression. -/
def ExprTerms.outermost (d : Expr → Bool) : ExprTerms → List Expr
  | .term t => t.outermost d
  | .call op args => Value.outermostList d op ++ Value.outermostList d args
  | .someDecl syms => Value.outermostList d syms
  | .every none v dom b => (v.outermost d ++ dom.outermost d) ++ Expr.outermostList d b
  | .every (some k) v dom b =>
    ((k.outermost d ++ v.outermost d) ++ dom.outermost d) ++ Expr.outermostList d b
termination_by structural x => x
/-- The outermost selected expressions below a modifier. -/
def With.outermost (d : Expr → Bool) : With → List Expr
  | .mk t v => t.outermost d ++ v.outermost d
termination_by structural x => x
/-- The outermost selected expressions below the modifiers of an expression. -/
def With.outermostList (d : Expr → Bool) : List With → List Expr
  | [] => []
  | w :: ws => w.outermost d ++ With.outermostList d ws
termination_by structural x => x
/-- The expression itself when selected, else the outermost selected ones in it. -/
def Expr.outermost (d : Expr → Bool) : Expr → List Expr
  | .mk w t i g n l =>
    if d (.mk w t i g n l) then [.mk w t i g n l]
    else t.outermost d ++ With.outermostList d w
termination_by structural x => x
/-- The outermost selected expressions of a body. -/
def Expr.outermostList (d : Expr → Bool) : List Expr → List Expr
  | [] => []
  | e :: es => e.outermost d ++ Expr.outermostList d es
termination_by structural x => x
end

/-- The expressions `checkExpr` records a violation for: a call of `http.send`,
or an equality whose second operand is the ref `http.send`. -/
def Expr.flagged (expr : Expr) : Bool :=
  (expr.IsCall && Ref.Equal expr.Operator httpSend) ||
    (expr.IsEquality &&
      match expr.Operand 1 with
      | some (.ref r0) => Ref.Equal r0 httpSend
      | _ => false)

/-- The expressions on which `checkExpr` panics: an equality without a second
operand. -/
def Expr.missingOperand (expr : Expr) : Bool :=
  expr.IsEquality && (expr.Operand 1).isNone

/-! ## Modules -/

/-- Package declaration `*ast.Package`. -/
structure Package where
  Path : Ref
  Location : Location

/-- Import `*ast.Import`; `Alias` is a variable name, empty when absent. -/
structure Import where
  Path : Term
  Alias : String
  Location : Location

/-- Rule head `*ast.Head`; `Key` and `Value` are pointers, possibly nil. -/
structure Head where
  Name : String
  Reference : Ref
  Args : List Term
  Key : Option Term
  Value : Option Term

/-- Rule `*ast.Rule`; `Else` is a pointer, possibly nil. The parser sets the
location of every rule it returns. -/
inductive Rule where
  | mk (Location : Location) (Default : Bool) (Head : Head) (Body : Body) (Else : Option Rule)

/-- Field `Location` of a rule. -/
def Rule.Location : Rule → Location
  | .mk l _ _ _ _ => l

/-- Field `Head` of a rule. -/
def Rule.Head : Rule → Head
  | .mk _ _ h _ _ => h

/-- Field `Body` of a rule. -/
def Rule.Body : Rule → Body
  | .mk _ _ _ b _ => b

/-- Module `*ast.Module`; annotations and comments hold no expression and are
left out. -/
structure Module where
  Package : Package
  Imports : List Import
  Rules : List Rule

/-- The walk below a rule head: the reference when there is one, else the key;
then the arguments and the value. -/
def walkHead {σ : Type} (f : Visitor σ) (h : Head) (s : σ) : Except PanicValue σ :=
  ((if h.Reference.length > 0 then walkValues f h.Reference s
    else match h.Key with
      | some k => walkValue f k s
      | none => .ok s).bind
    (fun s1 => walkValues f h.Args s1)).bind
    (fun s2 => match h.Value with
      | some v => walkValue f v s2
      | none => .ok s2)

/-- The walk below a rule: head, body, and the else branch when there is one. -/
def walkRule {σ : Type} (f : Visitor σ) : Rule → σ → Except PanicValue σ
  | .mk _ _ h b none, s => (walkHead f h s).bind (fun s1 => walkBody f b s1)
  | .mk _ _ h b (some r), s =>
    ((walkHead f h s).bind (fun s1 => walkBody f b s1)).bind (fun s2 => walkRule f r s2)
termination_by structural x => x

/-- The walk over the rules of a module. -/
def walkRules {σ : Type} (f : Visitor σ) : List Rule → σ → Except PanicValue σ
  | [], s => .ok s
  | r :: rs, s => (walkRule f r s).bind (fun s1 => walkRules f rs s1)

/-- The walk over the imports of a module: the path of each (an alias is a
variable and holds nothing). -/
def walkImports {σ : Type} (f : Visitor σ) : List Import → σ → Except PanicValue σ
  | [], s => .ok s
  | i :: is, s => (walkValue f i.Path s).bind (fun s1 => walkImports f is s1)

/-- The walk below a module: package path, imports, rules. -/
def walkModule {σ : Type} (f : Visitor σ) (m : Module) (s : σ) : Except PanicValue σ :=
  ((walkValues f m.Package.Path s).bind (fun s1 => walkImports f m.Imports s1)).bind
    (fun s2 => walkRules f m.Rules s2)

/-- Every expression below a rule head. -/
def Head.allExprs (h : Head) : List Expr :=
  ((if h.Reference.length > 0 then Value.allExprsList h.Reference
    else match h.Key with
      | some k => k.allExprs
      | none => []) ++ Value.allExprsList h.Args) ++
    (match h.Value with
      | some v => v.allExprs
      | none => [])

/-- Every expression of a rule, its else branches included. -/
def Rule.allExprs : Rule → List Expr
  | .mk _ _ h b none => h.allExprs ++ Expr.allExprsList b
  | .mk _ _ h b (some r) => (h.allExprs ++ Expr.allExprsList b) ++ r.allExprs
termination_by structural x => x

/-- Every expression of a list of rules. -/
def Rule.allExprsList : List Rule → List Expr
  | [] => []
  | r :: rs => r.allExprs ++ Rule.allExprsList rs

/-- Every expression below the imports of a module. -/
def Import.allExprsList : List Import → List Expr
  | [] => []
  | i :: is => i.Path.allExprs ++ Import.allExprsList is

/-- Every expression of a module. -/
def Module.allExprs (m : Module) : List Expr :=
  (Value.allExprsList m.Package.Path ++ Import.allExprsList m.Imports) ++
    Rule.allExprsList m.Rules

/-- The outermost selected expressions below a rule head. -/
def Head.outermost (d : Expr → Bool) (h : Head) : List Expr :=
  ((if h.Reference.length > 0 then Value.outermostList d h.Reference
    else match h.Key with
      | some k => k.outermost d
      | none => []) ++ Value.outermostList d h.Args) ++
    (match h.Value with
      | some v => v.outermost d
      | none => [])

/-- The outermost selected expressions of a rule. -/
def Rule.outermost (d : Expr → Bool) : Rule → List Expr
  | .mk _ _ h b none => h.outermost d ++ Expr.outermostList d b
  | .mk _ _ h b (some r) => (h.outermost d ++ Expr.outermostList d b) ++ r.outermost d
termination_by structural x => x

/-- The outermost selected expressions of a list of rules. -/
def Rule.outermostList (d : Expr → Bool) : List Rule → List Expr
  | [] => []
  | r :: rs => r.outermost d ++ Rule.outermostList d rs

/-- The outermost selected expressions below the imports of a module. -/
def Import.outermostList (d : Expr → Bool) : List Import → List Expr
  | [] => []
  | i :: is => i.Path.outermost d ++ Import.outermostList d is

/-- The outermost selected expressions of a module. -/
def Module.outermost (d : Expr → Bool) (m : Module) : List Expr :=
  (Value.outermostList d m.Package.Path ++ Import.outermostList d m.Imports) ++
    Rule.outermostList d m.Rules

/-- The compiler `*ast.Compiler`, as far as the guard reads and writes it.
`Modules` is a Go map; its entries are listed in the order the `range` loop of
one run visits them, which Go leaves unspecified. -/
structure Compiler where
  Modules : List (String × Module)
  Errors : Errors

/-- Method `Compiler.Failed`: at least one error was recorded. -/
def Compiler.Failed (c : Compiler) : Bool :=
  c.Errors.length > 0

/-- The query compiler handed to a query stage; it belongs to a compiler. -/
structure QueryCompiler where
  compiler : Compiler

/-- The loop of `checkHTTPSendCompiler`: `ast.WalkExprs(m, checkExpr(&errs))`
for every module. -/
def walkModules {σ : Type} (f : Visitor σ) : List (String × Module) → σ → Except PanicValue σ
  | [], s => .ok s
  | nm :: ms, s => (walkModule f nm.2 s).bind (fun s1 => walkModules f ms s1)

/-- The module stage `checkHTTPSendCompiler(c)`: the violations found in the
modules are appended to `c.Errors`; the stage itself returns a nil error. -/
def checkHTTPSendCompiler (c : Compiler) : Except PanicValue (Compiler × Option AstError) :=
  match walkModules checkExpr c.Modules [] with
  | .error p => .error p
  | .ok errs => .ok (⟨c.Modules, c.Errors ++ errs⟩, none)

/-- The query stage `checkHTTPSend(_, q)`: the violations found in the body are
returned as the error, with a nil body; a clean body is returned as it is. -/
def checkHTTPSend (_qc : QueryCompiler) (q : Body) : Except PanicValue (Body × Option GoError) :=
  match walkBody checkExpr q [] with
  | .error p => .error p
  | .ok errs =>
    if errs.length > 0 then .ok ([], some (.astErrors errs))
    else .ok (q, none)

/-- Every expression of the modules of a compiler. -/
def Module.allExprsList : List (String × Module) → List Expr
  | [] => []
  | nm :: ms => nm.2.allExprs ++ Module.allExprsList ms

/-- The outermost selected expressions of the modules of a compiler. -/
def Module.outermostList (d : Expr → Bool) : List (String × Module) → List Expr
  | [] => []
  | nm :: ms => nm.2.outermost d ++ Module.outermostList d ms

/-- What the guard does on one node of the tree: absent an equality without a
second operand, the walk `w` appends one violation per expression of `outer`;
`outer` is made of flagged expressions of `all`, and is not empty when `all`
has a flagged expression. -/
def GuardSpec (w : Errors → Except PanicValue Errors) (all outer : List Expr) : Prop :=
  ((∀ e ∈ all, e.missingOperand = false) →
      ∀ s, w s = .ok (s ++ outer.map unsafeCallError)) ∧
    (∀ e ∈ outer, e ∈ all ∧ e.flagged = true) ∧
    ((∃ e ∈ all, e.flagged = true) → outer ≠ [])

/-! ## Expressions and modules used as concrete inputs -/

/-- The request object of the tests. -/
def exampleRequest : Term :=
  .object [(.string "method", .string "get"), (.string "url", .string "https://httpbin.org")]

/-- The query expression `http.send({"method": "get", "url": "https://httpbin.org"})`. -/
def exampleSendCall : Expr :=
  .mk [] (.call httpSend [exampleRequest]) 0 false false (some ⟨4, 2⟩)

/-- The expression `net.lookup_ip_addr("example.com")`. -/
def exampleLookupCall : Expr :=
  .mk [] (.call netLookupIPAddr [.string "example.com"]) 0 false false (some ⟨1, 1⟩)

/-- The expression `__local0__ = http.send`, what `with is_object as http.send`
is rewritten to. -/
def exampleSendAlias : Expr :=
  .mk [] (.call [.var "eq"] [.var "__local0__", .ref httpSend]) 0 true false (some ⟨4, 2⟩)

/-- The expression `__local0__ = net.lookup_ip_addr`. -/
def exampleLookupAlias : Expr :=
  .mk [] (.call [.var "eq"] [.var "__local0__", .ref netLookupIPAddr]) 0 true false (some ⟨4, 2⟩)

/-- The expression `x := http.send` before the compiler rewrites `:=`. -/
def exampleSendAssign : Expr :=
  .mk [] (.call [.var "assign"] [.var "x", .ref httpSend]) 0 false false (some ⟨1, 1⟩)

/-- The expression `x = 1`. -/
def exampleCleanEq : Expr :=
  .mk [] (.call [.var "eq"] [.var "x", .number "1"]) 0 false false (some ⟨1, 1⟩)

/-- The expression `http.send(y)`. -/
def exampleInnerSend : Expr :=
  .mk [] (.call httpSend [.var "y"]) 0 false false (some ⟨3, 14⟩)

/-- The expression `http.send([y | http.send(y)])`: a flagged call nested in a
flagged call. -/
def exampleNestedSend : Expr :=
  .mk [] (.call httpSend [.arrayComprehension (.var "y") [exampleInnerSend]]) 0 false false
    (some ⟨3, 2⟩)

/-- A module `package test` with the single rule `p` of the given body. -/
def exampleModule (body : Body) : Module :=
  ⟨⟨[.var "data", .string "test"], ⟨1, 1⟩⟩, [],
    [.mk ⟨2, 1⟩ false ⟨"p", [.var "p"], [], none, some (.boolean true)⟩ body none]⟩

/-- A compiler holding the one module `exampleModule body`, without errors. -/
def exampleCompiler (body : Body) : Compiler :=
  ⟨[("test.rego", exampleModule body)], []⟩

/-! ## `opa/opa.go`: capabilities -/

/-- Built-in function `*ast.Builtin`: its name, and its declaration as a text. -/
structure Builtin where
  Name : String
  Decl : String
deriving DecidableEq, Repr

/-- Capability set `*ast.Capabilities`. -/
structure Capabilities where
  Builtins : List Builtin
  FutureKeywords : List String
  Features : List String
deriving DecidableEq, Repr

/-- The name `ast.HTTPSend.Name`. -/
def HTTPSendName : String := "http.send"

/-- The name `ast.NetLookupIPAddr.Name`. -/
def NetLookupIPAddrName : String := "net.lookup_ip_addr"

/-- The map `excluded` of `capabilities`; a name that is not a key reads false. -/
def excluded (name : String) : Bool :=
  (List.lookup name [(HTTPSendName, true), (NetLookupIPAddrName, true)]).getD false

/-- The loop of `capabilities`: a built-in is appended to `filtered` unless its
name is excluded. -/
def capabilitiesLoop : List Builtin → List Builtin → List Builtin
  | [], filtered => filtered
  | bi :: rest, filtered =>
    if !excluded bi.Name then capabilitiesLoop rest (filtered ++ [bi])
    else capabilitiesLoop rest filtered

/-- The function `capabilities()`, with the catalog
`ast.CapabilitiesForThisVersion()` as parameter. -/
def capabilities (catalog : Capabilities) : Capabilities :=
  { catalog with Builtins := capabilitiesLoop catalog.Builtins [] }

/-! ## `opa/opa.go`: classified errors -/

/-- The type `Error` returned by `Eval`. -/
structure Error where
  RawError : Option GoError
  HTTPStatus : Int
deriving DecidableEq, Repr

/-- The constructor `newError()`. -/
def newError : Error := ⟨none, 0⟩

/-- The status `http.StatusBadRequest`. -/
def StatusBadRequest : Int := 400

/-- The status `http.StatusInternalServerError`. -/
def StatusInternalServerError : Int := 500

/-- The code `topdown.InternalErr`. -/
def InternalErr : String := "eval_internal_error"

/-- The code `topdown.CancelErr`. -/
def CancelErr : String := "eval_cancel_error"

/-- The code `topdown.BuiltinErr`. -/
def BuiltinErr : String := "eval_builtin_error"

/-- The classifier `handleTopdownErr(err)`. A `*topdown.Error` held by `err` is
not nil. -/
def handleTopdownErr (err : Option GoError) : Error :=
  let evalError : Error := { newError with RawError := err }
  match err with
  | some (.writeableBuiltInErrors _) => { evalError with HTTPStatus := StatusBadRequest }
  | some (.topdown code) =>
    if code.Code = CancelErr ∨ code.Code = InternalErr then
      { evalError with HTTPStatus := StatusInternalServerError }
    else
      { evalError with HTTPStatus := StatusBadRequest }
  | _ => { evalError with HTTPStatus := StatusBadRequest }

/-! ## `opa/opa.go`: projection of results -/

/-- A Go map with string keys: its entries, the keys being distinct. A `range`
loop visits the entries in the order of the list, which Go leaves unspecified. -/
structure GoMap (V : Type) where
  entries : List (String × V)
deriving DecidableEq, Repr

/-- The empty map (also the nil map, when it is only read). -/
def GoMap.empty {V : Type} : GoMap V := ⟨[]⟩

/-- The lookup `v, found := m[k]`. -/
def GoMap.get {V : Type} (m : GoMap V) (k : String) : Option V :=
  List.lookup k m.entries

/-- Insertion into a list of entries: the value of an existing key is replaced. -/
def GoMap.setEntries {V : Type} : List (String × V) → String → V → List (String × V)
  | [], k, v => [(k, v)]
  | (k1, v1) :: m, k, v =>
    if k1 = k then (k1, v) :: m else (k1, v1) :: GoMap.setEntries m k v

/-- The assignment `m[k] = v`. -/
def GoMap.set {V : Type} (m : GoMap V) (k : String) (v : V) : GoMap V :=
  ⟨GoMap.setEntries m.entries k v⟩

/-- The values `interface{}` of bindings, as decoded JSON. -/
inductive Json where
  | null
  | bool (b : Bool)
  | number (n : String)
  | string (s : String)
  | array (xs : List Json)
  | object (kvs : List (String × Json))

/-- The value of one query expression, `*rego.ExpressionValue`. -/
structure ExpressionValue where
  Value : Json
  Text : String
  Location : Option Location

/-- One result `rego.Result`. -/
structure Result where
  Expressions : List ExpressionValue
  Bindings : GoMap Json

/-- Result sets `rego.ResultSet`. -/
abbrev ResultSet := List Result

/-- What `parseQuery` returns: the canonical query body and the map from
synthetic names to rule names. -/
structure QueryParseResult where
  ParsedQuery : Body
  adHocAssignments : GoMap String

/-- The inner loop of `filterResultSet` over the bindings of one result. -/
def filterBindings (adHocAssignments : GoMap String) :
    List (String × Json) → GoMap Json → GoMap Json
  | [], bindings => bindings
  | (name, binding) :: rest, bindings =>
    match adHocAssignments.get name with
    | some actual =>
      match binding with
      | .array (first :: _) => filterBindings adHocAssignments rest (bindings.set actual first)
      | _ => filterBindings adHocAssignments rest bindings
    | none => filterBindings adHocAssignments rest (bindings.set name binding)

/-- The projection `filterResultSet(resultSet, queryParseResult)`. -/
def filterResultSet (resultSet : ResultSet) (queryParseResult : QueryParseResult) : ResultSet :=
  resultSet.map (fun result =>
    ⟨result.Expressions,
      filterBindings queryParseResult.adHocAssignments result.Bindings.entries GoMap.empty⟩)

/-! ## `opa/opa.go`: evaluation -/

/-- The result of the compile stage, `CompileResult`; the store is kept as the
object it was seeded with. -/
structure CompileResult where
  QueryParseResult : QueryParseResult
  Modules : List (String × Module)
  Imports : List Import
  Package : Option Package
  Compiler : Compiler
  ParsedInput : Option Value
  Store : Option Json

/-- The options `EvalOptions`. -/
structure EvalOptions where
  DebugTrace : Bool
  Cover : Bool
  BuiltInErrorsAll : Bool
  BuiltInErrorsStrict : Bool
deriving DecidableEq, Repr

/-- The result `EvalResult`; trace events and the coverage report are kept as
texts. -/
structure EvalResult where
  Result : ResultSet
  Time : Int
  Trace : List String
  Coverage : Option String
  Output : String

/-- What a call into the engine does: it returns, or it panics. -/
inductive Call (α : Type) where
  | returns (a : α)
  | panics (v : PanicValue)

/-- What `Eval` hands to the engine through `rego.New` and `pq.Eval`, as far as it
depends on the arguments of `Eval`. -/
structure RegoArgs where
  ParsedQuery : Body
  Store : Option Json
  ParsedImports : List Import
  ParsedPackage : Option Package
  Compiler : Compiler
  ParsedInput : Option Value
  BuiltinErrorList : Bool
  StrictBuiltinErrors : Bool
  Tracer : Bool
  Cover : Bool

/-- One run of the engine: the outcome of `r.PrepareForEval(ctx)`, the outcome of
`pq.Eval(ctx, ...)`, the failures appended to the built-in error list when one
was passed, the value of the metric `timer_rego_query_eval_ns` when it is an
`int64`, the traced events, the coverage report and the printed output. -/
structure EngineRun where
  prepare : Call (Option GoError)
  eval : Call (ResultSet × Option GoError)
  builtinErrors : List TopdownError
  timer : Option Int
  trace : List String
  coverage : String
  output : String

/-- The engine, package `rego`: a run for every set of arguments. -/
structure Engine where
  run : RegoArgs → EngineRun

/-- The arguments `Eval` builds from its input and options. -/
def Eval.regoArgs (input : CompileResult) (options : EvalOptions) : RegoArgs :=
  { ParsedQuery := input.QueryParseResult.ParsedQuery
    Store := input.Store
    ParsedImports := input.Imports
    ParsedPackage := input.Package
    Compiler := input.Compiler
    ParsedInput := input.ParsedInput
    BuiltinErrorList := options.BuiltInErrorsAll
    StrictBuiltinErrors := options.BuiltInErrorsStrict
    Tracer := options.DebugTrace
    Cover := options.Cover }

/-- The statements of `Eval` after its two `defer`s, up to the `return` they
reach or the panic that interrupts them. -/
def Eval.body (engine : Engine) (input : CompileResult) (options : EvalOptions) :
    Call (Option EvalResult × Option Error) :=
  let r := engine.run (Eval.regoArgs input options)
  match r.prepare with
  | .panics v => .panics v
  | .returns (some err) => .returns (none, some (handleTopdownErr (some err)))
  | .returns none =>
    match r.eval with
    | .panics v => .panics v
    | .returns (_, some err) => .returns (none, some (handleTopdownErr (some err)))
    | .returns (rs, none) =>
      if options.BuiltInErrorsAll ∧ r.builtinErrors.length > 0 then
        .returns (none, some (handleTopdownErr (some (.writeableBuiltInErrors r.builtinErrors))))
      else
        match r.timer with
        | none =>
          .returns (none, some ⟨some (.errorString "interface conversion error"),
            StatusInternalServerError⟩)
        | some time =>
          .returns (some
            { Result := filterResultSet rs input.QueryParseResult
              Time := time
              Trace := if options.DebugTrace then r.trace else []
              Coverage := if options.Cover then some r.coverage else none
              Output := r.output }, none)

/-- The frame of one call of `Eval`: the `Error` the variable `evalError` points
to, and the two result slots. The results of `Eval` are not named, so only a
`return` statement writes the slots; they hold nil until then. -/
structure EvalFrame where
  evalError : Error
  results : Option EvalResult × Option Error

/-- The deferred function of `Eval` when `recover()` returns `r`: it writes the
status and the cause through `evalError`. -/
def Eval.recovered (frame : EvalFrame) (r : PanicValue) : EvalFrame :=
  { frame with
    evalError :=
      { HTTPStatus := StatusInternalServerError
        RawError :=
          match r with
          | .err err => some err
          | .other _ => some (.errorString "interface conversion error") } }

/-- The function `Eval`: a `return` fills the result slots and the deferred
function finds nothing to recover; after a panic the deferred function runs on
the frame as it was at entry and `Eval` returns what the slots hold. -/
def Eval (engine : Engine) (input : CompileResult) (options : EvalOptions) :
    Option EvalResult × Option Error :=
  let frame : EvalFrame := ⟨newError, (none, none)⟩
  match Eval.body engine input options with
  | .returns results => ({ frame with results := results }).results
  | .panics v => (Eval.recovered frame v).results

/-! ## `opa/opa.go`: the selection parser -/

/-- The language generation `ast.RegoVersion`; `RegoUndefined` is its zero
value. -/
inductive RegoVersion where
  | RegoUndefined
  | RegoV0
  | RegoV0CompatV1
  | RegoV1
deriving DecidableEq, Repr

/-- The parser options `ast.ParserOptions`, as far as the package sets them. -/
structure ParserOptions where
  AllFutureKeywords : Bool
  FutureKeywords : List String
  RegoVersion : RegoVersion
deriving DecidableEq, Repr

/-- The statements `ast.Statement` the parser returns; `other` stands for any
dynamic type the `switch` of `parseQuery` has no case for. -/
inductive Statement where
  | package (p : Package)
  | body (b : Body)
  | rule (r : Rule)
  | imp (i : Import)
  | other

/-- The functions of the engine's package `ast` that `parseQuery` calls:
the statement parser (its list of comments is dropped by the caller), the
expression parser, and the rendering `Ref.String()`. -/
structure Ast where
  ParseStatementsWithOpts : String → String → ParserOptions → Except GoError (List Statement)
  ParseExpr : String → Except GoError Expr
  RefString : Ref → String

/-- The diagnostics `Ignored`. -/
abbrev Ignored := List String

/-- Method `Body.Append(expr)`: the index of the expression is set to its
position and the expression is appended; `expr.Index` dereferences `expr`. -/
def Body.Append (body : Body) (expr : Option Expr) : Except PanicValue Body :=
  match expr with
  | none => .error nilDereference
  | some e => .ok (body ++ [e.setIndex body.length])

/-- The loop `for _, expr := range stmt { parsedQuery.Append(expr) }`. -/
def appendAll : Body → List Expr → Body
  | body, [] => body
  | body, e :: es => appendAll (body ++ [e.setIndex body.length]) es

/-- The variables `parseQuery` updates in its loop; `adHocAssignmentNames` is a
set. -/
structure ParseState where
  parsedQuery : Body
  adHocAssignmentNames : List String
  adHocAssignments : GoMap String
  ignored : Ignored

/-- The diagnostic for a rule with arguments. -/
def ignoredFunction (loc : Location) (name : String) : String :=
  "selection:" ++ toString loc.Row ++ ":" ++ toString loc.Col ++
    ": Ignoring function definition for '" ++ name ++ "' during evaluation."

/-- The diagnostic for a rule whose assignment does not parse. -/
def ignoredRule (loc : Location) (name : String) : String :=
  "selection:" ++ toString loc.Row ++ ":" ++ toString loc.Col ++
    ": Ignoring `rule` '" ++ name ++ "'; failed to construct assignment for query"

/-- The diagnostic for an import. -/
def ignoredImport (loc : Location) (name : String) : String :=
  "selection:" ++ toString loc.Row ++ ":" ++ toString loc.Col ++
    ": Ignoring `import` statement for '" ++ name ++ "' during evaluation."

/-- The synthetic name `fmt.Sprintf("__%s__", name)`. -/
def assignedName (name : String) : String :=
  "__" ++ name ++ "__"

/-- The text `fmt.Sprintf("%s := { __x__ | __x__ := %s.%s }", assignedName, path, name)`. -/
def adHocText (path name : String) : String :=
  assignedName name ++ " := \x7b __x__ | __x__ := " ++ path ++ "." ++ name ++ " \x7d"

/-- The function `tailOfImportPath(imp)`. -/
def tailOfImportPath (imp : Import) : String × Bool :=
  match imp.Path with
  | .ref path =>
    match path.getLast? with
    | some (.string val) => (val, true)
    | _ => ("", false)
  | _ => ("", false)

/-- What one turn of the loop of `parseQuery` does: it goes on with new values of
the variables, or it returns. -/
inductive Step where
  | next (st : ParseState)
  | done (result : QueryParseResult × Ignored × Option GoError)

/-- The body of the loop of `parseQuery`, for the statement `stmt`. In the rule
case `one.Package` dereferences `one`, and a nil `expr` reaches
`parsedQuery.Append` when the assignment does not parse. -/
def parseQueryStep (ast : Ast) (one : Option Module) (stmt : Statement) (st : ParseState) :
    Except PanicValue Step :=
  match stmt with
  | .package p =>
    .ok (.done (⟨[NewExpr (.term (.ref p.Path))], GoMap.empty⟩, [], none))
  | .body b =>
    .ok (.next { st with parsedQuery := appendAll st.parsedQuery b })
  | .rule r =>
    let name := r.Head.Name
    if r.Head.Args.length > 0 then
      .ok (.next { st with ignored := st.ignored ++ [ignoredFunction r.Location name] })
    else if ¬ name ∈ st.adHocAssignmentNames then
      match one with
      | none => .error nilDereference
      | some m =>
        match ast.ParseExpr (adHocText (ast.RefString m.Package.Path) name) with
        | .error _ =>
          (Body.Append st.parsedQuery none).map (fun parsedQuery =>
            .next
              { parsedQuery := parsedQuery
                adHocAssignmentNames := name :: st.adHocAssignmentNames
                adHocAssignments := st.adHocAssignments.set (assignedName name) name
                ignored := st.ignored ++ [ignoredRule r.Location name] })
        | .ok expr =>
          (Body.Append st.parsedQuery (some expr)).map (fun parsedQuery =>
            .next
              { parsedQuery := parsedQuery
                adHocAssignmentNames := name :: st.adHocAssignmentNames
                adHocAssignments := st.adHocAssignments.set (assignedName name) name
                ignored := st.ignored })
    else
      .ok (.next st)
  | .imp i =>
    let name :=
      if i.Alias.length > 0 then i.Alias
      else if (tailOfImportPath i).2 then (tailOfImportPath i).1
      else ""
    .ok (.next { st with ignored := st.ignored ++ [ignoredImport i.Location name] })
  | .other => .ok (.next st)

/-- The loop of `parseQuery` over the statements, and the `return` after it. -/
def parseQueryLoop (ast : Ast) (one : Option Module) :
    List Statement → ParseState → Except PanicValue (QueryParseResult × Ignored × Option GoError)
  | [], st => .ok (⟨st.parsedQuery, st.adHocAssignments⟩, st.ignored, none)
  | stmt :: rest, st =>
    match parseQueryStep ast one stmt st with
    | .error p => .error p
    | .ok (.done result) => .ok result
    | .ok (.next st1) => parseQueryLoop ast one rest st1

/-- The function `parseQuery(query, opts, one)`. -/
def parseQuery (ast : Ast) (query : String) (opts : ParserOptions) (one : Option Module) :
    Except PanicValue (QueryParseResult × Ignored × Option GoError) :=
  match ast.ParseStatementsWithOpts "" query opts with
  | .error err => .ok (⟨[], GoMap.empty⟩, [], some err)
  | .ok stmts => parseQueryLoop ast one stmts ⟨[], [], GoMap.empty, []⟩

/-! ## Reference definitions for the selection parser -/

/-- Whether a statement is a package declaration. -/
def Statement.isPackage : Statement → Bool
  | .package _ => true
  | _ => false

/-- The name an import is reported under: the alias, else the last segment of
the path when it is a string, else the empty string. -/
def Import.reportedName (i : Import) : String :=
  if i.Alias.length > 0 then i.Alias
  else if (tailOfImportPath i).2 then (tailOfImportPath i).1
  else ""

/-- The diagnostic a statement of the selection causes, if any: one for a rule
with arguments, one for an import. -/
def Statement.diagnostic : Statement → Option String
  | .rule r =>
    if r.Head.Args.length > 0 then some (ignoredFunction r.Location r.Head.Name) else none
  | .imp i => some (ignoredImport i.Location i.reportedName)
  | _ => none

/-- The names of the rules without arguments of a selection, one per
definition, in source order. -/
def selectedRules : List Statement → List String
  | [] => []
  | .rule r :: rest =>
    if r.Head.Args.length > 0 then selectedRules rest else r.Head.Name :: selectedRules rest
  | _ :: rest => selectedRules rest

/-- The names of `selectedRules` without those of `seen` and without
repetition, each at its first definition. -/
def newRules (seen : List String) : List Statement → List String
  | [] => []
  | .rule r :: rest =>
    if r.Head.Args.length > 0 then newRules seen rest
    else if r.Head.Name ∈ seen then newRules seen rest
    else r.Head.Name :: newRules (r.Head.Name :: seen) rest
  | _ :: rest => newRules seen rest

/-- The parsed assignment `parseQuery` synthesizes for the rule `name`, when
there is a module and the text parses. -/
def adHocExpr (ast : Ast) (one : Option Module) (name : String) : Option Expr :=
  match one with
  | none => none
  | some m =>
    match ast.ParseExpr (adHocText (ast.RefString m.Package.Path) name) with
    | .ok e => some e
    | .error _ => none

/-- The expressions a selection contributes to the query, before their indexes
are set: those of its plain bodies, and the parsed assignment of each rule
without arguments at its first definition. -/
def selectionExprs (ast : Ast) (one : Option Module) (seen : List String) :
    List Statement → List Expr
  | [] => []
  | .body b :: rest => b ++ selectionExprs ast one seen rest
  | .rule r :: rest =>
    if r.Head.Args.length > 0 then selectionExprs ast one seen rest
    else if r.Head.Name ∈ seen then selectionExprs ast one seen rest
    else (adHocExpr ast one r.Head.Name).toList ++
      selectionExprs ast one (r.Head.Name :: seen) rest
  | _ :: rest => selectionExprs ast one seen rest

/-- The expressions of the plain bodies of a selection. -/
def bodyExprs : List Statement → List Expr
  | [] => []
  | .body b :: rest => b ++ bodyExprs rest
  | _ :: rest => bodyExprs rest

/-- Whether the assignment of every rule without arguments of the selection
that is not in `seen` can be built: there is a module and the text parses. -/
def Synthesizes (ast : Ast) (one : Option Module) (seen : List String)
    (stmts : List Statement) : Prop :=
  ∀ name ∈ newRules seen stmts, ∃ e, adHocExpr ast one name = some e

/-- The recording of the synthetic names of `names` in a map, in order. -/
def recordNames (m : GoMap String) (names : List String) : GoMap String :=
  names.foldl (fun acc name => acc.set (assignedName name) name) m

/-! ## Selections and runs used as concrete inputs -/

/-- The package `package play`. -/
def examplePlayPackage : Package :=
  ⟨[.var "data", .string "play"], ⟨1, 1⟩⟩

/-- The expression `true`. -/
def exampleTrue : Expr :=
  NewExpr (.term (.boolean true))

/-- The rule `default hello = false` at 1:1. -/
def exampleDefaultHello : Rule :=
  .mk ⟨1, 1⟩ true ⟨"hello", [.var "hello"], [], none, some (.boolean false)⟩ [exampleTrue] none

/-- The rule `hello { input.message == "world"; input.foo == "bar" }` at 2:2. -/
def exampleHello : Rule :=
  .mk ⟨2, 2⟩ false ⟨"hello", [.var "hello"], [], none, some (.boolean true)⟩
    [.mk [] (.call [.var "equal"] [.ref [.var "input", .string "message"], .string "world"])
        0 false false (some ⟨3, 4⟩),
      .mk [] (.call [.var "equal"] [.ref [.var "input", .string "foo"], .string "bar"])
        1 false false (some ⟨4, 4⟩)]
    none

/-- The function `a(x) = x { true }` at 1:1. -/
def exampleFunctionA : Rule :=
  .mk ⟨1, 1⟩ false ⟨"a", [.var "a"], [.var "x"], none, some (.var "x")⟩ [exampleTrue] none

/-- The function `b(x, y) { true }` at 4:6. -/
def exampleFunctionB : Rule :=
  .mk ⟨4, 6⟩ false ⟨"b", [.var "b"], [.var "x", .var "y"], none, some (.boolean true)⟩
    [exampleTrue] none

/-- The module of the tests, `package play` with the two definitions of `hello`. -/
def examplePlayModule : Module :=
  ⟨examplePlayPackage, [], [exampleDefaultHello, exampleHello]⟩

/-- The parse of `__hello__ := { __x__ | __x__ := data.play.hello }`. -/
def exampleAdHoc : Expr :=
  .mk [] (.call [.var "assign"]
      [.var "__hello__",
        .setComprehension (.var "__x__")
          [.mk [] (.call [.var "assign"]
              [.var "__x__", .ref [.var "data", .string "play", .string "hello"]])
            0 false false (some ⟨1, 24⟩)]])
    0 false false (some ⟨1, 1⟩)

/-- The selection of `TestCompileWithRuleBodyUserInput`. -/
def exampleRuleSelection : String :=
  "default hello = false\n\thello \x7b\n\t  input.message == \"world\"\n\t  input.foo == \"bar\"\n\t\x7d"

/-- The selection `two lonely functions with arg` of `TestCompileIgnoredUserInput`. -/
def exampleFunctionSelection : String :=
  "a(x) = x \x7b\n\t\t\t\t\t\ttrue\n\t\t\t\t\t\x7d\n\t\t\t\t\tb(x, y) \x7b\n\t\t\t\t\t\ttrue\n\t\t\t\t\t\x7d"

/-- The engine's parsers on the texts of the tests; every other text is
rejected. -/
def exampleAst : Ast where
  ParseStatementsWithOpts := fun _ query _ =>
    if query = "package play" then .ok [.package examplePlayPackage]
    else if query = exampleRuleSelection then .ok [.rule exampleDefaultHello, .rule exampleHello]
    else if query = exampleFunctionSelection then
      .ok [.rule exampleFunctionA, .rule exampleFunctionB]
    else .error (.astErrors [⟨"rego_parse_error", none, "unexpected token"⟩])
  ParseExpr := fun text =>
    if text = "__hello__ := \x7b __x__ | __x__ := data.play.hello \x7d" then .ok exampleAdHoc
    else .error (.errorString "failed to parse expression")
  RefString := fun r =>
    match r with
    | [.var "data", .string "play"] => "data.play"
    | _ => "data"

/-- The zero value of the parser options. -/
def exampleOpts : ParserOptions :=
  ⟨false, [], .RegoUndefined⟩

/-- A compile result for the module of the tests and the query `data.play`. -/
def exampleCompileResult : CompileResult :=
  { QueryParseResult := ⟨[NewExpr (.term (.ref examplePlayPackage.Path))], GoMap.empty⟩
    Modules := [("test.rego", examplePlayModule)]
    Imports := []
    Package := some examplePlayPackage
    Compiler := ⟨[("test.rego", examplePlayModule)], []⟩
    ParsedInput := none
    Store := none }

/-- An engine whose preparation panics on a nil pointer. -/
def examplePanickingEngine : Engine :=
  ⟨fun _ =>
    { prepare := .panics nilDereference
      eval := .returns ([], none)
      builtinErrors := []
      timer := some 1000
      trace := []
      coverage := ""
      output := "" }⟩

/-! ## Further reference definitions and inputs for the selection parser -/

/-- The expressions `es` with their indexes set to `n`, `n + 1`, and so on. -/
def reindexFrom (n : Nat) : List Expr → List Expr
  | [] => []
  | e :: es => e.setIndex n :: reindexFrom (n + 1) es

/-- Whether a statement is evaluable: a plain body with an expression (the
parser returns no empty body), or a rule without arguments. -/
def Statement.evaluable : Statement → Bool
  | .body b => !b.isEmpty
  | .rule r => decide (r.Head.Args.length = 0)
  | _ => false

/-- The import `import input.x` at 1:1. -/
def exampleImportX : Import :=
  ⟨.ref [.var "input", .string "x"], "", ⟨1, 1⟩⟩

/-- The import `import input.message as foo` at 2:6. -/
def exampleImportFoo : Import :=
  ⟨.ref [.var "input", .string "message"], "foo", ⟨2, 6⟩⟩

/-- The import `import input` at 3:1, whose path ends in a variable. -/
def exampleImportInput : Import :=
  ⟨.ref [.var "input"], "", ⟨3, 1⟩⟩

/-- The expression `x = 1` as the parser returns it, alone in its body. -/
def exampleFirstEq : Expr :=
  .mk [] (.call [.var "eq"] [.var "x", .number "1"]) 0 false false (some ⟨1, 1⟩)

/-- The expression `y = 2` as the parser returns it, alone in its body. -/
def exampleSecondEq : Expr :=
  .mk [] (.call [.var "eq"] [.var "y", .number "2"]) 0 false false (some ⟨2, 1⟩)

/-- The expression `data.play`. -/
def examplePlayRef : Expr :=
  .mk [] (.term (.ref [.var "data", .string "play"])) 0 false false (some ⟨1, 1⟩)

/-- The engine's parsers on further selections; every other text is rejected. -/
def exampleSelectionAst : Ast where
  ParseStatementsWithOpts := fun _ query _ =>
    if query = "import input.x" then .ok [.imp exampleImportX]
    else if query = "x = 1\ny = 2" then .ok [.body [exampleFirstEq], .body [exampleSecondEq]]
    else if query = "data.play" then .ok [.body [examplePlayRef]]
    else .error (.astErrors [⟨"rego_parse_error", none, "unexpected token"⟩])
  ParseExpr := fun _ => .error (.errorString "failed to parse expression")
  RefString := fun r =>
    match r with
    | [.var "data", .string "play"] => "data.play"
    | _ => "data"

/-! ## `opa/opa.go`: the message of collected built-in errors -/

/-- Method `WriteableBuiltInErrors.Error()`; `text` is the engine's method
`(*topdown.Error).Error()`. -/
def WriteableBuiltInErrors.Error (text : TopdownError → String) (e : List TopdownError) :
    String :=
  match e with
  | [] => "no error(s)"
  | [e0] => "1 error occurred: " ++ text e0
  | _ => toString e.length ++ " errors occurred:\n" ++ String.intercalate "\n" (e.map text)

/-- The binding an entry of a raw result is projected to by `filterResultSet`, if
any: the first element under the original name for a synthetic name bound to a
non-empty list, nothing for a synthetic name bound to anything else, the entry
itself for any other name. -/
def projectedBinding (adHocAssignments : GoMap String) (entry : String × Json) :
    Option (String × Json) :=
  match adHocAssignments.get entry.1 with
  | some actual =>
    match entry.2 with
    | .array (first :: _) => some (actual, first)
    | _ => none
  | none => some entry

/-! ## Results and runs used as concrete inputs -/

/-- The synthetic-name map of the selection `hello`. -/
def exampleHelloMap : QueryParseResult :=
  ⟨[exampleAdHoc], ⟨[("__hello__", "hello")]⟩⟩

/-- A raw result binding `__hello__` to `[true]` and the query variable `hello`
to `5`, the range loop visiting `__hello__` first. -/
def exampleClashSyntheticFirst : Result :=
  ⟨[], ⟨[("__hello__", .array [.bool true]), ("hello", .number "5")]⟩⟩

/-- The same raw result, the range loop visiting `hello` first. -/
def exampleClashSyntheticLast : Result :=
  ⟨[], ⟨[("hello", .number "5"), ("__hello__", .array [.bool true])]⟩⟩

/-- The raw result of the selection `hello`: `__hello__` bound to `[true]`. -/
def exampleHelloResult : Result :=
  ⟨[⟨.bool true, "__hello__ := \x7b__x__ | __x__ := data.play.hello\x7d", some ⟨1, 1⟩⟩],
    ⟨[("__hello__", .array [.bool true]), ("y", .number "2")]⟩⟩

/-- The two failures of `TestEvalWithBuiltInErrors`. -/
def exampleDivErrors : List TopdownError :=
  [⟨"eval_builtin_error", "div: divide by zero", some ⟨5, 10⟩⟩,
    ⟨"eval_builtin_error", "div: divide by zero", some ⟨7, 10⟩⟩]

/-- The rendering of a failure located in `play.rego`. -/
def exampleErrorText (e : TopdownError) : String :=
  match e.Location with
  | some loc => "play.rego:" ++ toString loc.Row ++ ": " ++ e.Code ++ ": " ++ e.Message
  | none => e.Code ++ ": " ++ e.Message

/-- An engine whose evaluation succeeds and collects the two failures. -/
def exampleCollectingEngine : Engine :=
  ⟨fun _ =>
    { prepare := .returns none
      eval := .returns ([], none)
      builtinErrors := exampleDivErrors
      timer := some 1000
      trace := []
      coverage := ""
      output := "" }⟩

/-! ## `opa/opa.go`: `Compile` -/

/-- Method `Import.Equal`: two imports are compared by path, then by alias. -/
def Import.Equal (a b : Import) : Bool :=
  Value.Equal a.Path b.Path && a.Alias == b.Alias

/-- The parse of `import future.keywords`, first entry of the table. -/
def importFutureKeywords : Import :=
  ⟨.ref [.var "future", .string "keywords"], "", ⟨1, 1⟩⟩

/-- The parse of `import future.keywords.in`, second entry of the table. -/
def importFutureKeywordsIn : Import :=
  ⟨.ref [.var "future", .string "keywords", .string "in"], "", ⟨1, 1⟩⟩

/-- The parse of `import rego.v1`, third entry of the table. -/
def importRegoV1 : Import :=
  ⟨.ref [.var "rego", .string "v1"], "", ⟨1, 1⟩⟩

/-- The table `parserOptions`: an import and the setter it switches on. -/
def parserOptions : List (Import × (ParserOptions → ParserOptions)) :=
  [(importFutureKeywords, fun po => { po with AllFutureKeywords := true }),
    (importFutureKeywordsIn, fun po => { po with FutureKeywords := po.FutureKeywords ++ ["in"] }),
    (importRegoV1, fun po => { po with RegoVersion := .RegoV1 })]

/-- The two nested loops of `Compile` that derive the parser options of the
query from its imports, starting from the zero value. -/
def Compile.parserOpts (qIs : List Import) : ParserOptions :=
  qIs.foldl
    (fun opts qimp =>
      parserOptions.foldl
        (fun opts po => if Import.Equal po.1 qimp then po.2 opts else opts) opts)
    ⟨false, [], .RegoUndefined⟩

/-- The functions of the engine that `Compile` calls: the parsers, the catalog
of built-ins, the conversion of the input, the module compiler (given the
capabilities, the strict flag, the stage run after `RewriteWithValues` and the
modules; it returns the compiler after `compiler.Compile(ms)`) and the query
compiler (given the compiler, the query context, the stage and the body; it
returns the error of `qc.Compile`). -/
structure CompileEngine where
  ast : Ast
  CapabilitiesForThisVersion : Capabilities
  InterfaceToValue : Json → Except GoError Value
  ParseModuleWithOpts : String → String → ParserOptions → Except GoError (Option Module)
  CompileModules : Capabilities → Bool →
    (Compiler → Except PanicValue (Compiler × Option AstError)) →
    List (String × Module) → Except PanicValue Compiler
  ParsePackage : String → Except GoError Package
  ParseImports : String → Except GoError (List Import)
  CompileQuery : Compiler → Option Package → List Import →
    (QueryCompiler → Body → Except PanicValue (Body × Option GoError)) →
    Body → Except PanicValue (Option GoError)

/-- The constant `ast.DefaultRegoVersion`. -/
def DefaultRegoVersion : RegoVersion := .RegoV0

/-- The function `ast.RegoVersionFromInt`. -/
def RegoVersionFromInt (i : Int) : RegoVersion :=
  if i = 1 then .RegoV1 else .RegoV0

/-- The version `regoVer` the modules are parsed with. -/
def Compile.regoVer (regoVersion : Option Int) : RegoVersion :=
  match regoVersion with
  | none => DefaultRegoVersion
  | some v => RegoVersionFromInt v

/-- The input value of `Compile`: nil without input, else its conversion. -/
def Compile.inputValue (eng : CompileEngine) (input : Option Json) :
    Except GoError (Option Value) :=
  match input with
  | none => .ok none
  | some v => (eng.InterfaceToValue v).map some

/-- The store of `Compile`: seeded with the data when a data value is given and
is a `map[string]interface{}`, nil otherwise. -/
def Compile.store (data : Option Json) : Option Json :=
  match data with
  | some (.object kvs) => some (.object kvs)
  | _ => none

/-- The loop of `Compile` that parses the policies into the map `ms`. -/
def Compile.parseModules (eng : CompileEngine) (regoVer : RegoVersion) :
    List (String × String) → GoMap Module → Except GoError (GoMap Module)
  | [], ms => .ok ms
  | (name, policy) :: rest, ms =>
    match eng.ParseModuleWithOpts name policy ⟨false, [], regoVer⟩ with
    | .error err => .error err
    | .ok none => .error (.errorString "Invalid parameter: empty rego module")
    | .ok (some m) => Compile.parseModules eng regoVer rest (ms.set name m)

/-- The module `one`: the first the `range` over `ms` visits, nil for an empty
map. Go leaves the first entry unspecified; `rangeStart` selects it. -/
def Compile.one (rangeStart : Nat) (ms : GoMap Module) : Option Module :=
  (ms.entries.get? (rangeStart % ms.entries.length)).map (fun nm => nm.2)

/-- The query text `Compile` goes on with. `one.Package` dereferences `one`. -/
def Compile.query (eng : CompileEngine) (query : String) (compiler : Compiler)
    (one : Option Module) : Except PanicValue String :=
  if query = "" then
    if compiler.Modules.length = 1 then
      match one with
      | none => .error nilDereference
      | some m => .ok (eng.ast.RefString m.Package.Path)
    else .ok "data"
  else .ok query

/-- The first `switch` of `Compile`: the package of the query, or the error of
parsing the override. -/
def Compile.package (eng : CompileEngine) (compiler : Compiler) (one : Option Module)
    (queryPackage : Option String) : Except PanicValue (Except GoError (Option Package)) :=
  match queryPackage with
  | none =>
    if compiler.Modules.length = 1 then
      match one with
      | none => .error nilDereference
      | some m => .ok (.ok (some m.Package))
    else .ok (.ok none)
  | some s =>
    if s = "" then .ok (.ok none)
    else .ok ((eng.ParsePackage ("package " ++ s)).map some)

/-- The second `switch` of `Compile`: the imports of the query, or the error of
parsing the override. -/
def Compile.imports (eng : CompileEngine) (compiler : Compiler) (one : Option Module)
    (queryImports : Option (List String)) : Except PanicValue (Except GoError (List Import)) :=
  match queryImports with
  | none =>
    if compiler.Modules.length = 1 then
      match one with
      | none => .error nilDereference
      | some m => .ok (.ok m.Imports)
    else .ok (.ok [])
  | some is =>
    if is.length = 0 then .ok (.ok [])
    else .ok (eng.ParseImports (String.intercalate "\n" (is.map (fun i => "import " ++ i))))

/-- The statements of `Compile` after the modules are compiled: choice of the
query, of its package and imports, of the parser options, parse and compilation
of the query. -/
def Compile.finish (eng : CompileEngine) (inputValue : Option Value) (store : Option Json)
    (ms : GoMap Module) (one : Option Module) (compiler : Compiler) (query : String)
    (queryPackage : Option String) (queryImports : Option (List String)) :
    Except PanicValue (Option CompileResult × Ignored × Option GoError) :=
  match Compile.query eng query compiler one with
  | .error p => .error p
  | .ok query =>
    match Compile.package eng compiler one queryPackage with
    | .error p => .error p
    | .ok (.error err) => .ok (none, [], some err)
    | .ok (.ok qP) =>
      match Compile.imports eng compiler one queryImports with
      | .error p => .error p
      | .ok (.error err) => .ok (none, [], some err)
      | .ok (.ok qIs) =>
        match parseQuery eng.ast query (Compile.parserOpts qIs) one with
        | .error p => .error p
        | .ok (_, ignored, some err) => .ok (none, ignored, some err)
        | .ok (queryParseResult, ignored, none) =>
          match eng.CompileQuery compiler qP qIs checkHTTPSend queryParseResult.ParsedQuery with
          | .error p => .error p
          | .ok (some err) => .ok (none, ignored, some err)
          | .ok none =>
            .ok (some
              { QueryParseResult := queryParseResult
                Modules := ms.entries
                Imports := qIs
                Package := qP
                Compiler := compiler
                ParsedInput := inputValue
                Store := store }, ignored, none)

/-- The function `Compile`, with the engine and the start of the `range` over
the parsed modules as parameters. -/
def Compile (eng : CompileEngine) (rangeStart : Nat) (input data : Option Json)
    (policies : GoMap String) (query : String) (queryPackage : Option String)
    (queryImports : Option (List String)) (strict : Bool) (regoVersion : Option Int) :
    Except PanicValue (Option CompileResult × Ignored × Option GoError) :=
  match Compile.inputValue eng input with
  | .error err => .ok (none, [], some err)
  | .ok inputValue =>
    match Compile.parseModules eng (Compile.regoVer regoVersion) policies.entries
        GoMap.empty with
    | .error err => .ok (none, [], some err)
    | .ok ms =>
      match eng.CompileModules (capabilities eng.CapabilitiesForThisVersion) strict
          checkHTTPSendCompiler ms.entries with
      | .error p => .error p
      | .ok compiler =>
        if compiler.Failed then .ok (none, [], some (.astErrors compiler.Errors))
        else
          Compile.finish eng inputValue (Compile.store data) ms (Compile.one rangeStart ms)
            compiler query queryPackage queryImports

/-- A result of `Compile` with the store of its compile result replaced. -/
def withStore (store : Option Json) (r : Option CompileResult × Ignored × Option GoError) :
    Option CompileResult × Ignored × Option GoError :=
  (r.1.map (fun cr => { cr with Store := store }), r.2.1, r.2.2)

/-! ## An engine and policies used as concrete inputs of `Compile` -/

/-- The policy of `TestCompileWithPackageUserInput`. -/
def examplePolicy : String :=
  "package play\n\n\tdefault hello = false\n\n\thello \x7b\n\t  input.message == \"world\"\n\t  input.foo == \"bar\"\n\t\x7d"

/-- A second policy, `package other`. -/
def exampleOtherPolicy : String :=
  "package other"

/-- The module `package other`. -/
def exampleOtherModule : Module :=
  ⟨⟨[.var "data", .string "other"], ⟨1, 1⟩⟩, [], []⟩

/-- The expression `data`. -/
def exampleDataRef : Expr :=
  .mk [] (.term (.ref [.var "data"])) 0 false false (some ⟨1, 1⟩)

/-- An engine for the texts of the tests: its module compiler runs the given
stage on the modules and nothing else, its query compiler the given stage on
the body; every text it does not know is rejected. -/
def exampleCompileEngine : CompileEngine where
  ast :=
    { ParseStatementsWithOpts := fun _ query _ =>
        if query = "data.play" then .ok [.body [examplePlayRef]]
        else if query = "data" then .ok [.body [exampleDataRef]]
        else .error (.astErrors [⟨"rego_parse_error", none, "unexpected token"⟩])
      ParseExpr := fun _ => .error (.errorString "failed to parse expression")
      RefString := fun r =>
        match r with
        | [.var "data", .string "play"] => "data.play"
        | _ => "data.other" }
  CapabilitiesForThisVersion := ⟨[⟨"count", ""⟩, ⟨"http.send", ""⟩], [], []⟩
  InterfaceToValue := fun _ => .ok .null
  ParseModuleWithOpts := fun _ text _ =>
    if text = examplePolicy then .ok (some examplePlayModule)
    else if text = exampleOtherPolicy then .ok (some exampleOtherModule)
    else .error (.astErrors [⟨"rego_parse_error", none, "unexpected token"⟩])
  CompileModules := fun _ _ stage ms => (stage ⟨ms, []⟩).map (fun r => r.1)
  ParsePackage := fun text =>
    if text = "package play" then .ok examplePlayPackage
    else .error (.astErrors [⟨"rego_parse_error", none, "unexpected token"⟩])
  ParseImports := fun text =>
    if text = "import future.keywords.in" then .ok [importFutureKeywordsIn]
    else .error (.astErrors [⟨"rego_parse_error", none, "unexpected token"⟩])
  CompileQuery := fun c _ _ stage body => (stage ⟨c⟩ body).map (fun r => r.2)

/-! ## Further inputs: selections with a rule whose assignment cannot be built,
a malformed equality, an overridden query package, a strict engine -/

/-- The rule `a.b = 1 { true }` at 1:1: its head is the ref `a.b`, and the
parser leaves the name of such a head empty. -/
def exampleRefHeadRule : Rule :=
  .mk ⟨1, 1⟩ false ⟨"", [.var "a", .string "b"], [], none, some (.number "1")⟩ [exampleTrue] none

/-- The selection made of the rule `a.b = 1 { true }`. -/
def exampleRefHeadSelection : String :=
  "a.b = 1 \x7b true \x7d"

/-- The selection `x = 1`, the rule of `TestCompileWithRuleBodyUserInput`, then
`package play`. -/
def examplePackageLastSelection : String :=
  "x = 1\n" ++ exampleRuleSelection ++ "\nimport input.x\npackage play"

/-- The engine's parsers on these selections. The text built for the rule
`a.b`, `____ := { __x__ | __x__ := data.play. }`, does not parse. -/
def exampleRefHeadAst : Ast where
  ParseStatementsWithOpts := fun _ query _ =>
    if query = exampleRefHeadSelection then .ok [.rule exampleRefHeadRule]
    else if query = examplePackageLastSelection then
      .ok [.body [exampleFirstEq], .rule exampleDefaultHello, .rule exampleHello,
        .imp exampleImportX, .package examplePlayPackage]
    else if query = exampleRuleSelection then .ok [.rule exampleDefaultHello, .rule exampleHello]
    else .error (.astErrors [⟨"rego_parse_error", none, "unexpected token"⟩])
  ParseExpr := fun text =>
    if text = "__hello__ := \x7b __x__ | __x__ := data.play.hello \x7d" then .ok exampleAdHoc
    else .error (.astErrors [⟨"rego_parse_error", some ⟨1, 37⟩, "unexpected \x7d token"⟩])
  RefString := fun r =>
    match r with
    | [.var "data", .string "play"] => "data.play"
    | _ => "data.other"

/-- The expression `eq(1)` at 3:6: a call of `eq` with one operand. -/
def exampleEqOne : Expr :=
  .mk [] (.call [.var "eq"] [.number "1"]) 0 false false (some ⟨3, 6⟩)

/-- The rule `p { eq(1) }` at 3:1. -/
def exampleEqOneRule : Rule :=
  .mk ⟨3, 1⟩ false ⟨"p", [.var "p"], [], none, some (.boolean true)⟩ [exampleEqOne] none

/-- The module `package play` with the rule `p { eq(1) }`. -/
def exampleEqOneModule : Module :=
  ⟨examplePlayPackage, [], [exampleEqOneRule]⟩

/-- The package `package other`. -/
def exampleOtherPackage : Package :=
  ⟨[.var "data", .string "other"], ⟨1, 1⟩⟩

/-- The engine of `exampleCompileEngine` with the parsers of `exampleRefHeadAst`
and the package text `package other`. -/
def exampleOverrideEngine : CompileEngine :=
  { exampleCompileEngine with
    ast := exampleRefHeadAst
    ParsePackage := fun text =>
      if text = "package play" then .ok examplePlayPackage
      else if text = "package other" then .ok exampleOtherPackage
      else .error (.astErrors [⟨"rego_parse_error", none, "unexpected token"⟩]) }

/-- The first failure of `TestEvalWithStrictBuiltInErrors`. -/
def exampleFirstDivError : TopdownError :=
  ⟨"eval_builtin_error", "div: divide by zero", some ⟨5, 10⟩⟩

/-- An engine that honours the strict flag: with it, evaluation halts at the
first failure and returns it as its error, the failure also being put on the
list when one was passed; without it, evaluation succeeds and the list, when
passed, gets the two failures. -/
def exampleStrictEngine : Engine :=
  ⟨fun args =>
    { prepare := .returns none
      eval := if args.StrictBuiltinErrors then .returns ([], some (.topdown exampleFirstDivError))
        else .returns ([], none)
      builtinErrors :=
        if args.BuiltinErrorList then
          if args.StrictBuiltinErrors then [exampleFirstDivError] else exampleDivErrors
        else []
      timer := some 1000
      trace := []
      coverage := ""
      output := "" }⟩

/-! ## `opa/opa.go`: `VarsForSelection` -/

/-- The result `ParseResult`. -/
structure ParseResult where
  Vars : List String
deriving DecidableEq, Repr

/-- The function `strings.HasPrefix(s, p)`. -/
def stringsHasPrefix (s p : String) : Bool :=
  p.data.isPrefixOf s.data

/-- Method `Var.IsWildcard`: the name starts with `ast.WildcardPrefix`, `$`. -/
def Var.IsWildcard (v : String) : Bool :=
  stringsHasPrefix v "$"

/-- The order of `strings.Compare` on the characters of two texts: whether the
first is not after the second (the order of the code points is that of the
bytes of their UTF-8 encoding). -/
def stringsLe : List Char → List Char → Bool
  | [], _ => true
  | _ :: _, [] => false
  | a :: as, b :: bs =>
    if a.toNat < b.toNat then true
    else if b.toNat < a.toNat then false
    else stringsLe as bs

/-- The order of `ast.VarCompare`: `strings.Compare(a, b) <= 0`. -/
def Var.le (a b : String) : Bool :=
  stringsLe a.data b.data

/-- Method `Var.String`: `_` for a wildcard, the name itself otherwise. -/
def Var.String (v : String) : String :=
  if Var.IsWildcard v then "_" else v

/-- Method `VarSet.Sorted`: the variables of the set in ascending order. -/
def VarSet.Sorted (s : List String) : List String :=
  s.insertionSort (fun a b => Var.le a b = true)

/-- Method `Error()` of an error value: the text of a value made by
`errors.New`, the engine's rendering `text` of any other. -/
def GoError.Error (text : GoError → String) : GoError → String
  | .errorString msg => msg
  | e => text e

/-- The run of `qc.Compile(body)` with a stage added after `RewriteWithValues`:
the body the added stage is called on, or the error of the stage that fails
before it; and the table `qc.RewrittenVars()` after the run, from the names the
compiler introduced to the names of the source. An error of the added stage
is returned by `qc.Compile` as it is. -/
structure QueryCompile where
  stageInput : Except GoError Body
  RewrittenVars : GoMap String

/-- The functions of the engine that `VarsForSelection` calls: the parsers, the
module compiler `ast.NewCompiler().Compile`, the query compiler with the
package of the context, the variables `Body.Vars` of a body with the parameters
`SkipRefHead` and `SkipRefCallHead` (a set, in any order), and the rendering of
the engine's errors. -/
structure VarsEngine where
  ParseBody : String → Except GoError Body
  ParseModule : String → String → Except GoError (Option Module)
  CompileModules : List (String × Option Module) → Except PanicValue Compiler
  CompileQuery : Compiler → Option Package → Body → Except PanicValue QueryCompile
  Vars : Body → List String
  Error : GoError → String

/-- The stage `ShortCircuit`: it copies the body it is called on into the
variable `resolved`, the first component, and returns the body with the error
`STOP`. -/
def shortCircuit (b : Body) : Body × (Body × GoError) :=
  (b, (b, .errorString "STOP"))

/-- The loop of `VarsForSelection` over the sorted variables: a variable found
in the table is replaced by its entry, a wildcard is skipped, the text of any
other is appended. -/
def VarsForSelection.vars (rewritten : GoMap String) : List String → List String
  | [] => []
  | v :: rest =>
    let v1 :=
      match rewritten.get v with
      | some r => r
      | none => v
    if Var.IsWildcard v1 then VarsForSelection.vars rewritten rest
    else Var.String v1 :: VarsForSelection.vars rewritten rest

/-- The function `VarsForSelection(rawModule, rawSelection)`. `mod.Package`
dereferences `mod`; `resolved` stays nil when a stage fails before
`ShortCircuit`. -/
def VarsForSelection (eng : VarsEngine) (rawModule rawSelection : String) :
    Except PanicValue (Option ParseResult × Option Error) :=
  match eng.ParseBody rawSelection with
  | .error err => .ok (none, some (handleTopdownErr (some err)))
  | .ok body =>
    match eng.ParseModule "policy.rego" rawModule with
    | .error err => .ok (none, some (handleTopdownErr (some err)))
    | .ok mod =>
      match eng.CompileModules [("policy.rego", mod)] with
      | .error p => .error p
      | .ok compiler =>
        if compiler.Failed then
          .ok (none, some (handleTopdownErr (some (.astErrors compiler.Errors))))
        else
          match mod with
          | none => .error nilDereference
          | some m =>
            match eng.CompileQuery compiler (some m.Package) body with
            | .error p => .error p
            | .ok run =>
              let resolved : Body :=
                match run.stageInput with
                | .error _ => []
                | .ok b => (shortCircuit b).1
              let err : GoError :=
                match run.stageInput with
                | .error err => err
                | .ok b => (shortCircuit b).2.2
              if GoError.Error eng.Error err ≠ "STOP" then
                .ok (none, some (handleTopdownErr (some err)))
              else
                .ok (some ⟨VarsForSelection.vars run.RewrittenVars
                  (VarSet.Sorted (eng.Vars resolved))⟩, none)

/-! ## An engine for two selections of `VarsForSelection` -/

/-- The module `package p`. -/
def examplePModule : Module :=
  ⟨⟨[.var "data", .string "p"], ⟨1, 1⟩⟩, [], []⟩

/-- The selection `z := 1; a := 2` as the parser returns it. -/
def exampleTwoLocals : Body :=
  [.mk [] (.call [.var "assign"] [.var "z", .number "1"]) 0 false false (some ⟨1, 1⟩),
    .mk [] (.call [.var "assign"] [.var "a", .number "2"]) 1 false false (some ⟨1, 9⟩)]

/-- The selection `z := 1; a := 2` after `RewriteWithValues`: the declared
variables are renamed in the order of their declaration, and `:=` is rewritten
to `=`. -/
def exampleTwoLocalsResolved : Body :=
  [.mk [] (.call [.var "eq"] [.var "__localq0__", .number "1"]) 0 false false
      (some ⟨1, 1⟩),
    .mk [] (.call [.var "eq"] [.var "__localq1__", .number "2"]) 1 false false
      (some ⟨1, 9⟩)]

/-- The selection `some x in [1, 2, 3]` after `RewriteWithValues`, a call of
`internal.member_2`. -/
def exampleSomeInResolved : Body :=
  [.mk [] (.call [.var "internal", .string "member_2"]
      [.var "__localq0__", .array [.number "1", .number "2", .number "3"]])
    0 false false (some ⟨1, 1⟩)]

/-- The variables among the operands of the calls of a body. -/
def exampleOperandVars (b : Body) : List String :=
  b.flatMap (fun e =>
    match e.Terms with
    | .call _ args =>
      args.filterMap (fun t =>
        match t with
        | .var v => some v
        | _ => none)
    | _ => [])

/-- An engine for the module `package p` and the selections `z := 1; a := 2`
and `some x in [1, 2, 3]`; every other text is rejected. -/
def exampleVarsEngine : VarsEngine where
  ParseBody := fun text =>
    if text = "z := 1; a := 2" then .ok exampleTwoLocals
    else if text = "some x in [1,2,3]" then
      .ok [.mk [] (.someDecl [.call [.ref [.var "internal", .string "member_2"], .var "x",
        .array [.number "1", .number "2", .number "3"]]]) 0 false false (some ⟨1, 1⟩)]
    else .error (.astErrors [⟨"rego_parse_error", none, "unexpected token"⟩])
  ParseModule := fun _ text =>
    if text = "package p" then .ok (some examplePModule)
    else .error (.astErrors [⟨"rego_parse_error", none, "unexpected token"⟩])
  CompileModules := fun ms =>
    .ok ⟨ms.filterMap (fun nm => nm.2.map (fun m => (nm.1, m))), []⟩
  CompileQuery := fun _ _ body =>
    if Expr.EqualList body exampleTwoLocals then
      .ok ⟨.ok exampleTwoLocalsResolved, ⟨[("__localq0__", "z"), ("__localq1__", "a")]⟩⟩
    else .ok ⟨.ok exampleSomeInResolved, ⟨[("__localq0__", "x")]⟩⟩
  Vars := exampleOperandVars
  Error := fun _ => "error"

/-! ## `api/api.go`: share keys -/

/-- A Go string or byte slice: its bytes, each below 256. -/
abbrev Bytes := List Nat

/-- The UTF-8 encoding of a code point. -/
def utf8Bytes (c : Nat) : Bytes :=
  if c < 128 then [c]
  else if c < 2048 then [192 + c / 64, 128 + c % 64]
  else if c < 65536 then [224 + c / 4096, 128 + c / 64 % 64, 128 + c % 64]
  else [240 + c / 262144, 128 + c / 4096 % 64, 128 + c / 64 % 64, 128 + c % 64]

/-- The bytes of a text, in UTF-8: the Go string a literal denotes. -/
def bytesOf (s : String) : Bytes :=
  s.data.flatMap (fun ch => utf8Bytes ch.toNat)

/-- The kinds of key, `KeyType`. -/
inductive KeyType where
  | KeyTypeNone
  | KeyTypeLegacy
  | KeyTypeGist
deriving DecidableEq, Repr

/-- The key `StoreKey`. -/
structure StoreKey where
  Id : Bytes
  Revision : Bytes
  KeyType : KeyType
deriving DecidableEq, Repr

/-- The errors of `hex.DecodeString`: `InvalidByteError` and `ErrLength`. -/
inductive HexError where
  | InvalidByteError (b : Nat)
  | ErrLength
deriving DecidableEq, Repr

/-- The value of a hexadecimal digit, upper or lower case, as the table
`reverseHexTable` of `encoding/hex` gives it. -/
def fromHexChar (c : Nat) : Option Nat :=
  if 48 ≤ c ∧ c ≤ 57 then some (c - 48)
  else if 97 ≤ c ∧ c ≤ 102 then some (c - 97 + 10)
  else if 65 ≤ c ∧ c ≤ 70 then some (c - 65 + 10)
  else none

/-- The function `hex.DecodeString`: two digits make one byte, `(a << 4) | b`;
the first invalid digit is reported, then an odd length. -/
def hexDecodeString : Bytes → Except HexError Bytes
  | [] => .ok []
  | [p] =>
    match fromHexChar p with
    | none => .error (.InvalidByteError p)
    | some _ => .error .ErrLength
  | p :: q :: rest =>
    match fromHexChar p with
    | none => .error (.InvalidByteError p)
    | some a =>
      match fromHexChar q with
      | none => .error (.InvalidByteError q)
      | some b =>
        match hexDecodeString rest with
        | .error err => .error err
        | .ok out => .ok ((a * 16 + b) :: out)

/-- The digit `hextable[n]` of `encoding/hex`, the table being
`0123456789abcdef`. -/
def hextable (n : Nat) : Nat :=
  if n < 10 then 48 + n else 87 + n

/-- The function `hex.EncodeToString`: the digits `hextable[v >> 4]` and
`hextable[v & 0x0f]` for every byte `v`. -/
def hexEncodeToString : Bytes → Bytes
  | [] => []
  | v :: rest => hextable (v / 16) :: hextable (v % 16) :: hexEncodeToString rest

/-- The character `encodeURL[n]` of `encoding/base64`, the alphabet being `A` to
`Z`, `a` to `z`, `0` to `9`, `-` and `_`. -/
def encodeURL (n : Nat) : Nat :=
  if n < 26 then 65 + n
  else if n < 52 then 71 + n
  else if n < 62 then n - 4
  else if n = 62 then 45
  else 95

/-- The entry of the decode map of `base64.RawURLEncoding` for the character
`c`, none for a character outside the alphabet. -/
def decodeMapURL (c : Nat) : Option Nat :=
  if 65 ≤ c ∧ c ≤ 90 then some (c - 65)
  else if 97 ≤ c ∧ c ≤ 122 then some (c - 71)
  else if 48 ≤ c ∧ c ≤ 57 then some (c + 4)
  else if c = 45 then some 62
  else if c = 95 then some 63
  else none

/-- The function `base64.RawURLEncoding.EncodeToString`: three bytes make the
value `val = a << 16 | b << 8 | c` and the four characters of `val >> 18 & 0x3F`,
`val >> 12 & 0x3F`, `val >> 6 & 0x3F` and `val & 0x3F`; one or two remaining
bytes make two or three characters, without padding. -/
def base64EncodeToString : Bytes → Bytes
  | [] => []
  | [a] =>
    let val := a * 65536
    [encodeURL (val / 262144 % 64), encodeURL (val / 4096 % 64)]
  | [a, b] =>
    let val := a * 65536 + b * 256
    [encodeURL (val / 262144 % 64), encodeURL (val / 4096 % 64), encodeURL (val / 64 % 64)]
  | a :: b :: c :: rest =>
    let val := a * 65536 + b * 256 + c
    encodeURL (val / 262144 % 64) :: encodeURL (val / 4096 % 64) ::
      encodeURL (val / 64 % 64) :: encodeURL (val % 64) :: base64EncodeToString rest

/-- The characters of a base64 text read through the decode map: `\n` and `\r`
are skipped, a character outside the alphabet is an error. -/
def base64Values : Bytes → Option (List Nat)
  | [] => some []
  | c :: rest =>
    match decodeMapURL c with
    | some v => (base64Values rest).map (fun vs => v :: vs)
    | none => if c = 10 ∨ c = 13 then base64Values rest else none

/-- The quanta of the decoder: four values make the value
`val = a << 18 | b << 12 | c << 6 | d` and the three bytes `val >> 16`,
`val >> 8` and `val`; two or three values at the end make one or two bytes, one
value alone is an error. The decoder is not strict: the unused low bits of a
final quantum are not checked. -/
def base64Quanta : List Nat → Option Bytes
  | [] => some []
  | [_] => none
  | [a, b] =>
    let val := a * 262144 + b * 4096
    some [val / 65536 % 256]
  | [a, b, c] =>
    let val := a * 262144 + b * 4096 + c * 64
    some [val / 65536 % 256, val / 256 % 256]
  | a :: b :: c :: d :: rest =>
    let val := a * 262144 + b * 4096 + c * 64 + d
    (base64Quanta rest).map
      (fun out => val / 65536 % 256 :: val / 256 % 256 :: val % 256 :: out)

/-- The function `base64.RawURLEncoding.DecodeString`, none for an error (the
offset a `CorruptInputError` carries is not kept). -/
def base64DecodeString (s : Bytes) : Option Bytes :=
  (base64Values s).bind base64Quanta

/-- The function `strings.Cut(s, sep)` for a separator of one byte. -/
def stringsCut (sep : Nat) : Bytes → Bytes × Bytes × Bool
  | [] => ([], [], false)
  | c :: rest =>
    if c = sep then ([], rest, true)
    else
      let r := stringsCut sep rest
      (c :: r.1, r.2.1, r.2.2)

/-- What a call ends with: it returns, or the process exits in `log.Fatalf`. -/
inductive Exit (ε α : Type) where
  | returns (a : α)
  | fatal (cause : ε)

/-- The errors of `toOpaque` and `storeKeyFromOpaque`: `store key is nil`, and
`failed to decode share ID: %w` around the error of the base64 decoder or, when
the separator is missing, around a nil error. -/
inductive ShareKeyError where
  | nilKey
  | corruptInput
  | missingSeparator
deriving DecidableEq, Repr

/-- The prefix `g_` of the opaque form of a gist key. -/
def gistPrefix : Bytes := [103, 95]

/-- Method `StoreKey.toOpaque()`: the identifier itself for a key that is not a
gist key; else `g_` and the base64 text of the identifier, `_` and the bytes
the revision is the hexadecimal text of. A revision that is not hexadecimal
ends the process. -/
def StoreKey.toOpaque (sk : Option StoreKey) : Exit HexError (Bytes × Option ShareKeyError) :=
  match sk with
  | none => .returns ([], some .nilKey)
  | some sk =>
    if sk.KeyType = .KeyTypeNone ∨ sk.KeyType = .KeyTypeLegacy then .returns (sk.Id, none)
    else
      match hexDecodeString sk.Revision with
      | .error err => .fatal err
      | .ok decodedBytes =>
        let b64 := base64EncodeToString (sk.Id ++ [95] ++ decodedBytes)
        .returns (gistPrefix ++ b64, none)

/-- The function `storeKeyFromOpaque(opaque)`. -/
def storeKeyFromOpaque (opq : Bytes) : Except ShareKeyError StoreKey :=
  if ¬ gistPrefix.isPrefixOf opq then .ok ⟨opq, [], .KeyTypeLegacy⟩
  else
    let b64 := opq.drop gistPrefix.length
    match base64DecodeString b64 with
    | none => .error .corruptInput
    | some j =>
      let r := stringsCut 95 j
      if ¬ r.2.2 then .error .missingSeparator
      else .ok ⟨r.1, hexEncodeToString r.2.1, .KeyTypeGist⟩

/-- Whether a byte is a lowercase hexadecimal digit. -/
def isLowerHex (c : Nat) : Bool :=
  (48 ≤ c && c ≤ 57) || (97 ≤ c && c ≤ 102)

/-- The values the base64 encoder looks up in its alphabet, before the
lookup. -/
def base64Sextets : Bytes → List Nat
  | [] => []
  | [a] =>
    let val := a * 65536
    [val / 262144 % 64, val / 4096 % 64]
  | [a, b] =>
    let val := a * 65536 + b * 256
    [val / 262144 % 64, val / 4096 % 64, val / 64 % 64]
  | a :: b :: c :: rest =>
    let val := a * 65536 + b * 256 + c
    val / 262144 % 64 :: val / 4096 % 64 :: val / 64 % 64 :: val % 64 :: base64Sextets rest

/-- The first key of `TestGistOpaque`. -/
def exampleGistKey : StoreKey :=
  ⟨bytesOf "4f3d4eb9e5edb45fa5749dfea2ec2224",
    bytesOf "d99b29c358477f8945e031d15515d28d1ca22030", .KeyTypeGist⟩

/-- The second key of `TestGistOpaque`: the bytes of its revision hold an
underscore, and so does the base64 text. -/
def exampleUnderscoreKey : StoreKey :=
  ⟨bytesOf "88e75e0b485b9a5bade710320496bbb5",
    bytesOf "5068c7f988de64a47f7ace06cddefa5fd017faf7", .KeyTypeGist⟩

/-! ## `api/api.go`: requests, responses, the memory store -/

/-- One operation of a JSON patch, `jsonpatch.JsonPatchOperation`. -/
structure JsonPatchOperation where
  Operation : String
  Path : String
  Value : Option Json

/-- The request `DataRequest`. -/
structure DataRequest where
  Input : Option Json
  Data : Option Json
  RegoModules : GoMap Json
  RegoQuery : String
  RegoVersion : Option Int
  QueryPackage : Option String
  QueryImports : Option (List String)
  Trace : Bool
  Coverage : Bool
  Strict : Bool
  ReadOnly : Bool
  BuiltInErrorsAll : Bool
  BuiltInErrorsStrict : Bool
  Etag : String
  Patch : Option (List JsonPatchOperation)

/-- The zero value of `DataRequest`. -/
def DataRequest.zero : DataRequest :=
  { Input := none, Data := none, RegoModules := GoMap.empty, RegoQuery := "",
    RegoVersion := none, QueryPackage := none, QueryImports := none, Trace := false,
    Coverage := false, Strict := false, ReadOnly := false, BuiltInErrorsAll := false,
    BuiltInErrorsStrict := false, Etag := "", Patch := none }

/-- The errors a store returns: an `*UnauthorizedError`, or any other error. -/
inductive StoreError where
  | unauthorized (message : String)
  | other (err : GoError)

/-- The error handed to `writeError`: nil, an error of the package `opa` or of
a library as it is, such an error wrapped by `fmt.Errorf` behind a text, or the
error of a store. -/
inductive Cause where
  | nil
  | of (err : GoError)
  | wrapped (text : String) (err : GoError)
  | store (err : StoreError)

/-- The field `Result` of a response: nothing, a result set, or the text
`base/kind/id` made by `fmt.Sprintf`. -/
inductive ResponseResult where
  | none
  | results (rs : ResultSet)
  | link (base kind : String) (id : Bytes)

/-- The response `DataResponse`, with the fields the two handlers fill. -/
structure DataResponse where
  Result : ResponseResult
  Pretty : Option String
  RegoVersion : Option Int
  EvalTime : Option Int
  Trace : List String
  Output : String
  Coverage : Option String
  Ignored : Ignored

/-- What a handler writes to the `http.ResponseWriter`: through
`writeErrorAndIgnored` (`writeError` passes no diagnostics), or through
`writeJSON` with a `DataResponse`. -/
inductive Written where
  | apiError (status : Int) (code : String) (err : Cause) (ignored : Ignored)
  | json (status : Int) (response : DataResponse)

/-- The code `apiCodeParseError`. -/
def apiCodeParseError : String := "parse_error"

/-- The code `apiCodeInternalError`. -/
def apiCodeInternalError : String := "internal_error"

/-- The code `apiCodeNotFound`. -/
def apiCodeNotFound : String := "not_found"

/-- The code `apiCodeUnauthorized`. -/
def apiCodeUnauthorized : String := "unauthorized"

/-- The code `apiCodeFileTooLarge`. -/
def apiCodeFileTooLarge : String := "file_too_large"

/-- The code `apiCodeInvalidArgument`. -/
def apiCodeInvalidArgument : String := "invalid_argument"

/-- The limit `maxUploadSizeLimitBytes`. -/
def maxUploadSizeLimitBytes : Nat := 32768

/-- The function `writeError(w, status, code, err)`. -/
def writeError (status : Int) (code : String) (err : Cause) : Written :=
  .apiError status code err []

/-- The function `strings.Split(s, sep)` for a separator of one character. -/
def stringsSplit (sep : Char) : List Char → List (List Char)
  | [] => [[]]
  | c :: rest =>
    if c = sep then [] :: stringsSplit sep rest
    else
      match stringsSplit sep rest with
      | [] => [[c]]
      | seg :: segs => (c :: seg) :: segs

/-- The function `strings.TrimSuffix(s, "/")`. -/
def trimSlash (s : String) : String :=
  match s.data.reverse with
  | '/' :: rest => String.mk rest.reverse
  | _ => s

/-! ## `api/api.go`: the query handler -/

/-- What `doHandleQuery` calls outside of its package: the JSON decoder, the
functions `Compile` and `Eval` of the package `opa`, and the pretty printer. -/
structure QueryEnv where
  UnmarshalJSON : Bytes → Except GoError DataRequest
  Compile : Option Json → Option Json → GoMap String → String → Option String →
    Option (List String) → Bool → Option Int →
    Except PanicValue (Option CompileResult × Ignored × Option GoError)
  Eval : CompileResult → EvalOptions → Option EvalResult × Option Error
  PrettyResultString : ResultSet → String

/-- The loop of `doHandleQuery` over `msg.RegoModules`: every module is stored
under the last segment of its path; for a value that is not a string an error
is written, and the loop goes on with the empty text. -/
def doHandleQuery.policies :
    List (String × Json) → GoMap String → List Written → GoMap String × List Written
  | [], policies, written => (policies, written)
  | (path, value) :: rest, policies, written =>
    let parts := (stringsSplit '/' path.data).map String.mk
    let str :=
      match value with
      | .string s => s
      | _ => ""
    let ok :=
      match value with
      | .string _ => true
      | _ => false
    doHandleQuery.policies rest (policies.set (parts.getLastD "") str)
      (if ok then written else written ++ [writeError 400 apiCodeParseError .nil])

/-- The compile step of `doHandleQuery`: the call of `compileWithVersion` with
the requested version, 1 without one, and the retry with version 0. It returns
the versions `compileWithVersion` was called with, in order, and the values of
`regoVersion`, `compileResult`, `ignored` and `err` after the step. -/
def doHandleQuery.compile
    (compileWithVersion : Int →
      Except PanicValue (Option CompileResult × Ignored × Option GoError))
    (requested : Option Int) :
    Except PanicValue (List Int × Int × Option CompileResult × Ignored × Option GoError) :=
  let regoVersion : Int :=
    match requested with
    | some v => v
    | none => 1
  match compileWithVersion regoVersion with
  | .error p => .error p
  | .ok (compileResult, ignored, none) =>
    .ok ([regoVersion], regoVersion, compileResult, ignored, none)
  | .ok (compileResult, ignored, some err) =>
    if regoVersion = 1 then
      match compileWithVersion 0 with
      | .error p => .error p
      | .ok (compileResultv0, ignoredv0, none) =>
        .ok ([regoVersion, 0], 0, compileResultv0, ignoredv0, none)
      | .ok (_, _, some _) =>
        .ok ([regoVersion, 0], regoVersion, compileResult, ignored, some err)
    else .ok ([regoVersion], regoVersion, compileResult, ignored, some err)

/-- The end of `doHandleQuery`, after a compile step without error: the call of
`Eval` and the response. `Eval` dereferences `compileResult`, and
`result.Result` dereferences the result of `Eval`. -/
def doHandleQuery.respond (env : QueryEnv) (msg : DataRequest) (regoVersion : Int)
    (compileResult : Option CompileResult) (ignored : Ignored) :
    Except PanicValue (List Written) :=
  match compileResult with
  | none => .error nilDereference
  | some cr =>
    match env.Eval cr ⟨msg.Trace, msg.Coverage, msg.BuiltInErrorsAll, msg.BuiltInErrorsStrict⟩ with
    | (_, some evalErr) =>
      .ok [.apiError evalErr.HTTPStatus apiCodeInternalError
        (match evalErr.RawError with
          | none => .nil
          | some err => .of err) ignored]
    | (none, none) => .error nilDereference
    | (some result, none) =>
      .ok [.json 200
        { Result := .results result.Result
          EvalTime := some result.Time
          Pretty := some (env.PrettyResultString result.Result)
          Trace := result.Trace
          Output := result.Output
          RegoVersion := some regoVersion
          Coverage := if msg.Coverage then result.Coverage else none
          Ignored := ignored }]

/-- What a call of `doHandleQuery` leaves: the responses written, and the calls
of `opa.Compile`, each with its policies and its version. -/
structure QueryOutcome where
  written : List Written
  compiled : List (GoMap String × Int)

/-- The closure `compileWithVersion` of `doHandleQuery`. -/
def doHandleQuery.compileWithVersion (env : QueryEnv) (msg : DataRequest)
    (policies : GoMap String) (version : Int) :
    Except PanicValue (Option CompileResult × Ignored × Option GoError) :=
  env.Compile msg.Input msg.Data policies msg.RegoQuery msg.QueryPackage msg.QueryImports
    msg.Strict (some version)

/-- The request after `if msg.RegoQuery != "" { msg.Strict = false }`. -/
def doHandleQuery.relaxed (msg : DataRequest) : DataRequest :=
  if msg.RegoQuery ≠ "" then { msg with Strict := false } else msg

/-- The handler `doHandleQuery`; `body` is the outcome of `io.ReadAll(r.Body)`.
The headers written by `addCORSHeaders` and the log lines are left out. -/
def doHandleQuery (env : QueryEnv) (body : Except GoError Bytes) :
    Except PanicValue QueryOutcome :=
  match body with
  | .error err =>
    .ok ⟨[writeError 500 apiCodeInternalError (.wrapped "failed reading request body" err)], []⟩
  | .ok bs =>
    match env.UnmarshalJSON bs with
    | .error err => .ok ⟨[writeError 400 apiCodeParseError (.of err)], []⟩
    | .ok msg0 =>
      if msg0.RegoModules.entries.length = 0 then
        .ok ⟨[writeError 400 apiCodeParseError .nil], []⟩
      else
        let loop := doHandleQuery.policies msg0.RegoModules.entries GoMap.empty []
        let policies := loop.1
        let msg := doHandleQuery.relaxed msg0
        match doHandleQuery.compile (doHandleQuery.compileWithVersion env msg policies)
            msg.RegoVersion with
        | .error p => .error p
        | .ok (versions, _, _, ignored, some err) =>
          .ok ⟨loop.2 ++ [.apiError 400 apiCodeParseError (.of err) ignored],
            versions.map (fun v => (policies, v))⟩
        | .ok (versions, regoVersion, compileResult, ignored, none) =>
          match doHandleQuery.respond env msg regoVersion compileResult ignored with
          | .error p => .error p
          | .ok written => .ok ⟨loop.2 ++ written, versions.map (fun v => (policies, v))⟩

/-! ## `api/mem_store.go` and the update handler -/

/-- The principal of a request, `*Principal`. -/
structure Principal where
  accessToken : String

/-- The store `MemoryDataRequestStore`: the map `store`, and the keys of the
map `watchers`. -/
structure MemoryDataRequestStore where
  store : List (Bytes × DataRequest)
  watchers : List Bytes

/-- The assignment `s.store[id] = dr`. -/
def MemoryDataRequestStore.assign :
    List (Bytes × DataRequest) → Bytes → DataRequest → List (Bytes × DataRequest)
  | [], id, dr => [(id, dr)]
  | (id1, dr1) :: rest, id, dr =>
    if id1 = id then (id1, dr) :: rest
    else (id1, dr1) :: MemoryDataRequestStore.assign rest id dr

/-- Method `MemoryDataRequestStore.Get`. -/
def MemoryDataRequestStore.Get (s : MemoryDataRequestStore) (key : StoreKey)
    (_ : Option Principal) : DataRequest × Bool × Option StoreError :=
  match s.store.lookup key.Id with
  | some dr => (dr, true, none)
  | none => (DataRequest.zero, false, none)

/-- Method `MemoryDataRequestStore.Put`: the request is stored under the
identifier of the key; a watcher of the key is called with it and removed. The
second component is the request the watcher is called with. -/
def MemoryDataRequestStore.Put (s : MemoryDataRequestStore) (key : StoreKey)
    (dr : DataRequest) (_ : Option Principal) :
    MemoryDataRequestStore × Option DataRequest × Option StoreKey × Option StoreError :=
  let store := MemoryDataRequestStore.assign s.store key.Id dr
  if key.Id ∈ s.watchers then
    (⟨store, s.watchers.filter (fun id => id ≠ key.Id)⟩, some dr, some key, none)
  else (⟨store, s.watchers⟩, none, some key, none)

/-- The interface `DataRequestStore`, as far as the update handler calls it, on
a store whose state has type `σ`. -/
structure DataRequestStore (σ : Type) where
  Get : σ → StoreKey → Option Principal → DataRequest × Bool × Option StoreError
  Put : σ → StoreKey → DataRequest → Option Principal →
    σ × Option StoreKey × Option StoreError

/-- The memory store as a `DataRequestStore`. -/
def memoryStore : DataRequestStore MemoryDataRequestStore where
  Get := MemoryDataRequestStore.Get
  Put := fun s key dr principal =>
    let r := MemoryDataRequestStore.Put s key dr principal
    (r.1, r.2.2.1, r.2.2.2)

/-- What `doHandleUpdateDistribute` calls outside of its package, and the
configuration of the service: the JSON decoder and encoder, the hash
`getEtag`, `reflect.DeepEqual` on module maps, the encoder of a data document
(nil or a map) and `jsonpatch.CreatePatch`, and the external URL. -/
structure UpdateEnv where
  UnmarshalJSON : Bytes → Except GoError DataRequest
  Marshal : DataRequest → Bytes
  getEtag : Bytes → Except GoError String
  DeepEqual : GoMap Json → GoMap Json → Bool
  MarshalData : Option (List (String × Json)) → Bytes
  CreatePatch : Bytes → Bytes → Except GoError (List JsonPatchOperation)
  externalURL : String

/-- The conversion `(*data).(map[string]interface{})` of `generateJSONDataPatch`:
the nil map for a nil pointer, the map of an object, a failure otherwise. -/
def dataMap (data : Option Json) : Option (Option (List (String × Json))) :=
  match data with
  | none => some none
  | some (.object kvs) => some (some kvs)
  | some _ => none

/-- The function `generateJSONDataPatch(original, new)`; the first component is
the request `new` after the call. -/
def generateJSONDataPatch (env : UpdateEnv) (original new : DataRequest) :
    DataRequest × Option GoError :=
  match dataMap original.Data with
  | none => (new, some (.errorString "unable convert data to map[string]interface\x7b\x7d"))
  | some originalData =>
    match dataMap new.Data with
    | none => (new, some (.errorString "unable convert data to map[string]interface\x7b\x7d"))
    | some newData =>
      match env.CreatePatch (env.MarshalData originalData) (env.MarshalData newData) with
      | .error _ => (new, some (.errorString "unable to create JSON data Patch"))
      | .ok patch =>
        if patch.length ≠ 0 then ({ new with Patch := some patch }, none) else (new, none)

/-- The request `doHandleUpdateDistribute` goes on with once the stored one is
read, and the error of the patch: when the modules differ from those stored
(`policyUpdated`) the patch of the request is dropped; else a patch of the data
is generated. -/
def doHandleUpdateDistribute.patch (env : UpdateEnv) (existingDataReq msg : DataRequest) :
    DataRequest × Option GoError :=
  let policyUpdated := ! env.DeepEqual msg.RegoModules existingDataReq.RegoModules
  if policyUpdated then ({ msg with Patch := none }, none)
  else generateJSONDataPatch env existingDataReq msg

/-- The handler `doHandleUpdateDistribute` on a store in state `s`: the state
of the store after the call, and the responses written or the panic. `body` is
the outcome of `io.ReadAll(r.Body)`, `principal` that of `api.getPrincipal(r)`;
`key.Id` dereferences the key `Put` returns. -/
def doHandleUpdateDistribute {σ : Type} (env : UpdateEnv) (v1Store : DataRequestStore σ)
    (s : σ) (principal : Option Principal) (body : Except GoError Bytes) (key : StoreKey) :
    σ × Except PanicValue (List Written) :=
  match body with
  | .error err => (s, .ok [writeError 400 apiCodeParseError (.of err)])
  | .ok bs =>
    match env.UnmarshalJSON bs with
    | .error err => (s, .ok [writeError 400 apiCodeParseError (.of err)])
    | .ok msg =>
      if bs.length > maxUploadSizeLimitBytes then
        (s, .ok [writeError 400 apiCodeFileTooLarge
          (.of (.errorString ("cannot distribute files greater than " ++
            toString maxUploadSizeLimitBytes ++ " bytes")))])
      else
        match env.getEtag (env.Marshal msg) with
        | .error err => (s, .ok [writeError 500 apiCodeInternalError (.of err)])
        | .ok etag =>
          let msg1 := { msg with Etag := etag }
          match v1Store.Get s key principal with
          | (_, _, some (.unauthorized message)) =>
            (s, .ok [writeError 401 apiCodeUnauthorized (.store (.unauthorized message))])
          | (_, _, some (.other err)) =>
            (s, .ok [writeError 500 apiCodeInternalError (.store (.other err))])
          | (existingDataReq, found, none) =>
            if ¬ found then (s, .ok [writeError 404 apiCodeNotFound .nil])
            else
              match doHandleUpdateDistribute.patch env existingDataReq msg1 with
              | (_, some err) => (s, .ok [writeError 500 apiCodeInternalError (.of err)])
              | (msg3, none) =>
                match v1Store.Put s key msg3 principal with
                | (s1, _, some err) =>
                  (s1, .ok [writeError 500 apiCodeInternalError (.store err)])
                | (s1, key1, none) =>
                  if msg3.ReadOnly then
                    (s1, .ok [writeError 403 apiCodeInvalidArgument
                      (.of (.errorString "cannot update readonly resource"))])
                  else
                    match key1 with
                    | none => (s1, .error nilDereference)
                    | some k =>
                      (s1, .ok [.json 200
                        { Result := .link (trimSlash env.externalURL) "d" k.Id
                          Pretty := none
                          RegoVersion := none
                          EvalTime := none
                          Trace := []
                          Output := ""
                          Coverage := none
                          Ignored := [] }])

/-! ## Inputs of the handlers -/

/-- An engine whose evaluation succeeds with an empty result set. -/
def exampleQuietEngine : Engine :=
  ⟨fun _ =>
    { prepare := .returns none
      eval := .returns ([], none)
      builtinErrors := []
      timer := some 1000
      trace := []
      coverage := ""
      output := "" }⟩

/-- The engine of `exampleCompileEngine`, its module parser rejecting the policy
of the tests, written without `if`, under version 1. -/
def exampleVersionEngine : CompileEngine :=
  { exampleCompileEngine with
    ParseModuleWithOpts := fun name text opts =>
      if text = examplePolicy ∧ opts.RegoVersion = .RegoV1 then
        .error (.astErrors
          [⟨"rego_parse_error", some ⟨5, 8⟩, "`if` keyword is required before rule body"⟩])
      else exampleCompileEngine.ParseModuleWithOpts name text opts }

/-- The environment of a query whose body decodes to `msg`. -/
def exampleQueryEnv (msg : DataRequest) : QueryEnv where
  UnmarshalJSON := fun _ => .ok msg
  Compile := Compile exampleVersionEngine 0
  Eval := Eval exampleQuietEngine
  PrettyResultString := fun _ => ""

/-- A request without version: the policy of the tests under the path
`play/test.rego`, the query `data.play`. -/
def exampleV0Request : DataRequest :=
  { DataRequest.zero with
    RegoModules := ⟨[("play/test.rego", .string examplePolicy)]⟩
    RegoQuery := "data.play" }

/-- A request with version 0 whose module, the text `package`, does not parse. -/
def exampleBrokenRequest : DataRequest :=
  { exampleV0Request with
    RegoModules := ⟨[("play/test.rego", .string "package")]⟩
    RegoVersion := some 0 }

/-- A request with two modules whose paths end in the same file name. -/
def exampleClashRequest : DataRequest :=
  { DataRequest.zero with
    RegoModules :=
      ⟨[("play/x.rego", .string examplePolicy), ("other/x.rego", .string exampleOtherPolicy)]⟩
    RegoQuery := "data" }

/-- The texts of the modules of a request. -/
def exampleModuleTexts (m : GoMap Json) : List (String × Option String) :=
  m.entries.map (fun kv =>
    (kv.1,
      match kv.2 with
      | .string s => some s
      | _ => none))

/-- The environment of an update whose body decodes to `msg`. -/
def exampleUpdateEnv (msg : DataRequest) : UpdateEnv where
  UnmarshalJSON := fun _ => .ok msg
  Marshal := fun _ => []
  getEtag := fun _ => .ok "\"new\""
  DeepEqual := fun a b => exampleModuleTexts a == exampleModuleTexts b
  MarshalData := fun _ => []
  CreatePatch := fun _ _ => .ok []
  externalURL := "https://play.example/"

/-- The request stored under the key `abc`. -/
def exampleStored : DataRequest :=
  { DataRequest.zero with
    RegoModules := ⟨[("m.rego", .string "package a")]⟩
    Etag := "\"old\"" }

/-- An update with another module and the flag `read_only`. -/
def exampleReadOnlyUpdate : DataRequest :=
  { DataRequest.zero with
    RegoModules := ⟨[("m.rego", .string "package b")]⟩
    ReadOnly := true }

/-- A memory store that holds `exampleStored` under `abc`. -/
def exampleStore : MemoryDataRequestStore :=
  ⟨[(bytesOf "abc", exampleStored)], []⟩

/-- The key `abc`. -/
def exampleKey : StoreKey :=
  ⟨bytesOf "abc", [], .KeyTypeLegacy⟩

/-! ## Further inputs: a flagged policy, a rule before a package statement -/

/-- The policy `in policy` of `TestApiEvalUnsafeBuiltins`. -/
def exampleSendPolicy : String :=
  "\npackage test\np \x7b\n\thttp.send(\x7b\"method\": \"get\", \"url\": \"https://httpbin.org\"\x7d)\n\x7d"

/-- The engine of `exampleCompileEngine` with a module parser that knows the
policy `exampleSendPolicy`. -/
def exampleSendEngine : CompileEngine :=
  { exampleCompileEngine with
    ParseModuleWithOpts := fun name text opts =>
      if text = exampleSendPolicy then .ok (some (exampleModule [exampleSendCall]))
      else exampleCompileEngine.ParseModuleWithOpts name text opts }

/-- The selection made of the rule `a.b = 1 { true }` and, after it, of
`package play`. -/
def exampleRuleThenPackage : String :=
  exampleRefHeadSelection ++ "\npackage play"

/-- The parsers of `exampleRefHeadAst` with the selection
`exampleRuleThenPackage`. -/
def exampleRuleThenPackageAst : Ast :=
  { exampleRefHeadAst with
    ParseStatementsWithOpts := fun file query opts =>
      if query = exampleRuleThenPackage then
        .ok [.rule exampleRefHeadRule, .package examplePlayPackage]
      else exampleRefHeadAst.ParseStatementsWithOpts file query opts }
/-! # Theorems -/

/-! ## Properties of the safety guard -/

theorem refEqual_httpSend (r : Ref) : Ref.Equal r httpSend = true ↔ r = httpSend := by
  unfold Ref.Equal httpSend
  match r with
  | [] => simp [Value.EqualList]
  | [a] => simp [Value.EqualList]
  | a :: b :: c :: rest => simp [Value.EqualList]
  | [a, b] => cases a <;> cases b <;> simp [Value.EqualList, Value.Equal]

theorem isEquality_operator (e : Expr) (h : e.IsEquality = true) :
    e.Operator = [.var "eq"] ∧ e.IsCall = true := by
  rcases e with ⟨w, t, i, g, n, l⟩
  simp only [Expr.IsEquality, isGlobalBuiltin, Expr.Terms] at h
  split at h
  · next head args => simp_all [Expr.Operator, Expr.IsCall, Expr.Terms]
  · simp at h

theorem checkExpr_eq (e : Expr) (s : Errors) :
    checkExpr e s =
      if e.missingOperand then .error nilDereference
      else .ok (e.flagged, if e.flagged then s ++ [unsafeCallError e] else s) := by
  by_cases hc : (e.IsCall && Ref.Equal e.Operator httpSend) = true
  · have hne : e.IsEquality = false := by
      by_contra hq
      have hq1 : e.IsEquality = true := by simpa using hq
      have := (isEquality_operator e hq1).1
      simp only [Bool.and_eq_true] at hc
      rw [this] at hc
      exact absurd hc.2 (by decide)
    simp [checkExpr, hc, Expr.flagged, Expr.missingOperand, hne]
  · by_cases hq : e.IsEquality = true
    · cases ho : e.Operand 1 with
      | none => simp [checkExpr, hc, hq, ho, Expr.missingOperand]
      | some v =>
        cases v <;> simp [checkExpr, hc, hq, ho, Expr.missingOperand, Expr.flagged]
        next r =>
          by_cases hr : Ref.Equal r httpSend = true <;> simp [hr]
    · simp [checkExpr, hc, hq, Expr.missingOperand, Expr.flagged]

theorem guardSpec_nil : GuardSpec (fun s => .ok s) [] [] := by
  refine ⟨fun _ s => by simp, fun e he => by simp at he, fun h => ?_⟩
  obtain ⟨e, he, _⟩ := h
  simp at he

theorem guardSpec_seq {w1 w2 : Errors → Except PanicValue Errors} {a1 a2 o1 o2 : List Expr}
    (h1 : GuardSpec w1 a1 o1) (h2 : GuardSpec w2 a2 o2) :
    GuardSpec (fun s => (w1 s).bind (fun s1 => w2 s1)) (a1 ++ a2) (o1 ++ o2) := by
  obtain ⟨r1, m1, n1⟩ := h1
  obtain ⟨r2, m2, n2⟩ := h2
  refine ⟨fun hall s => ?_, fun e he => ?_, fun h => ?_⟩
  · have e1 := r1 (fun e he => hall e (List.mem_append_left _ he)) s
    have e2 := r2 (fun e he => hall e (List.mem_append_right _ he))
        (s ++ o1.map unsafeCallError)
    simp only [e1, Except.bind, e2, List.map_append, List.append_assoc]
  · rcases List.mem_append.mp he with h | h
    · exact ⟨List.mem_append_left _ (m1 e h).1, (m1 e h).2⟩
    · exact ⟨List.mem_append_right _ (m2 e h).1, (m2 e h).2⟩
  · obtain ⟨e, he, hf⟩ := h
    rcases List.mem_append.mp he with h | h
    · have := n1 ⟨e, h, hf⟩
      simp [this]
    · have := n2 ⟨e, h, hf⟩
      simp [this]

theorem guardSpec_congr {w w' : Errors → Except PanicValue Errors} {a a' o o' : List Expr}
    (hw : ∀ s, w s = w' s) (ha : a = a') (ho : o = o') (h : GuardSpec w' a' o') :
    GuardSpec w a o := by
  have : w = w' := funext hw
  subst this ha ho
  exact h

theorem guardSpec_visit {w : Errors → Except PanicValue Errors} {a o : List Expr} (e : Expr)
    (h : GuardSpec w a o) :
    GuardSpec
      (fun s => match checkExpr e s with
        | .error p => .error p
        | .ok (true, s1) => .ok s1
        | .ok (false, s1) => w s1)
      (e :: a) (if e.flagged then [e] else o) := by
  obtain ⟨r, m, n⟩ := h
  refine ⟨fun hall s => ?_, fun x hx => ?_, fun hex => ?_⟩
  · have hm : e.missingOperand = false := hall e (List.mem_cons_self _ _)
    beta_reduce
    rw [checkExpr_eq, hm]
    by_cases hf : e.flagged = true
    · simp [hf]
    · have hf2 : e.flagged = false := by simpa using hf
      simp [hf2, r (fun x hx => hall x (List.mem_cons_of_mem _ hx)) s]
  · by_cases hf : e.flagged = true
    · simp only [hf, if_true, List.mem_singleton] at hx
      subst hx
      exact ⟨List.mem_cons_self _ _, hf⟩
    · simp only [hf] at hx
      exact ⟨List.mem_cons_of_mem _ (m x hx).1, (m x hx).2⟩
  · by_cases hf : e.flagged = true
    · simp [hf]
    · obtain ⟨x, hx, hxf⟩ := hex
      rcases List.mem_cons.mp hx with h1 | h1
      · subst h1
        exact absurd hxf hf
      · simp only [hf]
        exact n ⟨x, h1, hxf⟩

mutual
theorem guardSpec_value : ∀ v : Value,
    GuardSpec (walkValue checkExpr v) v.allExprs (v.outermost Expr.flagged)
  | .null => guardSpec_nil
  | .boolean _ => guardSpec_nil
  | .number _ => guardSpec_nil
  | .string _ => guardSpec_nil
  | .var _ => guardSpec_nil
  | .ref r => guardSpec_values r
  | .array xs => guardSpec_values xs
  | .object kvs => guardSpec_pairs kvs
  | .set xs => guardSpec_values xs
  | .arrayComprehension t b => guardSpec_seq (guardSpec_value t) (guardSpec_body b)
  | .objectComprehension k v b =>
    guardSpec_seq (guardSpec_seq (guardSpec_value k) (guardSpec_value v)) (guardSpec_body b)
  | .setComprehension t b => guardSpec_seq (guardSpec_value t) (guardSpec_body b)
  | .call c => guardSpec_values c
theorem guardSpec_values : ∀ vs : List Value,
    GuardSpec (walkValues checkExpr vs) (Value.allExprsList vs)
      (Value.outermostList Expr.flagged vs)
  | [] => guardSpec_nil
  | v :: vs => guardSpec_seq (guardSpec_value v) (guardSpec_values vs)
theorem guardSpec_pairs : ∀ kvs : List (Value × Value),
    GuardSpec (walkPairs checkExpr kvs) (Value.allExprsPairs kvs)
      (Value.outermostPairs Expr.flagged kvs)
  | [] => guardSpec_nil
  | (k, v) :: kvs =>
    guardSpec_seq (guardSpec_seq (guardSpec_value k) (guardSpec_value v)) (guardSpec_pairs kvs)
theorem guardSpec_exprTerms : ∀ t : ExprTerms,
    GuardSpec (walkExprTerms checkExpr t) t.allExprs (t.outermost Expr.flagged)
  | .term t => guardSpec_value t
  | .call op args => guardSpec_seq (guardSpec_values op) (guardSpec_values args)
  | .someDecl syms => guardSpec_values syms
  | .every none v d b =>
    guardSpec_seq (guardSpec_seq (guardSpec_value v) (guardSpec_value d)) (guardSpec_body b)
  | .every (some k) v d b =>
    guardSpec_seq (guardSpec_seq (guardSpec_seq (guardSpec_value k) (guardSpec_value v))
      (guardSpec_value d)) (guardSpec_body b)
theorem guardSpec_with : ∀ w : With,
    GuardSpec (walkWith checkExpr w) w.allExprs (w.outermost Expr.flagged)
  | .mk t v => guardSpec_seq (guardSpec_value t) (guardSpec_value v)
theorem guardSpec_withs : ∀ ws : List With,
    GuardSpec (walkWiths checkExpr ws) (With.allExprsList ws)
      (With.outermostList Expr.flagged ws)
  | [] => guardSpec_nil
  | w :: ws => guardSpec_seq (guardSpec_with w) (guardSpec_withs ws)
theorem guardSpec_expr : ∀ e : Expr,
    GuardSpec (walkExpr checkExpr e) e.allExprs (e.outermost Expr.flagged)
  | .mk w t i g n l => by
    have h := guardSpec_visit (.mk w t i g n l)
      (guardSpec_seq (guardSpec_exprTerms t) (guardSpec_withs w))
    refine guardSpec_congr (fun s => ?_) ?_ ?_ h
    · simp only [walkExpr]
      rcases checkExpr (.mk w t i g n l) s with p | ⟨b, s1⟩
      · rfl
      · cases b <;> rfl
    · simp only [Expr.allExprs]
    · simp only [Expr.outermost]
theorem guardSpec_body : ∀ es : List Expr,
    GuardSpec (walkBody checkExpr es) (Expr.allExprsList es)
      (Expr.outermostList Expr.flagged es)
  | [] => guardSpec_nil
  | e :: es => guardSpec_seq (guardSpec_expr e) (guardSpec_body es)
end

theorem guardSpec_optValue : ∀ o : Option Value,
    GuardSpec (fun s => match o with
        | some v => walkValue checkExpr v s
        | none => .ok s)
      (match o with
        | some v => v.allExprs
        | none => [])
      (match o with
        | some v => v.outermost Expr.flagged
        | none => [])
  | none => guardSpec_nil
  | some v => guardSpec_value v

theorem guardSpec_head (h : Head) :
    GuardSpec (walkHead checkExpr h) h.allExprs (h.outermost Expr.flagged) := by
  have hA : GuardSpec
      (fun s => if h.Reference.length > 0 then walkValues checkExpr h.Reference s
        else match h.Key with
          | some k => walkValue checkExpr k s
          | none => .ok s)
      (if h.Reference.length > 0 then Value.allExprsList h.Reference
        else match h.Key with
          | some k => k.allExprs
          | none => [])
      (if h.Reference.length > 0 then Value.outermostList Expr.flagged h.Reference
        else match h.Key with
          | some k => k.outermost Expr.flagged
          | none => []) := by
    by_cases hc : h.Reference.length > 0
    · simp only [hc, if_true]
      exact guardSpec_values h.Reference
    · simp only [hc, if_false]
      exact guardSpec_optValue h.Key
  exact guardSpec_seq (guardSpec_seq hA (guardSpec_values h.Args)) (guardSpec_optValue h.Value)

theorem guardSpec_rule : ∀ r : Rule,
    GuardSpec (walkRule checkExpr r) r.allExprs (r.outermost Expr.flagged)
  | .mk _ _ h b none => guardSpec_seq (guardSpec_head h) (guardSpec_body b)
  | .mk _ _ h b (some r) =>
    guardSpec_seq (guardSpec_seq (guardSpec_head h) (guardSpec_body b)) (guardSpec_rule r)

theorem guardSpec_rules : ∀ rs : List Rule,
    GuardSpec (walkRules checkExpr rs) (Rule.allExprsList rs) (Rule.outermostList Expr.flagged rs)
  | [] => guardSpec_nil
  | r :: rs => guardSpec_seq (guardSpec_rule r) (guardSpec_rules rs)

theorem guardSpec_imports : ∀ is : List Import,
    GuardSpec (walkImports checkExpr is) (Import.allExprsList is)
      (Import.outermostList Expr.flagged is)
  | [] => guardSpec_nil
  | i :: is => guardSpec_seq (guardSpec_value i.Path) (guardSpec_imports is)

theorem guardSpec_module (m : Module) :
    GuardSpec (walkModule checkExpr m) m.allExprs (m.outermost Expr.flagged) :=
  guardSpec_seq (guardSpec_seq (guardSpec_values m.Package.Path) (guardSpec_imports m.Imports))
    (guardSpec_rules m.Rules)

theorem guardSpec_modules : ∀ ms : List (String × Module),
    GuardSpec (walkModules checkExpr ms) (Module.allExprsList ms)
      (Module.outermostList Expr.flagged ms)
  | [] => guardSpec_nil
  | nm :: ms => guardSpec_seq (guardSpec_module nm.2) (guardSpec_modules ms)

/-! ## Claims on the safety guard -/

/-- C1 (amended): for every expression that is a direct call whose callee is the
reference `http.send`, `checkExpr` returns true and records exactly one
violation for that expression, a type error at its location. -/
theorem checkExpr_flags_http_send_call (expr : Expr) (errs : Errors)
    (hcall : expr.IsCall = true) (hop : expr.Operator = httpSend) :
    checkExpr expr errs =
      .ok (true, errs ++ [⟨TypeErr, expr.Location,
        "unsafe built-in function calls in expression: http.send"⟩]) := by
  have h : Ref.Equal expr.Operator httpSend = true := (refEqual_httpSend _).mpr hop
  simp [checkExpr, hcall, h, unsafeCallError, NewError]

/-- Witness of C1 at the call of the tests. -/
theorem checkExpr_flags_http_send_call_witness :
    checkExpr exampleSendCall [] =
      .ok (true, [] ++ [⟨TypeErr, exampleSendCall.Location,
        "unsafe built-in function calls in expression: http.send"⟩]) :=
  checkExpr_flags_http_send_call exampleSendCall [] (by decide) (by rfl)

/-- C1 fails as stated: `net.lookup_ip_addr("example.com")` is a direct call
whose callee is the reference of a denylisted primitive, and `checkExpr` records
nothing for it. -/
theorem checkExpr_ignores_lookup_call :
    exampleLookupCall.IsCall = true ∧ exampleLookupCall.Operator = netLookupIPAddr ∧
      checkExpr exampleLookupCall [] = .ok (false, []) := by
  refine ⟨by decide, by rfl, by rfl⟩

/-- C2 (amended): for every equality expression (operator `eq`) with a second
operand `v`: when `v` is exactly the reference `http.send`, `checkExpr` returns
true and records one violation; when `v` is any other value, it returns false
and records nothing. -/
theorem checkExpr_equality_rule (expr : Expr) (errs : Errors) (v : Term)
    (heq : expr.IsEquality = true) (hv : expr.Operand 1 = some v) :
    (v = .ref httpSend →
        checkExpr expr errs = .ok (true, errs ++ [unsafeCallError expr])) ∧
      (v ≠ .ref httpSend → checkExpr expr errs = .ok (false, errs)) := by
  have hm : expr.missingOperand = false := by simp [Expr.missingOperand, heq, hv]
  have hop := isEquality_operator expr heq
  have hcall : (expr.IsCall && Ref.Equal expr.Operator httpSend) = false := by
    rw [hop.1, hop.2]
    decide
  constructor
  · intro h
    subst h
    have hf : expr.flagged = true := by
      simp [Expr.flagged, heq, hv, (refEqual_httpSend httpSend).mpr rfl]
    rw [checkExpr_eq, hm, hf]
    simp
  · intro h
    have hf : expr.flagged = false := by
      simp only [Expr.flagged, hcall, heq, hv, Bool.false_or, Bool.true_and]
      cases v with
      | ref r =>
        have : ¬ Ref.Equal r httpSend = true := fun hr =>
          h (by rw [(refEqual_httpSend r).mp hr])
        simpa using this
      | _ => rfl
    rw [checkExpr_eq, hm, hf]
    simp

/-- Witness of C2: `__local0__ = http.send` is flagged, `x = 1` is not. -/
theorem checkExpr_equality_rule_witness :
    checkExpr exampleSendAlias [] = .ok (true, [] ++ [unsafeCallError exampleSendAlias]) ∧
      checkExpr exampleCleanEq [] = .ok (false, []) :=
  ⟨(checkExpr_equality_rule exampleSendAlias [] (.ref httpSend) (by decide) (by rfl)).1 rfl,
    (checkExpr_equality_rule exampleCleanEq [] (.number "1") (by decide) (by rfl)).2
      (fun h => Value.noConfusion h)⟩

/-- C2 fails as stated: the equality `__local0__ = net.lookup_ip_addr` and the
assignment `x := http.send` both have a denylisted reference as right-hand
operand, and `checkExpr` records nothing for either. -/
theorem checkExpr_ignores_lookup_alias_and_assign :
    (exampleLookupAlias.IsEquality = true ∧
        exampleLookupAlias.Operand 1 = some (.ref netLookupIPAddr) ∧
        checkExpr exampleLookupAlias [] = .ok (false, [])) ∧
      (exampleSendAssign.IsAssignment = true ∧
        exampleSendAssign.Operand 1 = some (.ref httpSend) ∧
        checkExpr exampleSendAssign [] = .ok (false, [])) := by
  refine ⟨⟨by decide, by rfl, by rfl⟩, by decide, by rfl, by rfl⟩

/-- C3 (amended): the two stages of the guard are independent, and in each the
walk stops below a flagged expression. For a query body in which every equality
has its second operand, `checkHTTPSend` returns, whatever compiler the query
compiler belongs to: the nil body and the list of one type error per flagged
expression that is not nested in another flagged expression, a non-empty list,
when some expression of the body (nested or not) is flagged; the body itself
and a nil error otherwise. For modules in which every equality has its second
operand, `checkHTTPSendCompiler` appends to the compiler's errors one type
error per flagged module expression that is not nested in another flagged
expression, whatever the query is; when some module expression is flagged the
compiler has failed afterwards, and a call of `Compile` whose module
compilation ran the stage on these modules, the engine keeping the errors the
stage recorded, returns no result, no diagnostics and the errors of the
compiler, whatever the query, its package and its imports are. -/
theorem guard_stages (c : Compiler) (qc : QueryCompiler) (q : Body) :
    ((∀ e ∈ Expr.allExprsList q, e.missingOperand = false) →
      ((∃ e ∈ Expr.allExprsList q, e.flagged = true) →
        Expr.outermostList Expr.flagged q ≠ [] ∧
        checkHTTPSend qc q = .ok ([], some (.astErrors
          ((Expr.outermostList Expr.flagged q).map
            (fun e => ⟨TypeErr, e.Location,
              "unsafe built-in function calls in expression: http.send"⟩))))) ∧
      ((∀ e ∈ Expr.allExprsList q, e.flagged = false) →
        checkHTTPSend qc q = .ok (q, none))) ∧
    ((∀ e ∈ Module.allExprsList c.Modules, e.missingOperand = false) →
      checkHTTPSendCompiler c = .ok (⟨c.Modules, c.Errors ++
          (Module.outermostList Expr.flagged c.Modules).map
            (fun e => ⟨TypeErr, e.Location,
              "unsafe built-in function calls in expression: http.send"⟩)⟩, none) ∧
      ((∃ e ∈ Module.allExprsList c.Modules, e.flagged = true) →
        Compiler.Failed ⟨c.Modules, c.Errors ++
          (Module.outermostList Expr.flagged c.Modules).map
            (fun e => ⟨TypeErr, e.Location,
              "unsafe built-in function calls in expression: http.send"⟩)⟩ = true)) ∧
    (∀ (eng : CompileEngine) (k : Nat) (input data : Option Json) (policies : GoMap String)
        (query : String) (qp : Option String) (qi : Option (List String)) (strict : Bool)
        (rv : Option Int) (iv : Option Value) (ms : GoMap Module) (c1 : Compiler),
      (∀ e ∈ Module.allExprsList c.Modules, e.missingOperand = false) →
      (∃ e ∈ Module.allExprsList c.Modules, e.flagged = true) →
      Compile.inputValue eng input = .ok iv →
      Compile.parseModules eng (Compile.regoVer rv) policies.entries GoMap.empty = .ok ms →
      eng.CompileModules (capabilities eng.CapabilitiesForThisVersion) strict
        checkHTTPSendCompiler ms.entries = .ok c1 →
      (∀ c2, checkHTTPSendCompiler c = .ok (c2, none) → ∀ err ∈ c2.Errors, err ∈ c1.Errors) →
      c1.Failed = true ∧
        (∀ e ∈ Module.outermostList Expr.flagged c.Modules,
          (⟨TypeErr, e.Location,
            "unsafe built-in function calls in expression: http.send"⟩ : AstError) ∈
              c1.Errors) ∧
        Compile eng k input data policies query qp qi strict rv =
          .ok (none, [], some (.astErrors c1.Errors))) := by
  refine ⟨?_, ?_, ?_⟩
  rotate_left 2
  · intro eng k input data policies query qp qi strict rv iv ms c1 hm hex hiv hms hcm hkeep
    obtain ⟨hrun, _, hne⟩ := guardSpec_modules c.Modules
    have hw := hrun hm []
    have hstage : checkHTTPSendCompiler c = .ok (⟨c.Modules, c.Errors ++
        (Module.outermostList Expr.flagged c.Modules).map unsafeCallError⟩, none) := by
      simp only [checkHTTPSendCompiler, hw, List.nil_append]
    have hin := hkeep _ hstage
    have hmem : ∀ e ∈ Module.outermostList Expr.flagged c.Modules,
        (⟨TypeErr, e.Location,
          "unsafe built-in function calls in expression: http.send"⟩ : AstError) ∈
            c1.Errors := by
      intro e he
      apply hin
      simp only [List.mem_append, List.mem_map]
      exact Or.inr ⟨e, he, rfl⟩
    have hne1 := hne hex
    have hfailed : c1.Failed = true := by
      obtain ⟨e, he⟩ := List.exists_mem_of_ne_nil _ hne1
      have := List.length_pos_of_mem (hmem e he)
      simp only [Compiler.Failed, gt_iff_lt, decide_eq_true_eq]
      exact this
    refine ⟨hfailed, hmem, ?_⟩
    simp [Compile, hiv, hms, hcm, hfailed]
  · intro hq
    obtain ⟨hrun, hmem, hne⟩ := guardSpec_body q
    have hw := hrun hq []
    constructor
    · intro hex
      have hne1 := hne hex
      refine ⟨hne1, ?_⟩
      have hlen : ((Expr.outermostList Expr.flagged q).map unsafeCallError).length > 0 := by
        rw [List.length_map]
        exact List.length_pos.mpr hne1
      simp only [checkHTTPSend, hw, List.nil_append, hlen, if_true]
      rfl
    · intro hno
      have hnil : Expr.outermostList Expr.flagged q = [] := by
        cases hl : Expr.outermostList Expr.flagged q with
        | nil => rfl
        | cons e es =>
          have he := hmem e (by rw [hl]; exact List.mem_cons_self _ _)
          rw [hno e he.1] at he
          exact absurd he.2 (by decide)
      simp [checkHTTPSend, hw, hnil]
  · intro hm
    obtain ⟨hrun, _, hne⟩ := guardSpec_modules c.Modules
    have hw := hrun hm []
    constructor
    · simp only [checkHTTPSendCompiler, hw, List.nil_append]
      rfl
    · intro hex
      have hne1 := hne hex
      simp only [Compiler.Failed, List.length_append, List.length_map, gt_iff_lt,
        decide_eq_true_eq]
      have := List.length_pos.mpr hne1
      omega

/-- Witness of C3: a flagged query body is rejected by the query stage although
the modules of its compiler are clean, a flagged module makes the compiler
fail whatever the query is, and `Compile` on the flagged policy of
`TestApiEvalUnsafeBuiltins` with the clean query `data` returns the error of
the guard. -/
theorem guard_stages_witness :
    checkHTTPSend ⟨exampleCompiler [exampleCleanEq]⟩ [exampleSendAlias] =
        .ok ([], some (.astErrors [⟨TypeErr, some ⟨4, 2⟩,
          "unsafe built-in function calls in expression: http.send"⟩])) ∧
      checkHTTPSend ⟨exampleCompiler [exampleSendCall]⟩ [exampleCleanEq] =
        .ok ([exampleCleanEq], none) ∧
      checkHTTPSendCompiler (exampleCompiler [exampleSendCall]) =
        .ok (⟨[("test.rego", exampleModule [exampleSendCall])], [⟨TypeErr, some ⟨4, 2⟩,
          "unsafe built-in function calls in expression: http.send"⟩]⟩, none) ∧
      Compiler.Failed ⟨[("test.rego", exampleModule [exampleSendCall])], [⟨TypeErr, some ⟨4, 2⟩,
          "unsafe built-in function calls in expression: http.send"⟩]⟩ = true ∧
      Compile exampleSendEngine 0 none none ⟨[("test.rego", exampleSendPolicy)]⟩ "data" none none
          false none =
        .ok (none, [], some (.astErrors [⟨TypeErr, some ⟨4, 2⟩,
          "unsafe built-in function calls in expression: http.send"⟩])) := by
  have h1 := guard_stages (exampleCompiler [exampleSendCall])
    ⟨exampleCompiler [exampleCleanEq]⟩ [exampleSendAlias]
  have h2 := guard_stages (exampleCompiler [exampleSendCall])
    ⟨exampleCompiler [exampleSendCall]⟩ [exampleCleanEq]
  have hq := (h1.1 (by decide)).1 (by decide)
  have hc := (h2.1 (by decide)).2 (by decide)
  have hm := h1.2.1 (by decide)
  have hcompile := (h1.2.2 exampleSendEngine 0 none none ⟨[("test.rego", exampleSendPolicy)]⟩
    "data" none none false none none ⟨[("test.rego", exampleModule [exampleSendCall])]⟩
    ⟨[("test.rego", exampleModule [exampleSendCall])], [⟨TypeErr, some ⟨4, 2⟩,
      "unsafe built-in function calls in expression: http.send"⟩]⟩
    (by decide) (by decide) rfl rfl rfl
    (by
      intro c2 hc2 err herr
      have h3 : c2 = ⟨[("test.rego", exampleModule [exampleSendCall])],
          [⟨TypeErr, some ⟨4, 2⟩,
            "unsafe built-in function calls in expression: http.send"⟩]⟩ := by
        have h4 := hm.1.symm.trans hc2
        exact ((Prod.mk.inj (Except.ok.inj h4)).1).symm
      rw [h3] at herr
      exact herr)).2.2
  exact ⟨hq.2, hc, hm.1, hm.2 (by decide), hcompile⟩

/-- C3 fails as stated: the module `p { http.send([y | http.send(y)]) }` has two
expressions flagged by `checkExpr`, and `checkHTTPSendCompiler` adds one error. -/
theorem guard_counts_nested_once :
    ((Module.allExprsList (exampleCompiler [exampleNestedSend]).Modules).filter
        Expr.flagged).length = 2 ∧
      checkExpr exampleInnerSend [] = .ok (true, [unsafeCallError exampleInnerSend]) ∧
      checkHTTPSendCompiler (exampleCompiler [exampleNestedSend]) =
        .ok (⟨(exampleCompiler [exampleNestedSend]).Modules,
          [unsafeCallError exampleNestedSend]⟩, none) := by
  refine ⟨by decide, by rfl, by rfl⟩

/-! ## Properties of the selection parser -/

theorem appendAll_eq (body es : List Expr) :
    ∃ es1, appendAll body es = body ++ es1 ∧ es1.length = es.length ∧
      ∀ i (h1 : i < es1.length) (h2 : i < es.length),
        es1.get ⟨i, h1⟩ = (es.get ⟨i, h2⟩).setIndex ((body.length + i : Nat) : Int) := by
  induction es generalizing body with
  | nil => exact ⟨[], by simp [appendAll], rfl, fun i h1 => absurd h1 (by simp)⟩
  | cons e es ih =>
    obtain ⟨es1, h1, h2, h3⟩ := ih (body ++ [e.setIndex body.length])
    refine ⟨e.setIndex body.length :: es1, by simp [appendAll, h1], by simp [h2], ?_⟩
    intro i hi1 hi2
    cases i with
    | zero => simp
    | succ j =>
      simp only [List.get_eq_getElem, List.getElem_cons_succ]
      have := h3 j (by simpa using hi1) (by simpa using hi2)
      simp only [List.get_eq_getElem, List.length_append, List.length_singleton] at this
      rw [this]
      congr 2
      omega

theorem appendAll_append (body xs ys : List Expr) :
    appendAll (appendAll body xs) ys = appendAll body (xs ++ ys) := by
  induction xs generalizing body with
  | nil => rfl
  | cons x xs ih => simp [appendAll, ih]

theorem appendAll_length (body es : List Expr) :
    (appendAll body es).length = body.length + es.length := by
  induction es generalizing body with
  | nil => rfl
  | cons e es ih => simp [appendAll, ih]; omega

theorem adHocExpr_some (ast : Ast) (one : Option Module) (name : String) (e : Expr)
    (h : adHocExpr ast one name = some e) :
    ∃ m, one = some m ∧
      ast.ParseExpr (adHocText (ast.RefString m.Package.Path) name) = .ok e := by
  unfold adHocExpr at h
  cases one with
  | none => simp at h
  | some m =>
    refine ⟨m, rfl, ?_⟩
    simp only at h
    split at h
    · next e1 he => simp only [Option.some.injEq] at h; rw [he, h]
    · simp at h

theorem parseQueryLoop_spec (ast : Ast) (one : Option Module) (stmts : List Statement)
    (st : ParseState) (hpkg : ∀ s ∈ stmts, s.isPackage = false)
    (hsyn : Synthesizes ast one st.adHocAssignmentNames stmts) :
    parseQueryLoop ast one stmts st =
      .ok (⟨appendAll st.parsedQuery
              (selectionExprs ast one st.adHocAssignmentNames stmts),
            recordNames st.adHocAssignments (newRules st.adHocAssignmentNames stmts)⟩,
          st.ignored ++ stmts.filterMap Statement.diagnostic, none) := by
  induction stmts generalizing st with
  | nil => simp [parseQueryLoop, selectionExprs, appendAll, recordNames, newRules]
  | cons s rest ih =>
    have hpkg1 : ∀ s ∈ rest, s.isPackage = false := fun x hx => hpkg x (List.mem_cons_of_mem _ hx)
    have hs := hpkg s (List.mem_cons_self _ _)
    cases s with
    | package p => simp [Statement.isPackage] at hs
    | body b =>
      have hsyn1 : Synthesizes ast one st.adHocAssignmentNames rest :=
        fun name hn => hsyn name (by simpa [newRules] using hn)
      simp only [parseQueryLoop, parseQueryStep]
      rw [ih _ hpkg1 (by exact hsyn1)]
      simp [selectionExprs, appendAll_append, newRules, Statement.diagnostic]
    | rule r =>
      by_cases ha : r.Head.Args.length > 0
      · have hsyn1 : Synthesizes ast one st.adHocAssignmentNames rest :=
   fun name hn => hsyn name (by simpa [newRules, ha] using hn)
        simp only [parseQueryLoop, parseQueryStep, ha, if_true]
        rw [ih _ hpkg1 (by exact hsyn1)]
        simp [selectionExprs, newRules, Statement.diagnostic, ha]
      · by_cases hseen : r.Head.Name ∈ st.adHocAssignmentNames
        · have hsyn1 : Synthesizes ast one st.adHocAssignmentNames rest :=
   fun name hn => hsyn name (by simpa [newRules, ha, hseen] using hn)
          simp only [parseQueryLoop, parseQueryStep, ha, if_false, hseen, not_true_eq_false]
          rw [ih _ hpkg1 (by exact hsyn1)]
          simp [selectionExprs, newRules, Statement.diagnostic, ha, hseen]
        · have hsyn0 : ∀ name ∈ r.Head.Name :: newRules (r.Head.Name :: st.adHocAssignmentNames) rest,
              ∃ e, adHocExpr ast one name = some e :=
            fun name hn => hsyn name (by simpa [newRules, ha, hseen] using hn)
          obtain ⟨e, he⟩ := hsyn0 r.Head.Name (List.mem_cons_self _ _)
          obtain ⟨m, hm, hpe⟩ := adHocExpr_some ast one _ e he
          subst hm
          simp only [parseQueryLoop, parseQueryStep, ha, if_false, hseen, not_false_eq_true,
            if_true, hpe, Body.Append, Except.map]
          rw [ih _ hpkg1 (by exact fun name hn => hsyn0 name (List.mem_cons_of_mem _ hn))]
          simp [selectionExprs, newRules, Statement.diagnostic, ha, hseen, he, appendAll,
            recordNames]
    | imp i =>
      have hsyn1 : Synthesizes ast one st.adHocAssignmentNames rest :=
        fun name hn => hsyn name (by simpa [newRules] using hn)
      simp only [parseQueryLoop, parseQueryStep]
      rw [ih _ hpkg1 (by exact hsyn1)]
      simp [selectionExprs, newRules, Statement.diagnostic, Import.reportedName]
    | other =>
      have hsyn1 : Synthesizes ast one st.adHocAssignmentNames rest :=
        fun name hn => hsyn name (by simpa [newRules] using hn)
      simp only [parseQueryLoop, parseQueryStep]
      rw [ih _ hpkg1 (by exact hsyn1)]
      simp [selectionExprs, newRules, Statement.diagnostic]

theorem parseQueryLoop_returns (ast : Ast) (one : Option Module) (stmts : List Statement)
    (st : ParseState) (res : QueryParseResult × Ignored × Option GoError)
    (hpkg : ∀ s ∈ stmts, s.isPackage = false)
    (hres : parseQueryLoop ast one stmts st = .ok res) :
    Synthesizes ast one st.adHocAssignmentNames stmts := by
  induction stmts generalizing st with
  | nil => intro name hn; simp [newRules] at hn
  | cons s rest ih =>
    have hpkg1 : ∀ s ∈ rest, s.isPackage = false := fun x hx => hpkg x (List.mem_cons_of_mem _ hx)
    have hs := hpkg s (List.mem_cons_self _ _)
    simp only [parseQueryLoop] at hres
    cases s with
    | package p => simp [Statement.isPackage] at hs
    | body b =>
      simp only [parseQueryStep] at hres
      have h1 := ih _ hpkg1 hres
      exact fun name hn => h1 name (by simpa [newRules] using hn)
    | rule r =>
      by_cases ha : r.Head.Args.length > 0
      · simp only [parseQueryStep, ha, if_true] at hres
        have h1 := ih _ hpkg1 hres
        exact fun name hn => h1 name (by simpa [newRules, ha] using hn)
      · by_cases hseen : r.Head.Name ∈ st.adHocAssignmentNames
        · simp only [parseQueryStep, ha, if_false, hseen, not_true_eq_false] at hres
          have h1 := ih _ hpkg1 hres
          exact fun name hn => h1 name (by simpa [newRules, ha, hseen] using hn)
        · simp only [parseQueryStep, ha, if_false, hseen, not_false_eq_true, if_true] at hres
          cases one with
          | none => simp at hres
          | some m =>
            simp only at hres
            cases hpe : ast.ParseExpr (adHocText (ast.RefString m.Package.Path) r.Head.Name) with
            | error err => simp [hpe, Body.Append, Except.map] at hres
            | ok e =>
              simp only [hpe, Body.Append, Except.map] at hres
              have h1 := ih _ hpkg1 hres
              intro name hn
              simp only [newRules, ha, if_false, hseen, List.mem_cons] at hn
              rcases hn with hn | hn
              · subst hn
                exact ⟨e, by simp [adHocExpr, hpe]⟩
              · exact h1 name hn
    | imp i =>
      simp only [parseQueryStep] at hres
      have h1 := ih _ hpkg1 hres
      exact fun name hn => h1 name (by simpa [newRules] using hn)
    | other =>
      simp only [parseQueryStep] at hres
      have h1 := ih _ hpkg1 hres
      exact fun name hn => h1 name (by simpa [newRules] using hn)

theorem parseQueryLoop_result (ast : Ast) (one : Option Module) (stmts : List Statement)
    (st : ParseState) (res : QueryParseResult × Ignored × Option GoError)
    (hpkg : ∀ s ∈ stmts, s.isPackage = false)
    (hres : parseQueryLoop ast one stmts st = .ok res) :
    res = (⟨appendAll st.parsedQuery
              (selectionExprs ast one st.adHocAssignmentNames stmts),
            recordNames st.adHocAssignments (newRules st.adHocAssignmentNames stmts)⟩,
          st.ignored ++ stmts.filterMap Statement.diagnostic, none) := by
  have hsyn := parseQueryLoop_returns ast one stmts st res hpkg hres
  rw [parseQueryLoop_spec ast one stmts st hpkg hsyn] at hres
  exact (Except.ok.inj hres).symm

theorem assignedName_injective (a b : String) (h : assignedName a = assignedName b) : a = b := by
  unfold assignedName at h
  have h1 := congrArg String.data h
  simp only [String.data_append] at h1
  have h2 := List.append_cancel_right h1
  have h3 := List.append_cancel_left h2
  exact String.ext h3

theorem mem_newRules (seen : List String) (stmts : List Statement) (n : String) :
    n ∈ newRules seen stmts ↔ n ∈ selectedRules stmts ∧ n ∉ seen := by
  induction stmts generalizing seen with
  | nil => simp [newRules, selectedRules]
  | cons s rest ih =>
    cases s with
    | rule r =>
      by_cases ha : r.Head.Args.length > 0
      · simp [newRules, selectedRules, ha, ih]
      · by_cases hseen : r.Head.Name ∈ seen
        · simp only [newRules, selectedRules, ha, if_false, hseen, if_true, ih, List.mem_cons]
          constructor
          · rintro ⟨h1, h2⟩
            exact ⟨Or.inr h1, h2⟩
          · rintro ⟨h1 | h1, h2⟩
            · subst h1
              exact absurd hseen h2
            · exact ⟨h1, h2⟩
        · simp only [newRules, selectedRules, ha, if_false, hseen, List.mem_cons, ih, not_or]
          constructor
          · rintro (h1 | ⟨h1, h2, h3⟩)
            · subst h1
              exact ⟨Or.inl rfl, hseen⟩
            · exact ⟨Or.inr h1, h3⟩
          · rintro ⟨h1 | h1, h2⟩
            · exact Or.inl h1
            · by_cases hn : n = r.Head.Name
              · exact Or.inl hn
              · exact Or.inr ⟨h1, hn, h2⟩
    | _ => simp [newRules, selectedRules, ih]

theorem nodup_newRules (seen : List String) (stmts : List Statement) :
    (newRules seen stmts).Nodup := by
  induction stmts generalizing seen with
  | nil => simp [newRules]
  | cons s rest ih =>
    cases s with
    | rule r =>
      by_cases ha : r.Head.Args.length > 0
      · simp [newRules, ha, ih]
      · by_cases hseen : r.Head.Name ∈ seen
        · simp [newRules, ha, hseen, ih]
        · simp only [newRules, ha, if_false, hseen, List.nodup_cons, ih, and_true]
          intro hmem
          have := (mem_newRules _ _ _).mp hmem
          exact this.2 (List.mem_cons_self _ _)
    | _ => simp [newRules, ih]

theorem setEntries_fresh {V : Type} (ent : List (String × V)) (k : String) (v : V)
    (h : k ∉ ent.map Prod.fst) : GoMap.setEntries ent k v = ent ++ [(k, v)] := by
  induction ent with
  | nil => rfl
  | cons kv ent ih =>
    obtain ⟨k1, v1⟩ := kv
    simp only [List.map_cons, List.mem_cons, not_or] at h
    have hne : ¬ k1 = k := fun hk => h.1 hk.symm
    simp [GoMap.setEntries, hne, ih h.2]

theorem recordNames_entries (ent : List (String × String)) (names : List String)
    (hnd : names.Nodup) (hfresh : ∀ n ∈ names, assignedName n ∉ ent.map Prod.fst) :
    (recordNames ⟨ent⟩ names).entries = ent ++ names.map (fun n => (assignedName n, n)) := by
  induction names generalizing ent with
  | nil => simp [recordNames]
  | cons n names ih =>
    have h1 : assignedName n ∉ ent.map Prod.fst := hfresh n (List.mem_cons_self _ _)
    have hnd1 := (List.nodup_cons.mp hnd)
    have step : recordNames ⟨ent⟩ (n :: names) =
        recordNames ⟨ent ++ [(assignedName n, n)]⟩ names := by
      simp [recordNames, GoMap.set, setEntries_fresh ent _ _ h1]
    rw [step, ih _ hnd1.2]
    · simp
    · intro x hx
      simp only [List.map_append, List.map_cons, List.map_nil, List.mem_append,
        List.mem_singleton, not_or]
      refine ⟨hfresh x (List.mem_cons_of_mem _ hx), fun hxe => ?_⟩
      have := assignedName_injective _ _ hxe
      subst this
      exact hnd1.1 hx

theorem selectionExprs_length (ast : Ast) (one : Option Module) (seen : List String)
    (stmts : List Statement) (hsyn : Synthesizes ast one seen stmts) :
    (selectionExprs ast one seen stmts).length =
      (bodyExprs stmts).length + (newRules seen stmts).length := by
  induction stmts generalizing seen with
  | nil => simp [selectionExprs, bodyExprs, newRules]
  | cons s rest ih =>
    cases s with
    | body b =>
      have hsyn1 : Synthesizes ast one seen rest :=
        fun name hn => hsyn name (by simpa [newRules] using hn)
      simp [selectionExprs, bodyExprs, newRules, ih _ hsyn1]; omega
    | rule r =>
      by_cases ha : r.Head.Args.length > 0
      · have hsyn1 : Synthesizes ast one seen rest :=
   fun name hn => hsyn name (by simpa [newRules, ha] using hn)
        simp [selectionExprs, bodyExprs, newRules, ha, ih _ hsyn1]
      · by_cases hseen : r.Head.Name ∈ seen
        · have hsyn1 : Synthesizes ast one seen rest :=
   fun name hn => hsyn name (by simpa [newRules, ha, hseen] using hn)
          simp [selectionExprs, bodyExprs, newRules, ha, hseen, ih _ hsyn1]
        · have hsyn0 : ∀ name ∈ r.Head.Name :: newRules (r.Head.Name :: seen) rest,
              ∃ e, adHocExpr ast one name = some e :=
            fun name hn => hsyn name (by simpa [newRules, ha, hseen] using hn)
          obtain ⟨e, he⟩ := hsyn0 r.Head.Name (List.mem_cons_self _ _)
          simp [selectionExprs, bodyExprs, newRules, ha, hseen, he,
            ih _ (fun name hn => hsyn0 name (List.mem_cons_of_mem _ hn))]
          omega
    | package p =>
      have hsyn1 : Synthesizes ast one seen rest :=
        fun name hn => hsyn name (by simpa [newRules] using hn)
      simp [selectionExprs, bodyExprs, newRules, ih _ hsyn1]
    | imp i =>
      have hsyn1 : Synthesizes ast one seen rest :=
        fun name hn => hsyn name (by simpa [newRules] using hn)
      simp [selectionExprs, bodyExprs, newRules, ih _ hsyn1]
    | other =>
      have hsyn1 : Synthesizes ast one seen rest :=
        fun name hn => hsyn name (by simpa [newRules] using hn)
      simp [selectionExprs, bodyExprs, newRules, ih _ hsyn1]

theorem get_setEntries {V : Type} (ent : List (String × V)) (k : String) (v : V) :
    List.lookup k (GoMap.setEntries ent k v) = some v := by
  induction ent with
  | nil => simp [GoMap.setEntries, List.lookup]
  | cons kv ent ih =>
    obtain ⟨k1, v1⟩ := kv
    by_cases h : k1 = k
    · subst h
      simp [GoMap.setEntries, List.lookup]
    · have h1 : (k == k1) = false := by simpa using fun hk : k = k1 => h hk.symm
      simp [GoMap.setEntries, h, List.lookup, h1, ih]

theorem lookup_assigned (names : List String) (name : String) (h : name ∈ names) :
    List.lookup (assignedName name) (names.map (fun n => (assignedName n, n))) = some name := by
  induction names with
  | nil => simp at h
  | cons n names ih =>
    by_cases hn : name = n
    · subst hn
      simp [List.lookup]
    · have hne : (assignedName name == assignedName n) = false := by
        simpa using fun hk => hn (assignedName_injective _ _ hk)
      have hmem : name ∈ names := by
        rcases List.mem_cons.mp h with h1 | h1
        · exact absurd h1 hn
        · exact h1
      simp [List.lookup, hne, ih hmem]

mutual
theorem valueEqual_refl : ∀ v : Value, Value.Equal v v = true
  | .null => by simp [Value.Equal]
  | .boolean _ => by simp [Value.Equal]
  | .number _ => by simp [Value.Equal]
  | .string _ => by simp [Value.Equal]
  | .var _ => by simp [Value.Equal]
  | .ref r => by simp [Value.Equal, valueEqualList_refl r]
  | .array xs => by simp [Value.Equal, valueEqualList_refl xs]
  | .object kvs => by simp [Value.Equal, valueEqualPairs_refl kvs]
  | .set xs => by simp [Value.Equal, valueEqualList_refl xs]
  | .arrayComprehension t b => by simp [Value.Equal, valueEqual_refl t, exprEqualList_refl b]
  | .objectComprehension k v b => by
    simp [Value.Equal, valueEqual_refl k, valueEqual_refl v, exprEqualList_refl b]
  | .setComprehension t b => by simp [Value.Equal, valueEqual_refl t, exprEqualList_refl b]
  | .call c => by simp [Value.Equal, valueEqualList_refl c]
theorem valueEqualList_refl : ∀ vs : List Value, Value.EqualList vs vs = true
  | [] => by simp [Value.EqualList]
  | v :: vs => by simp [Value.EqualList, valueEqual_refl v, valueEqualList_refl vs]
theorem valueEqualPairs_refl : ∀ kvs : List (Value × Value), Value.EqualPairs kvs kvs = true
  | [] => by simp [Value.EqualPairs]
  | (k, v) :: kvs => by
    simp [Value.EqualPairs, valueEqual_refl k, valueEqual_refl v, valueEqualPairs_refl kvs]
theorem exprTermsEqual_refl : ∀ t : ExprTerms, ExprTerms.Equal t t = true
  | .term t => by simp [ExprTerms.Equal, valueEqual_refl t]
  | .call op args => by
    simp [ExprTerms.Equal, valueEqualList_refl op, valueEqualList_refl args]
  | .someDecl syms => by simp [ExprTerms.Equal, valueEqualList_refl syms]
  | .every none v d b => by
    simp [ExprTerms.Equal, valueEqual_refl v, valueEqual_refl d, exprEqualList_refl b]
  | .every (some k) v d b => by
    simp [ExprTerms.Equal, valueEqual_refl k, valueEqual_refl v, valueEqual_refl d,
      exprEqualList_refl b]
theorem withEqual_refl : ∀ w : With, With.Equal w w = true
  | .mk t v => by simp [With.Equal, valueEqual_refl t, valueEqual_refl v]
theorem withEqualList_refl : ∀ ws : List With, With.EqualList ws ws = true
  | [] => by simp [With.EqualList]
  | w :: ws => by simp [With.EqualList, withEqual_refl w, withEqualList_refl ws]
theorem exprEqual_refl : ∀ e : Expr, Expr.Equal e e = true
  | .mk w t _ _ _ _ => by simp [Expr.Equal, exprTermsEqual_refl t, withEqualList_refl w]
theorem exprEqualList_refl : ∀ es : List Expr, Expr.EqualList es es = true
  | [] => by simp [Expr.EqualList]
  | e :: es => by simp [Expr.EqualList, exprEqual_refl e, exprEqualList_refl es]
end

theorem exprEqual_setIndex (e : Expr) (i : Int) : Expr.Equal (e.setIndex i) e = true := by
  have h := exprEqual_refl e
  rcases e with ⟨w, t, j, g, n, l⟩
  simpa [Expr.setIndex, Expr.Equal] using h

/-! ## Claims on capabilities, evaluation and classification -/

theorem excluded_iff (name : String) :
    excluded name = true ↔ name = "http.send" ∨ name = "net.lookup_ip_addr" := by
  unfold excluded HTTPSendName NetLookupIPAddrName
  by_cases h1 : name = "http.send"
  · subst h1
    decide
  · by_cases h2 : name = "net.lookup_ip_addr"
    · subst h2
      decide
    · have e1 : (name == "http.send") = false := by simpa using h1
      have e2 : (name == "net.lookup_ip_addr") = false := by simpa using h2
      simp [List.lookup, e1, e2, h1, h2]

theorem capabilitiesLoop_eq (bs filtered : List Builtin) :
    capabilitiesLoop bs filtered = filtered ++ bs.filter (fun bi => !excluded bi.Name) := by
  induction bs generalizing filtered with
  | nil => simp [capabilitiesLoop]
  | cons b bs ih =>
    by_cases hb : excluded b.Name = true
    · simp [capabilitiesLoop, hb, ih]
    · simp [capabilitiesLoop, hb, ih]

/-- C4: for every catalog, the built-ins of `capabilities()` are exactly the
catalog filtered by the two-name denylist: none is named `http.send` or
`net.lookup_ip_addr`, every other built-in of the catalog is kept as often as
it occurs, in the order of the catalog; the other fields are untouched. -/
theorem capabilities_filters_denylist (catalog : Capabilities) :
    (capabilities catalog).Builtins =
        catalog.Builtins.filter
          (fun bi => decide (bi.Name ≠ "http.send" ∧ bi.Name ≠ "net.lookup_ip_addr")) ∧
      (∀ bi ∈ (capabilities catalog).Builtins,
        bi.Name ≠ "http.send" ∧ bi.Name ≠ "net.lookup_ip_addr") ∧
      (∀ bi ∈ catalog.Builtins, bi.Name ≠ "http.send" → bi.Name ≠ "net.lookup_ip_addr" →
        bi ∈ (capabilities catalog).Builtins ∧
        (capabilities catalog).Builtins.count bi = catalog.Builtins.count bi) ∧
      List.Sublist (capabilities catalog).Builtins catalog.Builtins ∧
      (capabilities catalog).FutureKeywords = catalog.FutureKeywords ∧
      (capabilities catalog).Features = catalog.Features := by
  have hfun : (fun bi : Builtin => !excluded bi.Name) =
      (fun bi => decide (bi.Name ≠ "http.send" ∧ bi.Name ≠ "net.lookup_ip_addr")) := by
    funext bi
    by_cases h : excluded bi.Name = true
    · have := (excluded_iff _).mp h
      rcases this with h1 | h1
      · rw [h1] at h
        simp [h, h1]
      · rw [h1] at h
        simp [h, h1]
    · have h0 : ¬ (bi.Name = "http.send" ∨ bi.Name = "net.lookup_ip_addr") :=
        fun hx => h ((excluded_iff _).mpr hx)
      have hf : excluded bi.Name = false := by simpa using h
      simp only [not_or] at h0
      simp [hf, h0]
  have heq : (capabilities catalog).Builtins =
      catalog.Builtins.filter
        (fun bi => decide (bi.Name ≠ "http.send" ∧ bi.Name ≠ "net.lookup_ip_addr")) := by
    simp only [capabilities, capabilitiesLoop_eq, List.nil_append, hfun]
  refine ⟨heq, ?_, ?_, ?_, rfl, rfl⟩
  · intro bi hbi
    rw [heq] at hbi
    simpa using (List.mem_filter.mp hbi).2
  · intro bi hbi h1 h2
    rw [heq]
    refine ⟨List.mem_filter.mpr ⟨hbi, by simp [h1, h2]⟩, ?_⟩
    rw [List.count_filter]
    simp [h1, h2]
  · rw [heq]
    exact List.filter_sublist _

theorem Eval_of_panic (engine : Engine) (input : CompileResult) (options : EvalOptions)
    (v : PanicValue) (h : Eval.body engine input options = .panics v) :
    Eval engine input options = (none, none) := by
  simp [Eval, h, Eval.recovered]

theorem evalBody_of_prepare_panic (engine : Engine) (input : CompileResult)
    (options : EvalOptions) (v : PanicValue)
    (h : (engine.run (Eval.regoArgs input options)).prepare = .panics v) :
    Eval.body engine input options = .panics v := by
  simp [Eval.body, h]

/-- C5, the code at an engine whose preparation panics: the deferred function
writes the internal status and the recovered cause through `evalError`, and
`Eval` returns a nil result together with a nil error. -/
theorem Eval_returns_nil_error_after_panic :
    (Eval.recovered ⟨newError, (none, none)⟩ nilDereference).evalError =
        ⟨some (.runtimeError "invalid memory address or nil pointer dereference"), 500⟩ ∧
      Eval examplePanickingEngine exampleCompileResult ⟨false, false, false, false⟩ =
        (none, none) := by
  exact ⟨by rfl, by rfl⟩

/-- C6: for every error `e`, `handleTopdownErr(e)` has cause `e` and one of the
two statuses; the status is 500 exactly when `e` is a `*topdown.Error` whose
code is the cancellation code or the internal code, and 400 otherwise, so for a
`WriteableBuiltInErrors` list, for a single built-in error and for a list of
parse or compile errors. -/
theorem handleTopdownErr_classifies (err : Option GoError) :
    (handleTopdownErr err).RawError = err ∧
      ((handleTopdownErr err).HTTPStatus = 500 ∨ (handleTopdownErr err).HTTPStatus = 400) ∧
      ((handleTopdownErr err).HTTPStatus = 500 ↔
        ∃ e : TopdownError, err = some (.topdown e) ∧
          (e.Code = "eval_cancel_error" ∨ e.Code = "eval_internal_error")) ∧
      ((handleTopdownErr err).HTTPStatus = 400 ↔
        ¬ ∃ e : TopdownError, err = some (.topdown e) ∧
          (e.Code = "eval_cancel_error" ∨ e.Code = "eval_internal_error")) ∧
      (∀ es, (handleTopdownErr (some (.writeableBuiltInErrors es))).HTTPStatus = 400) ∧
      (∀ msg loc,
        (handleTopdownErr (some (.topdown ⟨"eval_builtin_error", msg, loc⟩))).HTTPStatus = 400) ∧
      (∀ es, (handleTopdownErr (some (.astErrors es))).HTTPStatus = 400) := by
  refine ⟨?_, ?_, ?_, ?_, fun es => rfl, fun msg loc => ?_, fun es => rfl⟩
  · unfold handleTopdownErr
    split
    · rfl
    · split <;> rfl
    · rfl
  rotate_right
  · simp [handleTopdownErr, StatusBadRequest, CancelErr, InternalErr]
  all_goals
    rcases err with _ | e
    · simp [handleTopdownErr, StatusBadRequest]
    · cases e with
      | topdown te =>
        by_cases hc : te.Code = CancelErr ∨ te.Code = InternalErr
        · have hc1 := hc
          simp only [CancelErr, InternalErr] at hc1
          simp [handleTopdownErr, hc, hc1, StatusInternalServerError]
        · have hc1 := hc
          simp only [CancelErr, InternalErr] at hc1
          simp [handleTopdownErr, hc, hc1, StatusBadRequest]
      | _ => simp [handleTopdownErr, StatusBadRequest]

/-! ## Claims on the selection parser -/

/-- C7: for every statement of the selection that is a rule without arguments
named `R`, not seen earlier and whose assignment text parses to `e`,
`parseQuery` appends to the query body exactly one expression, `e` with its
index set to its position (equal to `e` for `Expr.Equal`), and records
`__R__ -> R` in the synthetic-name map; diagnostics are unchanged. The text
parsed is `__R__ := { __x__ | __x__ := P.R }` with `P` the rendering of the
path of the package of `one`. -/
theorem parseQuery_synthesizes_rule (ast : Ast) (m : Module) (r : Rule) (st : ParseState)
    (e : Expr) (hargs : r.Head.Args.length = 0)
    (hnew : r.Head.Name ∉ st.adHocAssignmentNames)
    (hparse : ast.ParseExpr (adHocText (ast.RefString m.Package.Path) r.Head.Name) = .ok e) :
    parseQueryStep ast (some m) (.rule r) st =
        .ok (.next
          { parsedQuery := st.parsedQuery ++ [e.setIndex st.parsedQuery.length]
            adHocAssignmentNames := r.Head.Name :: st.adHocAssignmentNames
            adHocAssignments := st.adHocAssignments.set ("__" ++ r.Head.Name ++ "__") r.Head.Name
            ignored := st.ignored }) ∧
      Expr.Equal (e.setIndex st.parsedQuery.length) e = true ∧
      (st.adHocAssignments.set ("__" ++ r.Head.Name ++ "__") r.Head.Name).get
          ("__" ++ r.Head.Name ++ "__") = some r.Head.Name ∧
      adHocText (ast.RefString m.Package.Path) r.Head.Name =
        "__" ++ r.Head.Name ++ "__" ++ " := \x7b __x__ | __x__ := " ++
          ast.RefString m.Package.Path ++ "." ++ r.Head.Name ++ " \x7d" := by
  have ha : ¬ r.Head.Args.length > 0 := by omega
  refine ⟨?_, exprEqual_setIndex e _, get_setEntries _ _ _, rfl⟩
  simp [parseQueryStep, ha, hnew, hparse, Body.Append, Except.map, assignedName]

/-- Witness of C7: the selection of `TestCompileWithRuleBodyUserInput`, in
package `play`. -/
theorem parseQuery_synthesizes_rule_witness :
    parseQueryStep exampleAst (some examplePlayModule) (.rule exampleDefaultHello)
        ⟨[], [], GoMap.empty, []⟩ =
        .ok (.next ⟨[exampleAdHoc], ["hello"], ⟨[("__hello__", "hello")]⟩, []⟩) ∧
      adHocText "data.play" "hello" = "__hello__ := \x7b __x__ | __x__ := data.play.hello \x7d" ∧
      parseQuery exampleAst exampleRuleSelection exampleOpts (some examplePlayModule) =
        .ok (⟨[exampleAdHoc], ⟨[("__hello__", "hello")]⟩⟩, [], none) :=
  ⟨(parseQuery_synthesizes_rule exampleAst examplePlayModule exampleDefaultHello
      ⟨[], [], GoMap.empty, []⟩ exampleAdHoc (by decide) (by decide) (by rfl)).1,
    by decide, by rfl⟩

/-- C8: for every selection without a package statement, `parseQuery` returns
normally exactly when the assignment of each of its rules without arguments can
be built, and what it returns then has: a synthetic-name map with exactly one
entry `__R__ -> R` per distinct name `R` of a rule without arguments, in the
order of first definition; distinct keys; a body made of the expressions of the
plain bodies and one synthesized expression per such name. The synthetic name is
a function of the rule name and is injective, and a rule whose name was already
seen changes nothing. -/
theorem parseQuery_synthetic_names (ast : Ast) (query : String) (opts : ParserOptions)
    (one : Option Module) (stmts : List Statement)
    (hparse : ast.ParseStatementsWithOpts "" query opts = .ok stmts)
    (hpkg : ∀ s ∈ stmts, s.isPackage = false) :
    (Synthesizes ast one [] stmts ↔ ∃ res, parseQuery ast query opts one = .ok res) ∧
      (∀ res, parseQuery ast query opts one = .ok res →
        res.1.adHocAssignments.entries =
            (newRules [] stmts).map (fun R => ("__" ++ R ++ "__", R)) ∧
          (∀ R ∈ selectedRules stmts,
            res.1.adHocAssignments.get ("__" ++ R ++ "__") = some R) ∧
          (res.1.adHocAssignments.entries.map Prod.fst).Nodup ∧
          res.1.adHocAssignments.entries.length = (selectedRules stmts).dedup.length ∧
          res.1.ParsedQuery = appendAll [] (selectionExprs ast one [] stmts) ∧
          res.1.ParsedQuery.length = (bodyExprs stmts).length + (newRules [] stmts).length) ∧
      (newRules [] stmts).Nodup ∧
      (∀ R, R ∈ newRules [] stmts ↔ R ∈ selectedRules stmts) ∧
      (∀ a b : String, "__" ++ a ++ "__" = "__" ++ b ++ "__" → a = b) ∧
      (∀ (st : ParseState) (r : Rule), r.Head.Args.length = 0 →
        r.Head.Name ∈ st.adHocAssignmentNames →
        parseQueryStep ast one (.rule r) st = .ok (.next st)) := by
  have hmem : ∀ R, R ∈ newRules [] stmts ↔ R ∈ selectedRules stmts := fun R => by
    simp [mem_newRules]
  have hnd := nodup_newRules [] stmts
  have hq : parseQuery ast query opts one =
      parseQueryLoop ast one stmts ⟨[], [], GoMap.empty, []⟩ := by
    simp [parseQuery, hparse]
  refine ⟨⟨fun hsyn => ?_, fun hex => ?_⟩, fun res hres => ?_, hnd, hmem,
    fun a b h => assignedName_injective a b h, fun st r hargs hseen => ?_⟩
  · rw [hq, parseQueryLoop_spec ast one stmts _ hpkg hsyn]
    exact ⟨_, rfl⟩
  · obtain ⟨res, hres⟩ := hex
    rw [hq] at hres
    exact parseQueryLoop_returns ast one stmts _ res hpkg hres
  · rw [hq] at hres
    have hsyn := parseQueryLoop_returns ast one stmts _ res hpkg hres
    have hr := parseQueryLoop_result ast one stmts _ res hpkg hres
    have hent : res.1.adHocAssignments.entries =
        (newRules [] stmts).map (fun R => ("__" ++ R ++ "__", R)) := by
      rw [hr]
      have := recordNames_entries [] (newRules [] stmts) hnd (by simp)
      simpa [GoMap.empty, assignedName] using this
    have hperm : (newRules [] stmts).Perm (selectedRules stmts).dedup := by
      rw [List.perm_ext_iff_of_nodup hnd (List.nodup_dedup _)]
      intro R
      rw [hmem, List.mem_dedup]
    refine ⟨hent, fun R hR => ?_, ?_, ?_, ?_, ?_⟩
    · unfold GoMap.get
      rw [hent]
      exact lookup_assigned _ R ((hmem R).mpr hR)
    · rw [hent, List.map_map]
      exact hnd.map (fun a b h => assignedName_injective a b h)
    · rw [hent, List.length_map]
      exact hperm.length_eq
    · rw [hr]
    · rw [hr]
      simp only [appendAll_length, List.length_nil, Nat.zero_add]
      exact selectionExprs_length ast one [] stmts hsyn
  · have ha : ¬ r.Head.Args.length > 0 := by omega
    simp [parseQueryStep, ha, hseen]

/-- Witness of C8: the two definitions of `hello` give one entry and one
synthesized expression. -/
theorem parseQuery_synthetic_names_witness :
    parseQuery exampleAst exampleRuleSelection exampleOpts (some examplePlayModule) =
        .ok (⟨[exampleAdHoc], ⟨[("__hello__", "hello")]⟩⟩, [], none) ∧
      selectedRules [.rule exampleDefaultHello, .rule exampleHello] = ["hello", "hello"] ∧
      [("__hello__", "hello")] =
        (newRules [] [.rule exampleDefaultHello, .rule exampleHello]).map
          (fun R => ("__" ++ R ++ "__", R)) :=
  ⟨by rfl, by decide,
    ((parseQuery_synthetic_names exampleAst exampleRuleSelection exampleOpts
      (some examplePlayModule) [.rule exampleDefaultHello, .rule exampleHello]
      (by rfl) (by decide)).2.1
        (⟨[exampleAdHoc], ⟨[("__hello__", "hello")]⟩⟩, [], none) (by rfl)).1⟩

/-- C9: for every selection whose first statement is a package declaration
with path `P`, `parseQuery` returns the body made of the one expression `P`,
no synthetic name, no diagnostic and no error, whatever the other statements
and the module are. -/
theorem parseQuery_package_first (ast : Ast) (query : String) (opts : ParserOptions)
    (one : Option Module) (p : Package) (rest : List Statement)
    (hparse : ast.ParseStatementsWithOpts "" query opts = .ok (.package p :: rest)) :
    parseQuery ast query opts one =
      .ok (⟨[NewExpr (.term (.ref p.Path))], GoMap.empty⟩, [], none) := by
  simp [parseQuery, hparse, parseQueryLoop, parseQueryStep]

/-- Witness of C9: the selection `package play` gives the body `data.play`. -/
theorem parseQuery_package_first_witness :
    parseQuery exampleAst "package play" exampleOpts (some examplePlayModule) =
      .ok (⟨[NewExpr (.term (.ref [.var "data", .string "play"]))], GoMap.empty⟩, [], none) :=
  parseQuery_package_first exampleAst "package play" exampleOpts (some examplePlayModule)
    examplePlayPackage [] (by rfl)

/-- C10: for every statement of the selection that is a rule with one or more
arguments, named `f` and located at row `r`, column `c`, `parseQuery` leaves the
query body and the synthetic-name map as they are and appends the one diagnostic
`selection:r:c: Ignoring function definition for 'f' during evaluation.`; and
the diagnostics of a selection without package statement are those of its
statements, in source order. -/
theorem parseQuery_ignores_function (ast : Ast) (one : Option Module) (r : Rule)
    (st : ParseState) (hargs : r.Head.Args.length > 0) :
    parseQueryStep ast one (.rule r) st =
        .ok (.next
          { parsedQuery := st.parsedQuery
            adHocAssignmentNames := st.adHocAssignmentNames
            adHocAssignments := st.adHocAssignments
            ignored := st.ignored ++
              ["selection:" ++ toString r.Location.Row ++ ":" ++ toString r.Location.Col ++
                ": Ignoring function definition for '" ++ r.Head.Name ++
                "' during evaluation."] }) ∧
      (∀ (stmts : List Statement) (st0 : ParseState)
          (res : QueryParseResult × Ignored × Option GoError),
        (∀ s ∈ stmts, s.isPackage = false) →
        parseQueryLoop ast one stmts st0 = .ok res →
        res.2.1 = st0.ignored ++ stmts.filterMap Statement.diagnostic) := by
  constructor
  · simp [parseQueryStep, hargs, ignoredFunction]
  · intro stmts st0 res hpkg hres
    rw [parseQueryLoop_result ast one stmts st0 res hpkg hres]

/-- Witness of C10: the selection `two lonely functions with arg` of the tests. -/
theorem parseQuery_ignores_function_witness :
    parseQueryStep exampleAst (some examplePlayModule) (.rule exampleFunctionA)
        ⟨[], [], GoMap.empty, []⟩ =
        .ok (.next ⟨[], [], GoMap.empty,
          ["selection:1:1: Ignoring function definition for 'a' during evaluation."]⟩) ∧
      parseQuery exampleAst exampleFunctionSelection exampleOpts (some examplePlayModule) =
        .ok (⟨[], GoMap.empty⟩,
          ["selection:1:1: Ignoring function definition for 'a' during evaluation.",
            "selection:4:6: Ignoring function definition for 'b' during evaluation."], none) :=
  ⟨(parseQuery_ignores_function exampleAst (some examplePlayModule) exampleFunctionA
      ⟨[], [], GoMap.empty, []⟩ (by decide)).1, by rfl⟩

/-! ## Claims on imports, plain bodies and evaluable statements -/

theorem appendAll_reindex (body es : List Expr) :
    appendAll body es = body ++ reindexFrom body.length es := by
  induction es generalizing body with
  | nil => simp [appendAll, reindexFrom]
  | cons e es ih =>
    simp only [appendAll, reindexFrom]
    rw [ih]
    simp

theorem reindexFrom_equal (n : Nat) (es : List Expr) :
    Expr.EqualList (reindexFrom n es) es = true := by
  induction es generalizing n with
  | nil => simp [reindexFrom, Expr.EqualList]
  | cons e es ih => simp [reindexFrom, Expr.EqualList, exprEqual_setIndex, ih]

theorem reindexFrom_length (n : Nat) (es : List Expr) :
    (reindexFrom n es).length = es.length := by
  induction es generalizing n with
  | nil => rfl
  | cons e es ih => simp [reindexFrom, ih]

theorem reindexFrom_get (n : Nat) (es : List Expr) (i : Nat) (h : i < es.length) :
    (reindexFrom n es)[i]? = some ((es.get ⟨i, h⟩).setIndex ((n + i : Nat) : Int)) := by
  induction es generalizing n i with
  | nil => simp at h
  | cons e es ih =>
    cases i with
    | zero => simp [reindexFrom]
    | succ j =>
      simp only [reindexFrom, List.getElem?_cons_succ, List.get_eq_getElem,
        List.getElem_cons_succ]
      have := ih (n + 1) j (by simpa using h)
      rw [this]
      simp only [List.get_eq_getElem, Option.some.injEq]
      congr 2
      omega

theorem setIndex_self (e : Expr) : e.setIndex e.Index = e := by
  rcases e with ⟨w, t, i, g, n, l⟩
  rfl

theorem reindexFrom_id (n : Nat) (es : List Expr)
    (h : ∀ (k : Nat) (hk : k < es.length), (es.get ⟨k, hk⟩).Index = ((n + k : Nat) : Int)) :
    reindexFrom n es = es := by
  induction es generalizing n with
  | nil => rfl
  | cons e es ih =>
    have h0 := h 0 (by simp)
    simp only [List.get_eq_getElem, List.getElem_cons_zero, Nat.add_zero] at h0
    have hrest : ∀ (k : Nat) (hk : k < es.length),
        (es.get ⟨k, hk⟩).Index = ((n + 1 + k : Nat) : Int) := by
      intro k hk
      have := h (k + 1) (by simpa using hk)
      simp only [List.get_eq_getElem, List.getElem_cons_succ] at this
      rw [List.get_eq_getElem, this]
      congr 1
      omega
    simp only [reindexFrom, ih (n + 1) hrest]
    rw [← h0, setIndex_self]

theorem bodyExprs_map_body (bs : List Body) :
    bodyExprs (bs.map Statement.body) = bs.flatten := by
  induction bs with
  | nil => rfl
  | cons b bs ih => simp [bodyExprs, ih]

theorem selectionExprs_map_body (ast : Ast) (one : Option Module) (seen : List String)
    (bs : List Body) : selectionExprs ast one seen (bs.map Statement.body) = bs.flatten := by
  induction bs with
  | nil => rfl
  | cons b bs ih => simp [selectionExprs, ih]

theorem newRules_map_body (seen : List String) (bs : List Body) :
    newRules seen (bs.map Statement.body) = [] := by
  induction bs with
  | nil => rfl
  | cons b bs ih => simp [newRules, ih]

theorem diagnostic_map_body (bs : List Body) :
    (bs.map Statement.body).filterMap Statement.diagnostic = [] := by
  induction bs with
  | nil => rfl
  | cons b bs ih => simp [Statement.diagnostic, ih]

/-- C11: for every statement of the selection that is an import located at row
`r`, column `c`, `parseQuery` leaves the query body and the synthetic-name map as
they are and appends the one diagnostic
`selection:r:c: Ignoring `import` statement for 'N' during evaluation.`, where
`N` is the alias when there is one, else the last segment of the path when that
segment is a string, else the empty string; a selection made of one import only
gives an empty query body, no synthetic name, that one diagnostic and no
error. -/
theorem parseQuery_ignores_import (ast : Ast) (one : Option Module) (i : Import)
    (st : ParseState) :
    parseQueryStep ast one (.imp i) st =
        .ok (.next
          { parsedQuery := st.parsedQuery
            adHocAssignmentNames := st.adHocAssignmentNames
            adHocAssignments := st.adHocAssignments
            ignored := st.ignored ++
              ["selection:" ++ toString i.Location.Row ++ ":" ++ toString i.Location.Col ++
                ": Ignoring `import` statement for '" ++ i.reportedName ++
                "' during evaluation."] }) ∧
      (i.Alias.length > 0 → i.reportedName = i.Alias) ∧
      (∀ path s, i.Alias.length = 0 → i.Path = .ref path →
        path.getLast? = some (.string s) → i.reportedName = s) ∧
      (i.Alias.length = 0 →
        (∀ path s, i.Path = .ref path → path.getLast? ≠ some (.string s)) →
        i.reportedName = "") ∧
      (∀ query opts, ast.ParseStatementsWithOpts "" query opts = .ok [.imp i] →
        parseQuery ast query opts one =
          .ok (⟨[], GoMap.empty⟩,
            ["selection:" ++ toString i.Location.Row ++ ":" ++ toString i.Location.Col ++
              ": Ignoring `import` statement for '" ++ i.reportedName ++
              "' during evaluation."], none)) := by
  refine ⟨rfl, fun h => by simp [Import.reportedName, h], fun path s h hp hl => ?_,
    fun h hno => ?_, fun query opts hq => ?_⟩
  · have h0 : ¬ i.Alias.length > 0 := by omega
    simp [Import.reportedName, h0, tailOfImportPath, hp, hl]
  · have h0 : ¬ i.Alias.length > 0 := by omega
    simp only [Import.reportedName, h0, if_false]
    cases hp : i.Path with
    | ref path =>
      cases hl : path.getLast? with
      | none => simp [tailOfImportPath, hp, hl]
      | some v =>
        cases v with
        | string s => exact absurd hl (hno path s hp)
        | _ => simp [tailOfImportPath, hp, hl]
    | _ => simp [tailOfImportPath, hp]
  · simp [parseQuery, hq, parseQueryLoop, parseQueryStep, ignoredImport, Import.reportedName]

/-- Witness of C11: the selection `import input.x` names `x`, an aliased import
names its alias, and `import input` names nothing. -/
theorem parseQuery_ignores_import_witness :
    parseQuery exampleSelectionAst "import input.x" exampleOpts (some examplePlayModule) =
        .ok (⟨[], GoMap.empty⟩,
          ["selection:1:1: Ignoring `import` statement for 'x' during evaluation."], none) ∧
      exampleImportFoo.reportedName = "foo" ∧
      exampleImportInput.reportedName = "" :=
  ⟨(parseQuery_ignores_import exampleSelectionAst (some examplePlayModule) exampleImportX
      ⟨[], [], GoMap.empty, []⟩).2.2.2.2 "import input.x" exampleOpts (by rfl),
    by decide, by decide⟩

/-- C12: for every selection made of plain body statements only, `parseQuery`
returns as query body the concatenation of the expressions of those statements
in source order, each with its index set to its position and otherwise as it
was (so the body is equal to the concatenation for `Body.Equal`), together with
no diagnostic, no synthetic name and no error. Where the expressions are
already indexed by their position, as in a selection of one body, the body is
the concatenation itself. -/
theorem parseQuery_plain_bodies (ast : Ast) (query : String) (opts : ParserOptions)
    (one : Option Module) (bs : List Body)
    (hparse : ast.ParseStatementsWithOpts "" query opts = .ok (bs.map Statement.body)) :
    parseQuery ast query opts one =
        .ok (⟨reindexFrom 0 bs.flatten, GoMap.empty⟩, [], none) ∧
      Expr.EqualList (reindexFrom 0 bs.flatten) bs.flatten = true ∧
      (reindexFrom 0 bs.flatten).length = bs.flatten.length ∧
      (∀ (k : Nat) (h : k < bs.flatten.length),
        (reindexFrom 0 bs.flatten)[k]? = some ((bs.flatten.get ⟨k, h⟩).setIndex (k : Int))) ∧
      ((∀ (k : Nat) (h : k < bs.flatten.length), (bs.flatten.get ⟨k, h⟩).Index = (k : Int)) →
        reindexFrom 0 bs.flatten = bs.flatten) := by
  refine ⟨?_, reindexFrom_equal 0 _, reindexFrom_length 0 _, fun k h => ?_, fun hidx => ?_⟩
  rotate_left 2
  · exact reindexFrom_id 0 _ (fun k hk => by simpa using hidx k hk)
  · have hpkg : ∀ s ∈ bs.map Statement.body, s.isPackage = false := by
      intro s hs
      obtain ⟨b, _, rfl⟩ := List.mem_map.mp hs
      rfl
    have hsyn : Synthesizes ast one [] (bs.map Statement.body) := by
      intro name hn
      simp [newRules_map_body] at hn
    simp only [parseQuery, hparse]
    rw [parseQueryLoop_spec ast one _ _ hpkg (by exact hsyn)]
    simp [selectionExprs_map_body, newRules_map_body, Statement.diagnostic, recordNames,
      appendAll_reindex]
  · have := reindexFrom_get 0 bs.flatten k h
    simpa using this

/-- Witness of C12: the two one-line bodies `x = 1` and `y = 2` give the body
`x = 1; y = 2`, the second expression now at index 1. -/
theorem parseQuery_plain_bodies_witness :
    parseQuery exampleSelectionAst "x = 1\ny = 2" exampleOpts (some examplePlayModule) =
      .ok (⟨[exampleFirstEq, exampleSecondEq.setIndex 1], GoMap.empty⟩, [], none) :=
  (parseQuery_plain_bodies exampleSelectionAst "x = 1\ny = 2" exampleOpts
    (some examplePlayModule) [[exampleFirstEq], [exampleSecondEq]] (by rfl)).1

theorem parseQueryLoop_nonempty (ast : Ast) (one : Option Module) (stmts : List Statement)
    (st : ParseState) (res : QueryParseResult × Ignored × Option GoError)
    (hres : parseQueryLoop ast one stmts st = .ok res)
    (hinv : st.adHocAssignmentNames = [] ∨ st.parsedQuery ≠ [])
    (hev : st.parsedQuery ≠ [] ∨ ∃ s ∈ stmts, s.evaluable = true ∨ s.isPackage = true) :
    res.1.ParsedQuery ≠ [] := by
  induction stmts generalizing st with
  | nil =>
    simp only [parseQueryLoop, Except.ok.injEq] at hres
    subst hres
    rcases hev with h | ⟨s, hs, _⟩
    · exact h
    · simp at hs
  | cons s rest ih =>
    simp only [parseQueryLoop] at hres
    cases s with
    | package p =>
      simp only [parseQueryStep, Except.ok.injEq] at hres
      subst hres
      simp
    | body b =>
      simp only [parseQueryStep] at hres
      refine ih _ hres ?_ ?_
      · rcases hinv with h | h
        · exact Or.inl h
        · refine Or.inr (fun hnil => h ?_)
          have := congrArg List.length hnil
          simp only [appendAll_length, List.length_nil] at this
          exact List.length_eq_zero.mp (by omega)
      · by_cases hb : b = []
        · subst hb
          rcases hev with h | ⟨x, hx, hxe⟩
          · exact Or.inl (by simpa [appendAll] using h)
          · rcases List.mem_cons.mp hx with h1 | h1
            · subst h1
              simp [Statement.evaluable, Statement.isPackage] at hxe
            · exact Or.inr ⟨x, h1, hxe⟩
        · refine Or.inl (fun hnil => hb ?_)
          have := congrArg List.length hnil
          simp only [appendAll_length, List.length_nil] at this
          exact List.length_eq_zero.mp (by omega)
    | rule r =>
      by_cases ha : r.Head.Args.length > 0
      · simp only [parseQueryStep, ha, if_true] at hres
        refine ih _ hres hinv ?_
        rcases hev with h | ⟨x, hx, hxe⟩
        · exact Or.inl h
        · rcases List.mem_cons.mp hx with h1 | h1
          · subst h1
            have : ¬ r.Head.Args.length = 0 := by omega
            simp [Statement.evaluable, Statement.isPackage, this] at hxe
          · exact Or.inr ⟨x, h1, hxe⟩
      · by_cases hseen : r.Head.Name ∈ st.adHocAssignmentNames
        · simp only [parseQueryStep, ha, if_false, hseen, not_true_eq_false] at hres
          have hne : st.parsedQuery ≠ [] := by
            rcases hinv with h | h
            · rw [h] at hseen
              simp at hseen
            · exact h
          exact ih _ hres (Or.inr hne) (Or.inl hne)
        · simp only [parseQueryStep, ha, if_false, hseen, not_false_eq_true, if_true] at hres
          cases one with
          | none => simp at hres
          | some m =>
            simp only at hres
            cases hpe : ast.ParseExpr (adHocText (ast.RefString m.Package.Path) r.Head.Name) with
            | error err => simp [hpe, Body.Append, Except.map] at hres
            | ok e =>
              simp only [hpe, Body.Append, Except.map] at hres
              exact ih _ hres (Or.inr (by simp)) (Or.inl (by simp))
    | imp i =>
      simp only [parseQueryStep] at hres
      refine ih _ hres hinv ?_
      rcases hev with h | ⟨x, hx, hxe⟩
      · exact Or.inl h
      · rcases List.mem_cons.mp hx with h1 | h1
        · subst h1
          simp [Statement.evaluable, Statement.isPackage] at hxe
        · exact Or.inr ⟨x, h1, hxe⟩
    | other =>
      simp only [parseQueryStep] at hres
      refine ih _ hres hinv ?_
      rcases hev with h | ⟨x, hx, hxe⟩
      · exact Or.inl h
      · rcases List.mem_cons.mp hx with h1 | h1
        · subst h1
          simp [Statement.evaluable, Statement.isPackage] at hxe
        · exact Or.inr ⟨x, h1, hxe⟩

/-- C13: for every selection that parses and has at least one evaluable
statement (a plain body with an expression, or a rule without arguments),
whatever `parseQuery` returns has no error and a query body with at least one
expression; and without package statement it does return as soon as the
assignment of each rule without arguments can be built. -/
theorem parseQuery_body_nonempty (ast : Ast) (query : String) (opts : ParserOptions)
    (one : Option Module) (stmts : List Statement)
    (hparse : ast.ParseStatementsWithOpts "" query opts = .ok stmts)
    (hev : ∃ s ∈ stmts, s.evaluable = true) :
    (∀ res, parseQuery ast query opts one = .ok res →
        1 ≤ res.1.ParsedQuery.length) ∧
      ((∀ s ∈ stmts, s.isPackage = false) → Synthesizes ast one [] stmts →
        ∃ res, parseQuery ast query opts one = .ok res ∧ res.2.2 = none ∧
          1 ≤ res.1.ParsedQuery.length) := by
  have hq : parseQuery ast query opts one =
      parseQueryLoop ast one stmts ⟨[], [], GoMap.empty, []⟩ := by
    simp [parseQuery, hparse]
  have hmain : ∀ res, parseQuery ast query opts one = .ok res →
      1 ≤ res.1.ParsedQuery.length := by
    intro res hres
    rw [hq] at hres
    obtain ⟨s, hs, hse⟩ := hev
    have := parseQueryLoop_nonempty ast one stmts _ res hres (Or.inl rfl)
      (Or.inr ⟨s, hs, Or.inl hse⟩)
    exact List.length_pos.mpr this
  refine ⟨hmain, fun hpkg hsyn => ?_⟩
  have hspec := parseQueryLoop_spec ast one stmts ⟨[], [], GoMap.empty, []⟩ hpkg (by exact hsyn)
  rw [← hq] at hspec
  exact ⟨_, hspec, rfl, hmain _ hspec⟩

/-- Witness of C13: the selection of `TestCompileWithRuleBodyUserInput` has two
rules without arguments and gives a body of one expression. -/
theorem parseQuery_body_nonempty_witness :
    parseQuery exampleAst exampleRuleSelection exampleOpts (some examplePlayModule) =
        .ok (⟨[exampleAdHoc], ⟨[("__hello__", "hello")]⟩⟩, [], none) ∧
      1 ≤ ([exampleAdHoc] : Body).length :=
  ⟨by rfl,
    (parseQuery_body_nonempty exampleAst exampleRuleSelection exampleOpts
      (some examplePlayModule) [.rule exampleDefaultHello, .rule exampleHello] (by rfl)
      ⟨.rule exampleHello, by simp, by decide⟩).1
      (⟨[exampleAdHoc], ⟨[("__hello__", "hello")]⟩⟩, [], none) (by rfl)⟩

/-! ## Claims on the projection of results and on collected built-in errors -/

theorem lookup_setEntries_ne {V : Type} (ent : List (String × V)) (k k1 : String) (v : V)
    (h : k1 ≠ k) : List.lookup k1 (GoMap.setEntries ent k v) = List.lookup k1 ent := by
  induction ent with
  | nil =>
    have : (k1 == k) = false := by simpa using h
    simp [GoMap.setEntries, List.lookup, this]
  | cons kv ent ih =>
    obtain ⟨k2, v2⟩ := kv
    by_cases h2 : k2 = k
    · subst h2
      have : (k1 == k2) = false := by simpa using h
      simp [GoMap.setEntries, List.lookup, this]
    · by_cases h3 : k1 = k2
      · subst h3
        simp [GoMap.setEntries, h2, List.lookup]
      · have : (k1 == k2) = false := by simpa using h3
        simp [GoMap.setEntries, h2, List.lookup, this, ih]

theorem filterBindings_eq (adHoc : GoMap String) (entries : List (String × Json))
    (bindings : GoMap Json) :
    filterBindings adHoc entries bindings =
      (entries.filterMap (projectedBinding adHoc)).foldl
        (fun m kv => m.set kv.1 kv.2) bindings := by
  induction entries generalizing bindings with
  | nil => rfl
  | cons e entries ih =>
    obtain ⟨name, binding⟩ := e
    cases h : adHoc.get name with
    | none => simp [filterBindings, projectedBinding, h, ih]
    | some actual =>
      cases binding with
      | array xs =>
        cases xs with
        | nil => simp [filterBindings, projectedBinding, h, ih]
        | cons first rest => simp [filterBindings, projectedBinding, h, ih]
      | _ => simp [filterBindings, projectedBinding, h, ih]

theorem get_foldl_set (kvs : List (String × Json)) (m : GoMap Json) (k : String) (v : Json)
    (hmem : (k, v) ∈ kvs) (huniq : ∀ kv ∈ kvs, kv.1 = k → kv.2 = v) :
    (kvs.foldl (fun m kv => m.set kv.1 kv.2) m).get k = some v := by
  induction kvs generalizing m with
  | nil => simp at hmem
  | cons kv kvs ih =>
    simp only [List.foldl_cons]
    by_cases hin : (k, v) ∈ kvs
    · exact ih _ hin (fun x hx => huniq x (List.mem_cons_of_mem _ hx))
    · have hkv : kv = (k, v) := by
        rcases List.mem_cons.mp hmem with h | h
        · exact h.symm
        · exact absurd h hin
      subst hkv
      have hno : ∀ x ∈ kvs, x.1 ≠ k := by
        intro x hx hk
        have := huniq x (List.mem_cons_of_mem _ hx) hk
        exact hin (by rw [← hk, ← this]; exact hx)
      clear ih hmem huniq hin
      have base : (m.set k v).get k = some v := get_setEntries _ _ _
      generalize m.set k v = m1 at base
      induction kvs generalizing m1 with
      | nil => simpa using base
      | cons x xs ihx =>
        simp only [List.foldl_cons]
        refine ihx (fun y hy => hno y (List.mem_cons_of_mem _ hy)) _ ?_
        have hx := hno x (List.mem_cons_self _ _)
        unfold GoMap.get GoMap.set
        rw [lookup_setEntries_ne _ _ _ _ (fun h => hx h.symm)]
        exact base

theorem filterResultSet_projects (result : Result) (qpr : QueryParseResult) (S R : String)
    (first : Json) (rest : List Json)
    (hkey : qpr.adHocAssignments.get S = some R)
    (hmem : (S, Json.array (first :: rest)) ∈ result.Bindings.entries)
    (halone : ∀ e ∈ result.Bindings.entries, ∀ kv, projectedBinding qpr.adHocAssignments e =
      some kv → kv.1 = R → kv.2 = first) :
    (filterBindings qpr.adHocAssignments result.Bindings.entries GoMap.empty).get R =
      some first := by
  rw [filterBindings_eq]
  refine get_foldl_set _ _ _ _ ?_ ?_
  · refine List.mem_filterMap.mpr ⟨_, hmem, ?_⟩
    simp [projectedBinding, hkey]
  · intro kv hkv hk
    obtain ⟨e, he, hp⟩ := List.mem_filterMap.mp hkv
    exact halone e he kv hp hk

theorem filterResultSet_shape (resultSet : ResultSet) (qpr : QueryParseResult) :
    (filterResultSet resultSet qpr).length = resultSet.length ∧
      (filterResultSet resultSet qpr).map (fun r => r.Expressions) =
        resultSet.map (fun r => r.Expressions) := by
  simp [filterResultSet]

/-- C18, the code at a raw result in which the synthetic name `__hello__` is
bound to `[true]` and the query variable `hello` to `5`, visited in that order:
the projected result binds `hello` to `5`, not to the first element `true`. -/
theorem filterResultSet_synthetic_overwritten :
    exampleHelloMap.adHocAssignments.get "__hello__" = some "hello" ∧
      filterResultSet [exampleClashSyntheticFirst] exampleHelloMap =
        [⟨[], ⟨[("hello", .number "5")]⟩⟩] ∧
      filterResultSet [exampleHelloResult] exampleHelloMap =
        [⟨exampleHelloResult.Expressions, ⟨[("hello", .bool true), ("y", .number "2")]⟩⟩] := by
  exact ⟨by decide, by rfl, by rfl⟩

/-- C19, the code at the same raw result visited in the other order: the
binding `hello`, whose name is not a key of the map, does not keep its value
`5`; the projected result binds `hello` to `true`. -/
theorem filterResultSet_passthrough_overwritten :
    exampleHelloMap.adHocAssignments.get "hello" = none ∧
      filterResultSet [exampleClashSyntheticLast] exampleHelloMap =
        [⟨[], ⟨[("hello", .bool true)]⟩⟩] := by
  exact ⟨by decide, by rfl⟩

/-- C20: with collect-all requested, when preparation and evaluation return no
error and the engine collected the non-empty list `es`, `Eval` returns no
result and the error of status 400 whose cause is the list `es` itself, every
failure kept in order. The message of that cause is `1 error occurred: e1` for
one failure and `n errors occurred:` followed by one line per failure for two
or more. -/
theorem Eval_collects_builtin_errors (engine : Engine) (input : CompileResult)
    (options : EvalOptions) (rs : ResultSet) (es : List TopdownError)
    (text : TopdownError → String)
    (hall : options.BuiltInErrorsAll = true)
    (hprep : (engine.run (Eval.regoArgs input options)).prepare = .returns none)
    (heval : (engine.run (Eval.regoArgs input options)).eval = .returns (rs, none))
    (hes : (engine.run (Eval.regoArgs input options)).builtinErrors = es)
    (hne : es ≠ []) :
    Eval engine input options = (none, some ⟨some (.writeableBuiltInErrors es), 400⟩) ∧
      (∀ e1, es = [e1] →
        WriteableBuiltInErrors.Error text es = "1 error occurred: " ++ text e1) ∧
      (2 ≤ es.length →
        WriteableBuiltInErrors.Error text es =
          toString es.length ++ " errors occurred:\n" ++
            String.intercalate "\n" (es.map text)) := by
  refine ⟨?_, fun e1 h => by subst h; rfl, fun h2 => ?_⟩
  · have hlen : es.length > 0 := List.length_pos.mpr hne
    simp [Eval, Eval.body, hprep, heval, hes, hall, hlen, handleTopdownErr, newError,
      StatusBadRequest]
  · match es, h2 with
    | a :: b :: rest, _ => rfl

/-- Witness of C20: the two divide-by-zero failures of `TestEvalWithBuiltInErrors`. -/
theorem Eval_collects_builtin_errors_witness :
    Eval exampleCollectingEngine exampleCompileResult ⟨false, false, true, false⟩ =
        (none, some ⟨some (.writeableBuiltInErrors exampleDivErrors), 400⟩) ∧
      WriteableBuiltInErrors.Error exampleErrorText exampleDivErrors =
        "2 errors occurred:\nplay.rego:5: eval_builtin_error: div: divide by zero\nplay.rego:7: eval_builtin_error: div: divide by zero" :=
  have h := Eval_collects_builtin_errors exampleCollectingEngine exampleCompileResult
    ⟨false, false, true, false⟩ [] exampleDivErrors exampleErrorText rfl rfl rfl rfl
    (by decide)
  ⟨h.1, by decide⟩

/-! ## Properties of `Compile` -/

theorem parserOpts_inner (opts : ParserOptions) (qimp : Import) :
    parserOptions.foldl
        (fun opts po => if Import.Equal po.1 qimp then po.2 opts else opts) opts =
      ⟨opts.AllFutureKeywords || Import.Equal importFutureKeywords qimp,
        opts.FutureKeywords ++
          (if Import.Equal importFutureKeywordsIn qimp then ["in"] else []),
        if Import.Equal importRegoV1 qimp then .RegoV1 else opts.RegoVersion⟩ := by
  obtain ⟨afk, fk, rv⟩ := opts
  by_cases h1 : Import.Equal importFutureKeywords qimp = true <;>
    by_cases h2 : Import.Equal importFutureKeywordsIn qimp = true <;>
    by_cases h3 : Import.Equal importRegoV1 qimp = true <;>
    simp [parserOptions, List.foldl, h1, h2, h3]

theorem parserOpts_fold (qIs : List Import) (opts : ParserOptions) :
    qIs.foldl
        (fun (opts : ParserOptions) qimp =>
          (⟨opts.AllFutureKeywords || Import.Equal importFutureKeywords qimp,
            opts.FutureKeywords ++
              (if Import.Equal importFutureKeywordsIn qimp then ["in"] else []),
            if Import.Equal importRegoV1 qimp then .RegoV1 else opts.RegoVersion⟩ :
            ParserOptions)) opts =
      ⟨opts.AllFutureKeywords || qIs.any (Import.Equal importFutureKeywords),
        opts.FutureKeywords ++
          List.replicate (qIs.countP (Import.Equal importFutureKeywordsIn)) "in",
        if qIs.any (Import.Equal importRegoV1) then .RegoV1 else opts.RegoVersion⟩ := by
  induction qIs generalizing opts with
  | nil => simp
  | cons q qIs ih =>
    rw [List.foldl_cons, ih]
    by_cases h1 : Import.Equal importFutureKeywords q = true <;>
      by_cases h2 : Import.Equal importFutureKeywordsIn q = true <;>
      by_cases h3 : Import.Equal importRegoV1 q = true <;>
      simp [h1, h2, h3, List.countP_cons, List.replicate_succ, Bool.or_assoc]

theorem parserOpts_eq (qIs : List Import) :
    Compile.parserOpts qIs =
      ⟨qIs.any (Import.Equal importFutureKeywords),
        List.replicate (qIs.countP (Import.Equal importFutureKeywordsIn)) "in",
        if qIs.any (Import.Equal importRegoV1) then .RegoV1 else .RegoUndefined⟩ := by
  have hf : (fun (opts : ParserOptions) (qimp : Import) =>
      parserOptions.foldl
        (fun opts po => if Import.Equal po.1 qimp then po.2 opts else opts) opts) =
      (fun (opts : ParserOptions) qimp =>
        (⟨opts.AllFutureKeywords || Import.Equal importFutureKeywords qimp,
          opts.FutureKeywords ++
            (if Import.Equal importFutureKeywordsIn qimp then ["in"] else []),
          if Import.Equal importRegoV1 qimp then .RegoV1 else opts.RegoVersion⟩ :
          ParserOptions)) := by
    funext opts qimp
    exact parserOpts_inner opts qimp
  unfold Compile.parserOpts
  rw [hf, parserOpts_fold]
  simp

theorem any_perm {α : Type} (p : α → Bool) {l1 l2 : List α} (h : l1.Perm l2) :
    l1.any p = l2.any p := by
  rw [Bool.eq_iff_iff, List.any_eq_true, List.any_eq_true]
  constructor
  · rintro ⟨x, hx, hp⟩
    exact ⟨x, h.mem_iff.mp hx, hp⟩
  · rintro ⟨x, hx, hp⟩
    exact ⟨x, h.mem_iff.mpr hx, hp⟩

theorem any_filter_or {α : Type} (p q : α → Bool) (hpq : ∀ x, p x = true → q x = true)
    (l : List α) : (l.filter q).any p = l.any p := by
  rw [Bool.eq_iff_iff, List.any_eq_true, List.any_eq_true]
  constructor
  · rintro ⟨x, hx, hp⟩
    exact ⟨x, (List.mem_filter.mp hx).1, hp⟩
  · rintro ⟨x, hx, hp⟩
    exact ⟨x, List.mem_filter.mpr ⟨hx, hpq x hp⟩, hp⟩

theorem countP_filter_or {α : Type} (p q : α → Bool) (hpq : ∀ x, p x = true → q x = true)
    (l : List α) : (l.filter q).countP p = l.countP p := by
  induction l with
  | nil => rfl
  | cons x l ih =>
    by_cases hq : q x = true
    · simp [List.filter_cons, hq, List.countP_cons, ih]
    · have hp : p x = false := by
        cases hpx : p x with
        | false => rfl
        | true => exact absurd (hpq x hpx) hq
      simp [List.filter_cons, hq, List.countP_cons, ih, hp]

/-- C16: the parser options derived from the imports of the query. All future
keywords are enabled exactly when some import equals `import future.keywords`;
`in` is among the future keywords exactly when some import equals
`import future.keywords.in`, and no other keyword is ever listed; the version is
`RegoV1` exactly when some import equals `import rego.v1`; with none of the
three the options are the zero value. The options do not change when the
imports are reordered, nor when the imports equal to none of the three are
removed. -/
theorem parserOpts_from_imports (qIs : List Import) :
    ((Compile.parserOpts qIs).AllFutureKeywords = true ↔
        ∃ i ∈ qIs, Import.Equal importFutureKeywords i = true) ∧
      ("in" ∈ (Compile.parserOpts qIs).FutureKeywords ↔
        ∃ i ∈ qIs, Import.Equal importFutureKeywordsIn i = true) ∧
      (∀ k ∈ (Compile.parserOpts qIs).FutureKeywords, k = "in") ∧
      ((Compile.parserOpts qIs).RegoVersion = .RegoV1 ↔
        ∃ i ∈ qIs, Import.Equal importRegoV1 i = true) ∧
      ((∀ i ∈ qIs, Import.Equal importFutureKeywords i = false ∧
          Import.Equal importFutureKeywordsIn i = false ∧
          Import.Equal importRegoV1 i = false) →
        Compile.parserOpts qIs = ⟨false, [], .RegoUndefined⟩) ∧
      (∀ qIs', qIs.Perm qIs' → Compile.parserOpts qIs' = Compile.parserOpts qIs) ∧
      Compile.parserOpts
          (qIs.filter (fun i => Import.Equal importFutureKeywords i ||
            Import.Equal importFutureKeywordsIn i || Import.Equal importRegoV1 i)) =
        Compile.parserOpts qIs := by
  refine ⟨?_, ?_, ?_, ?_, ?_, ?_, ?_⟩
  · rw [parserOpts_eq]
    simp [List.any_eq_true]
  · rw [parserOpts_eq]
    simp only [List.mem_replicate, and_true, ne_eq]
    rw [List.countP_eq_zero]
    constructor
    · intro h
      by_contra hno
      exact h (fun a ha hp => hno ⟨a, ha, hp⟩)
    · rintro ⟨i, hi, hp⟩ h
      exact h i hi hp
  · rw [parserOpts_eq]
    intro k hk
    exact (List.mem_replicate.mp hk).2
  · rw [parserOpts_eq]
    by_cases h : qIs.any (Import.Equal importRegoV1) = true
    · simp only [h, if_true, true_iff]
      exact List.any_eq_true.mp h
    · simp only [h, if_false]
      constructor
      · intro hx
        cases hx
      · intro hx
        exact absurd (List.any_eq_true.mpr hx) h
  · intro hnone
    rw [parserOpts_eq]
    have h1 : qIs.any (Import.Equal importFutureKeywords) = false := by
      rw [List.any_eq_false]
      intro x hx
      simp [(hnone x hx).1]
    have h2 : qIs.countP (Import.Equal importFutureKeywordsIn) = 0 := by
      rw [List.countP_eq_zero]
      intro x hx
      simp [(hnone x hx).2.1]
    have h3 : qIs.any (Import.Equal importRegoV1) = false := by
      rw [List.any_eq_false]
      intro x hx
      simp [(hnone x hx).2.2]
    simp [h1, h2, h3]
  · intro qIs' hperm
    rw [parserOpts_eq, parserOpts_eq, any_perm _ hperm, any_perm _ hperm, hperm.countP_eq]
  · rw [parserOpts_eq, parserOpts_eq]
    rw [any_filter_or _ _ (fun x hx => by simp [hx]),
      any_filter_or _ _ (fun x hx => by simp [hx]),
      countP_filter_or _ _ (fun x hx => by simp [hx])]

theorem finish_store (eng : CompileEngine) (iv : Option Value) (store : Option Json)
    (ms : GoMap Module) (one : Option Module) (compiler : Compiler) (query : String)
    (qp : Option String) (qi : Option (List String)) :
    Compile.finish eng iv store ms one compiler query qp qi =
      (Compile.finish eng iv none ms one compiler query qp qi).map (withStore store) := by
  unfold Compile.finish
  cases Compile.query eng query compiler one with
  | error p => rfl
  | ok q =>
    simp only
    cases Compile.package eng compiler one qp with
    | error p => rfl
    | ok r =>
      cases r with
      | error e => rfl
      | ok qP =>
        simp only
        cases Compile.imports eng compiler one qi with
        | error p => rfl
        | ok r2 =>
          cases r2 with
          | error e => rfl
          | ok qIs =>
            simp only
            cases parseQuery eng.ast q (Compile.parserOpts qIs) one with
            | error p => rfl
            | ok res =>
              obtain ⟨qpr, ig, err⟩ := res
              cases err with
              | some e => rfl
              | none =>
                simp only
                cases eng.CompileQuery compiler qP qIs checkHTTPSend qpr.ParsedQuery with
                | error p => rfl
                | ok o => cases o <;> rfl

theorem finish_query (eng : CompileEngine) (iv : Option Value) (store : Option Json)
    (ms : GoMap Module) (one : Option Module) (compiler : Compiler) (q : String)
    (qp : Option String) (qi : Option (List String))
    (hq : Compile.query eng "" compiler one = .ok q) :
    Compile.finish eng iv store ms one compiler "" qp qi =
      Compile.finish eng iv store ms one compiler q qp qi := by
  have hq2 : Compile.query eng q compiler one = .ok q := by
    by_cases h : q = ""
    · rw [h] at hq ⊢
      exact hq
    · simp [Compile.query, h]
  unfold Compile.finish
  rw [hq, hq2]

theorem finish_success (eng : CompileEngine) (iv : Option Value) (store : Option Json)
    (ms : GoMap Module) (one : Option Module) (compiler : Compiler) (query : String)
    (qp : Option String) (qi : Option (List String)) (cr : CompileResult) (ig : Ignored)
    (h : Compile.finish eng iv store ms one compiler query qp qi = .ok (some cr, ig, none)) :
    Compile.package eng compiler one qp = .ok (.ok cr.Package) ∧
      Compile.imports eng compiler one qi = .ok (.ok cr.Imports) ∧
      cr.Store = store ∧ cr.Compiler = compiler ∧ cr.Modules = ms.entries ∧
      cr.ParsedInput = iv ∧
      ∃ q, Compile.query eng query compiler one = .ok q ∧
        parseQuery eng.ast q (Compile.parserOpts cr.Imports) one =
          .ok (cr.QueryParseResult, ig, none) := by
  unfold Compile.finish at h
  cases hq : Compile.query eng query compiler one with
  | error p => simp [hq] at h
  | ok q =>
    simp only [hq] at h
    cases hp : Compile.package eng compiler one qp with
    | error p => simp [hp] at h
    | ok r =>
      cases r with
      | error e => simp [hp] at h
      | ok qP =>
        simp only [hp] at h
        cases hi : Compile.imports eng compiler one qi with
        | error p => simp [hi] at h
        | ok r2 =>
          cases r2 with
          | error e => simp [hi] at h
          | ok qIs =>
            simp only [hi] at h
            cases hpq : parseQuery eng.ast q (Compile.parserOpts qIs) one with
            | error p => simp [hpq] at h
            | ok res =>
              obtain ⟨qpr, ig1, err⟩ := res
              cases err with
              | some e => simp [hpq] at h
              | none =>
                simp only [hpq] at h
                cases hc : eng.CompileQuery compiler qP qIs checkHTTPSend qpr.ParsedQuery with
                | error p => simp [hc] at h
                | ok o =>
                  cases o with
                  | some e => simp [hc] at h
                  | none =>
                    simp only [hc, Except.ok.injEq, Prod.mk.injEq, Option.some.injEq,
                      and_true] at h
                    obtain ⟨hcr, hig⟩ := h
                    subst hcr hig
                    exact ⟨rfl, rfl, rfl, rfl, rfl, rfl, q, rfl, hpq⟩

theorem Compile_success (eng : CompileEngine) (k : Nat) (input data : Option Json)
    (policies : GoMap String) (query : String) (qp : Option String)
    (qi : Option (List String)) (strict : Bool) (rv : Option Int) (cr : CompileResult)
    (ig : Ignored)
    (h : Compile eng k input data policies query qp qi strict rv = .ok (some cr, ig, none)) :
    Compile.finish eng cr.ParsedInput (Compile.store data) ⟨cr.Modules⟩
        (Compile.one k ⟨cr.Modules⟩) cr.Compiler query qp qi = .ok (some cr, ig, none) ∧
      cr.Compiler.Failed = false := by
  unfold Compile at h
  cases hiv : Compile.inputValue eng input with
  | error e => simp [hiv] at h
  | ok iv =>
    simp only [hiv] at h
    split at h
    · simp at h
    · next ms hms =>
      split at h
      · simp at h
      · next compiler hcm =>
        by_cases hf : compiler.Failed = true
        · simp [hf] at h
        · simp only [hf] at h
          have hs := finish_success _ _ _ _ _ _ _ _ _ _ _ h
          obtain ⟨_, _, _, hc, hm, hi, _⟩ := hs
          have hms2 : (⟨cr.Modules⟩ : GoMap Module) = ms := by
            rw [hm]
          rw [hc, hi, hms2]
          exact ⟨h, by simpa using hf⟩

/-! ## Claims on `Compile` -/

theorem Compile_eq_finish (eng : CompileEngine) (k : Nat) (input data : Option Json)
    (policies : GoMap String) (query : String) (qp : Option String)
    (qi : Option (List String)) (strict : Bool) (rv : Option Int) (iv : Option Value)
    (ms : GoMap Module) (compiler : Compiler)
    (hiv : Compile.inputValue eng input = .ok iv)
    (hms : Compile.parseModules eng (Compile.regoVer rv) policies.entries GoMap.empty = .ok ms)
    (hcm : eng.CompileModules (capabilities eng.CapabilitiesForThisVersion) strict
      checkHTTPSendCompiler ms.entries = .ok compiler) :
    Compile eng k input data policies query qp qi strict rv =
      if compiler.Failed then .ok (none, [], some (.astErrors compiler.Errors))
      else Compile.finish eng iv (Compile.store data) ms (Compile.one k ms) compiler query
        qp qi := by
  simp [Compile, hiv, hms, hcm]

/-- C14: with an empty query text `Compile` goes on with a text taken from the
modules: the rendering of the package path of `one` when the compiler holds
exactly one module, the text `data` when it holds two or more; a non-empty text
is kept. `one` is the sole module when one module was parsed, and `Compile` on
the empty text returns what it returns on the text so chosen. -/
theorem Compile_empty_query (eng : CompileEngine) (compiler : Compiler)
    (one : Option Module) :
    (∀ m, compiler.Modules.length = 1 →
        Compile.query eng "" compiler (some m) = .ok (eng.ast.RefString m.Package.Path)) ∧
      (2 ≤ compiler.Modules.length → Compile.query eng "" compiler one = .ok "data") ∧
      (∀ q, q ≠ "" → Compile.query eng q compiler one = .ok q) ∧
      (∀ (k : Nat) name m, Compile.one k ⟨[(name, m)]⟩ = some m) ∧
      (∀ k input data policies qp qi strict rv iv ms q,
        Compile.inputValue eng input = .ok iv →
        Compile.parseModules eng (Compile.regoVer rv) policies.entries GoMap.empty = .ok ms →
        eng.CompileModules (capabilities eng.CapabilitiesForThisVersion) strict
          checkHTTPSendCompiler ms.entries = .ok compiler →
        Compile.query eng "" compiler (Compile.one k ms) = .ok q →
        Compile eng k input data policies "" qp qi strict rv =
          Compile eng k input data policies q qp qi strict rv) := by
  refine ⟨fun m h => by simp [Compile.query, h], fun h => ?_, fun q h => by simp [Compile.query, h],
    fun k name m => ?_, ?_⟩
  · have : ¬ compiler.Modules.length = 1 := by omega
    simp [Compile.query, this]
  · simp [Compile.one, Nat.mod_one]
  · intro k input data policies qp qi strict rv iv ms q hiv hms hcm hq
    rw [Compile_eq_finish eng k input data policies "" qp qi strict rv iv ms compiler hiv hms hcm,
      Compile_eq_finish eng k input data policies q qp qi strict rv iv ms compiler hiv hms hcm,
      finish_query eng iv _ ms _ compiler q qp qi hq]

/-- Witness of C14: the module `package play` alone gives the query `data.play`,
and with a second module the query is `data`. -/
theorem Compile_empty_query_witness :
    Compile exampleCompileEngine 0 none none ⟨[("test.rego", examplePolicy)]⟩ "" none none
        false none =
        .ok (some
          { QueryParseResult := ⟨[examplePlayRef], GoMap.empty⟩
            Modules := [("test.rego", examplePlayModule)]
            Imports := []
            Package := some examplePlayPackage
            Compiler := ⟨[("test.rego", examplePlayModule)], []⟩
            ParsedInput := none
            Store := none }, [], none) ∧
      Compile exampleCompileEngine 0 none none
        ⟨[("a.rego", examplePolicy), ("b.rego", exampleOtherPolicy)]⟩ "" none none false none =
        .ok (some
          { QueryParseResult := ⟨[exampleDataRef], GoMap.empty⟩
            Modules := [("a.rego", examplePlayModule), ("b.rego", exampleOtherModule)]
            Imports := []
            Package := none
            Compiler := ⟨[("a.rego", examplePlayModule), ("b.rego", exampleOtherModule)], []⟩
            ParsedInput := none
            Store := none }, [], none) :=
  ⟨((Compile_empty_query exampleCompileEngine ⟨[("test.rego", examplePlayModule)], []⟩
      (some examplePlayModule)).2.2.2.2 0 none none ⟨[("test.rego", examplePolicy)]⟩ none none
      false none none ⟨[("test.rego", examplePlayModule)]⟩ "data.play"
      (by rfl) (by rfl) (by rfl) (by rfl)).trans (by rfl),
    by rfl⟩

/-- C15: the package and the imports of the query are chosen by two separate
switches of the same shape. Override unset: the package (the imports) of `one`
when the compiler holds exactly one module, none when it holds two or more.
Override set to the empty string (the empty list): none. Override set and not
empty: the parse of `package P` (of the lines `import I`), and an error of that
parse is the error `Compile` returns, with no result. The compile result of a
successful `Compile` carries the two values so chosen. -/
theorem Compile_package_and_imports (eng : CompileEngine) (compiler : Compiler)
    (one : Option Module) :
    (∀ m, compiler.Modules.length = 1 →
        Compile.package eng compiler (some m) none = .ok (.ok (some m.Package)) ∧
        Compile.imports eng compiler (some m) none = .ok (.ok m.Imports)) ∧
      (2 ≤ compiler.Modules.length →
        Compile.package eng compiler one none = .ok (.ok none) ∧
        Compile.imports eng compiler one none = .ok (.ok [])) ∧
      (Compile.package eng compiler one (some "") = .ok (.ok none) ∧
        Compile.imports eng compiler one (some []) = .ok (.ok [])) ∧
      (∀ s, s ≠ "" →
        Compile.package eng compiler one (some s) =
          .ok ((eng.ParsePackage ("package " ++ s)).map some)) ∧
      (∀ is, is ≠ [] →
        Compile.imports eng compiler one (some is) =
          .ok (eng.ParseImports (String.intercalate "\n" (is.map (fun i => "import " ++ i))))) ∧
      (∀ k input data policies query qp qi strict rv cr ig,
        Compile eng k input data policies query qp qi strict rv = .ok (some cr, ig, none) →
        Compile.package eng cr.Compiler (Compile.one k ⟨cr.Modules⟩) qp = .ok (.ok cr.Package) ∧
        Compile.imports eng cr.Compiler (Compile.one k ⟨cr.Modules⟩) qi =
          .ok (.ok cr.Imports)) ∧
      (∀ k input data policies query qp qi strict rv iv ms q err,
        Compile.inputValue eng input = .ok iv →
        Compile.parseModules eng (Compile.regoVer rv) policies.entries GoMap.empty = .ok ms →
        eng.CompileModules (capabilities eng.CapabilitiesForThisVersion) strict
          checkHTTPSendCompiler ms.entries = .ok compiler →
        compiler.Failed = false →
        Compile.query eng query compiler (Compile.one k ms) = .ok q →
        (Compile.package eng compiler (Compile.one k ms) qp = .ok (.error err) ∨
          ((∃ qP, Compile.package eng compiler (Compile.one k ms) qp = .ok (.ok qP)) ∧
            Compile.imports eng compiler (Compile.one k ms) qi = .ok (.error err))) →
        Compile eng k input data policies query qp qi strict rv = .ok (none, [], some err)) := by
  refine ⟨fun m h => by simp [Compile.package, Compile.imports, h], fun h => ?_,
    by simp [Compile.package, Compile.imports], fun s hs => by simp [Compile.package, hs],
    fun is his => ?_, ?_, ?_⟩
  · have : ¬ compiler.Modules.length = 1 := by omega
    simp [Compile.package, Compile.imports, this]
  · have : ¬ is.length = 0 := fun h0 => his (List.length_eq_zero.mp h0)
    simp [Compile.imports, this]
  · intro k input data policies query qp qi strict rv cr ig h
    have h1 := (Compile_success eng k input data policies query qp qi strict rv cr ig h).1
    have h2 := finish_success _ _ _ _ _ _ _ _ _ _ _ h1
    exact ⟨h2.1, h2.2.1⟩
  · intro k input data policies query qp qi strict rv iv ms q err hiv hms hcm hf hq hfail
    rw [Compile_eq_finish eng k input data policies query qp qi strict rv iv ms compiler
      hiv hms hcm]
    simp only [hf, Bool.false_eq_true, if_false]
    unfold Compile.finish
    rcases hfail with hp | ⟨⟨qP, hp⟩, hi⟩
    · simp [hq, hp]
    · simp [hq, hp, hi]

/-- Witness of C15: with the sole module `package play`, an unset override gives
its package and imports, the override `play` gives the parse of `package play`,
the override `future.keywords.in` the parse of that import, and an override that
does not parse fails `Compile`. -/
theorem Compile_package_and_imports_witness :
    (Compile.package exampleCompileEngine ⟨[("test.rego", examplePlayModule)], []⟩
          (some examplePlayModule) none = .ok (.ok (some examplePlayPackage)) ∧
        Compile.imports exampleCompileEngine ⟨[("test.rego", examplePlayModule)], []⟩
          (some examplePlayModule) none = .ok (.ok [])) ∧
      Compile.package exampleCompileEngine ⟨[("test.rego", examplePlayModule)], []⟩
          (some examplePlayModule) (some "play") = .ok (.ok (some examplePlayPackage)) ∧
      Compile.imports exampleCompileEngine ⟨[("test.rego", examplePlayModule)], []⟩
          (some examplePlayModule) (some ["future.keywords.in"]) =
        .ok (.ok [importFutureKeywordsIn]) ∧
      Compile exampleCompileEngine 0 none none ⟨[("test.rego", examplePolicy)]⟩ "" (some "1")
          none false none =
        .ok (none, [], some (.astErrors [⟨"rego_parse_error", none, "unexpected token"⟩])) :=
  have h := Compile_package_and_imports exampleCompileEngine
    ⟨[("test.rego", examplePlayModule)], []⟩ (some examplePlayModule)
  ⟨h.1 examplePlayModule (by rfl),
    (h.2.2.2.1 "play" (by decide)).trans (by rfl),
    (h.2.2.2.2.1 ["future.keywords.in"] (by simp)).trans (by rfl),
    h.2.2.2.2.2.2 0 none none ⟨[("test.rego", examplePolicy)]⟩ "" (some "1") none false none
      none ⟨[("test.rego", examplePlayModule)]⟩ "data.play" _
      (by rfl) (by rfl) (by rfl) (by rfl) (by rfl) (Or.inl (by rfl))⟩

/-- C17: the data value only decides the store. `Compile` on any data value
returns what it returns without data, with the store of the compile result set
to the data when the data is a key/value object and left nil for every other
shape (no data, null, array, scalar); so it fails on a data value exactly when
it fails without data. -/
theorem Compile_store_from_data (eng : CompileEngine) (k : Nat) (input data : Option Json)
    (policies : GoMap String) (query : String) (qp : Option String)
    (qi : Option (List String)) (strict : Bool) (rv : Option Int) :
    Compile eng k input data policies query qp qi strict rv =
        (Compile eng k input none policies query qp qi strict rv).map
          (withStore (Compile.store data)) ∧
      (∀ cr ig, Compile eng k input data policies query qp qi strict rv =
          .ok (some cr, ig, none) → cr.Store = Compile.store data) ∧
      (∀ j, Compile.store data = some j ↔ ∃ kvs, data = some (.object kvs) ∧ j = .object kvs) ∧
      Compile.store none = none ∧
      Compile.store (some .null) = none ∧
      (∀ xs, Compile.store (some (.array xs)) = none) ∧
      (∀ b, Compile.store (some (.bool b)) = none) ∧
      (∀ n, Compile.store (some (.number n)) = none) ∧
      (∀ s, Compile.store (some (.string s)) = none) := by
  refine ⟨?_, fun cr ig h => ?_, fun j => ?_, rfl, rfl, fun _ => rfl, fun _ => rfl,
    fun _ => rfl, fun _ => rfl⟩
  · unfold Compile
    cases Compile.inputValue eng input with
    | error e => rfl
    | ok iv =>
      simp only
      cases Compile.parseModules eng (Compile.regoVer rv) policies.entries GoMap.empty with
      | error e => rfl
      | ok ms =>
        simp only
        cases eng.CompileModules (capabilities eng.CapabilitiesForThisVersion) strict
            checkHTTPSendCompiler ms.entries with
        | error p => rfl
        | ok compiler =>
          simp only
          by_cases hf : compiler.Failed = true
          · simp only [hf, if_true]
            rfl
          · simp only [hf, if_false]
            rw [finish_store]
            rfl
  · have h1 := (Compile_success eng k input data policies query qp qi strict rv cr ig h).1
    exact (finish_success _ _ _ _ _ _ _ _ _ _ _ h1).2.2.1
  · cases data with
    | none => simp [Compile.store]
    | some d =>
      cases d with
      | object kvs =>
        simp only [Compile.store, Option.some.injEq]
        constructor
        · intro h
          exact ⟨kvs, rfl, h.symm⟩
        · rintro ⟨kvs2, h1, h2⟩
          cases h1
          exact h2.symm
      | _ => simp [Compile.store]

/-! ## Further claims on the selection parser and the guard -/

theorem parseQueryStep_unparsable (ast : Ast) (m : Module) (r : Rule) (st : ParseState)
    (err : GoError) (hargs : ¬ r.Head.Args.length > 0)
    (hnew : r.Head.Name ∉ st.adHocAssignmentNames)
    (hparse : ast.ParseExpr (adHocText (ast.RefString m.Package.Path) r.Head.Name) = .error err) :
    parseQueryStep ast (some m) (.rule r) st = .error nilDereference := by
  simp [parseQueryStep, hargs, hnew, hparse, Body.Append, Except.map]

/-- C25: the selection `a.b = 1 { true }` is a rule without arguments whose
head name is empty; the text `____ := { __x__ | __x__ := data.play. }`
built for it does not parse, `ast.ParseExpr` returns a nil expression, and
`parsedQuery.Append(expr)` dereferences it: `parseQuery` panics instead of
returning the diagnostic. -/
theorem parseQuery_panics_on_unparsable_assignment :
    exampleRefHeadRule.Head.Args = [] ∧ exampleRefHeadRule.Head.Name = "" ∧
      adHocText (exampleRefHeadAst.RefString examplePlayModule.Package.Path) "" =
        "____ := \x7b __x__ | __x__ := data.play. \x7d" ∧
      exampleRefHeadAst.ParseExpr "____ := \x7b __x__ | __x__ := data.play. \x7d" =
        .error (.astErrors [⟨"rego_parse_error", some ⟨1, 37⟩, "unexpected \x7d token"⟩]) ∧
      parseQueryStep exampleRefHeadAst (some examplePlayModule) (.rule exampleRefHeadRule)
        ⟨[], [], GoMap.empty, []⟩ = .error nilDereference ∧
      parseQuery exampleRefHeadAst exampleRefHeadSelection exampleOpts (some examplePlayModule) =
        .error nilDereference := by
  refine ⟨rfl, rfl, by decide, by rfl, by rfl, by rfl⟩

/-- C26: on the expression `eq(1)`, an equality with one operand,
`expr.Operand(1)` is nil and `checkExpr` dereferences it: the visitor panics,
and so do the query stage `checkHTTPSend` on a body holding the expression and
the module stage `checkHTTPSendCompiler` on a module holding it. -/
theorem checkExpr_panics_on_missing_operand :
    exampleEqOne.IsEquality = true ∧ exampleEqOne.Operand 1 = none ∧
      (∀ errs, checkExpr exampleEqOne errs = .error nilDereference) ∧
      (∀ qc, checkHTTPSend qc [exampleEqOne] = .error nilDereference) ∧
      checkHTTPSendCompiler ⟨[("play.rego", exampleEqOneModule)], []⟩ =
        .error nilDereference := by
  refine ⟨rfl, rfl, fun errs => rfl, fun qc => rfl, rfl⟩

theorem parseQueryLoop_package (ast : Ast) (one : Option Module) (pre : List Statement)
    (p : Package) (post : List Statement) (st : ParseState)
    (hpkg : ∀ s ∈ pre, s.isPackage = false)
    (hsyn : Synthesizes ast one st.adHocAssignmentNames pre) :
    parseQueryLoop ast one (pre ++ .package p :: post) st =
      .ok (⟨[NewExpr (.term (.ref p.Path))], GoMap.empty⟩, [], none) := by
  induction pre generalizing st with
  | nil => simp [parseQueryLoop, parseQueryStep]
  | cons s rest ih =>
    have hpkg1 : ∀ s ∈ rest, s.isPackage = false := fun x hx => hpkg x (List.mem_cons_of_mem _ hx)
    have hs := hpkg s (List.mem_cons_self _ _)
    cases s with
    | package p => simp [Statement.isPackage] at hs
    | body b =>
      have hsyn1 : Synthesizes ast one st.adHocAssignmentNames rest :=
        fun name hn => hsyn name (by simpa [newRules] using hn)
      simp only [List.cons_append, parseQueryLoop, parseQueryStep]
      exact ih _ hpkg1 (by exact hsyn1)
    | rule r =>
      by_cases ha : r.Head.Args.length > 0
      · have hsyn1 : Synthesizes ast one st.adHocAssignmentNames rest :=
          fun name hn => hsyn name (by simpa [newRules, ha] using hn)
        simp only [List.cons_append, parseQueryLoop, parseQueryStep, ha, if_true]
        exact ih _ hpkg1 (by exact hsyn1)
      · by_cases hseen : r.Head.Name ∈ st.adHocAssignmentNames
        · have hsyn1 : Synthesizes ast one st.adHocAssignmentNames rest :=
            fun name hn => hsyn name (by simpa [newRules, ha, hseen] using hn)
          simp only [List.cons_append, parseQueryLoop, parseQueryStep, ha, if_false, hseen,
            not_true_eq_false]
          exact ih _ hpkg1 (by exact hsyn1)
        · have hsyn0 : ∀ name ∈ r.Head.Name :: newRules (r.Head.Name :: st.adHocAssignmentNames) rest,
              ∃ e, adHocExpr ast one name = some e :=
            fun name hn => hsyn name (by simpa [newRules, ha, hseen] using hn)
          obtain ⟨e, he⟩ := hsyn0 r.Head.Name (List.mem_cons_self _ _)
          obtain ⟨m, hm, hpe⟩ := adHocExpr_some ast one _ e he
          subst hm
          simp only [List.cons_append, parseQueryLoop, parseQueryStep, ha, if_false, hseen,
            not_false_eq_true, if_true, hpe, Body.Append, Except.map]
          exact ih _ hpkg1 (by exact fun name hn => hsyn0 name (List.mem_cons_of_mem _ hn))
    | imp i =>
      have hsyn1 : Synthesizes ast one st.adHocAssignmentNames rest :=
        fun name hn => hsyn name (by simpa [newRules] using hn)
      simp only [List.cons_append, parseQueryLoop, parseQueryStep]
      exact ih _ hpkg1 (by exact hsyn1)
    | other =>
      have hsyn1 : Synthesizes ast one st.adHocAssignmentNames rest :=
        fun name hn => hsyn name (by simpa [newRules] using hn)
      simp only [List.cons_append, parseQueryLoop, parseQueryStep]
      exact ih _ hpkg1 (by exact hsyn1)

/-- For every selection that holds a package statement, the first one at any
position, with path `P`, `parseQuery` returns the body made of the one
expression `P`, no synthetic name, no diagnostic and no error, whatever comes
after it, provided the statements before it are processed without fault: the
assignment of every rule without arguments among them can be built. -/
theorem parseQuery_package_anywhere (ast : Ast) (query : String) (opts : ParserOptions)
    (one : Option Module) (pre : List Statement) (p : Package) (post : List Statement)
    (hparse : ast.ParseStatementsWithOpts "" query opts = .ok (pre ++ .package p :: post))
    (hpre : ∀ s ∈ pre, s.isPackage = false)
    (hsyn : Synthesizes ast one [] pre) :
    parseQuery ast query opts one =
      .ok (⟨[NewExpr (.term (.ref p.Path))], GoMap.empty⟩, [], none) := by
  simp only [parseQuery, hparse]
  exact parseQueryLoop_package ast one pre p post _ hpre hsyn

/-- A body, the two definitions of `hello` and an import, then `package play`,
give the body `data.play` alone, without diagnostics. -/
theorem parseQuery_package_anywhere_witness :
    parseQuery exampleRefHeadAst examplePackageLastSelection exampleOpts
        (some examplePlayModule) =
      .ok (⟨[NewExpr (.term (.ref [.var "data", .string "play"]))], GoMap.empty⟩, [], none) :=
  parseQuery_package_anywhere exampleRefHeadAst examplePackageLastSelection exampleOpts
    (some examplePlayModule)
    [.body [exampleFirstEq], .rule exampleDefaultHello, .rule exampleHello, .imp exampleImportX]
    examplePlayPackage [] (by rfl) (by decide)
    (by
      intro name hn
      have h : name = "hello" := by simpa [newRules, exampleDefaultHello, exampleHello,
        Rule.Head] using hn
      subst h
      exact ⟨exampleAdHoc, by rfl⟩)

/-- C27: the selection is the rule `a.b = 1 { true }` followed by
`package play`. The rule has no argument and its assignment does not parse, so
`parseQuery` panics in `parsedQuery.Append(expr)` at the rule and never reaches
the package statement: it does not return the one-expression body of the
package path. -/
theorem parseQuery_panics_before_package :
    exampleRuleThenPackageAst.ParseStatementsWithOpts "" exampleRuleThenPackage exampleOpts =
        .ok [.rule exampleRefHeadRule, .package examplePlayPackage] ∧
      exampleRuleThenPackageAst.ParseExpr
          (adHocText (exampleRuleThenPackageAst.RefString examplePlayModule.Package.Path)
            exampleRefHeadRule.Head.Name) =
        .error (.astErrors [⟨"rego_parse_error", some ⟨1, 37⟩, "unexpected \x7d token"⟩]) ∧
      parseQuery exampleRuleThenPackageAst exampleRuleThenPackage exampleOpts
          (some examplePlayModule) = .error nilDereference ∧
      parseQuery exampleRuleThenPackageAst exampleRuleThenPackage exampleOpts
          (some examplePlayModule) ≠
        .ok (⟨[NewExpr (.term (.ref examplePlayPackage.Path))], GoMap.empty⟩, [], none) := by
  refine ⟨by rfl, by rfl, by rfl, ?_⟩
  intro h
  have h2 : parseQuery exampleRuleThenPackageAst exampleRuleThenPackage exampleOpts
      (some examplePlayModule) = .error nilDereference := by rfl
  rw [h2] at h
  cases h

/-! ## The package of the synthesized fragment -/

/-- C28, counterexample: the module is `package play`, the selection its rule
`hello`, the query package is overridden with `other`. `Compile` succeeds, the
package resolved for the query is `data.other`, and the expression synthesized
for `hello` is the parse of `__hello__ := { __x__ | __x__ := data.play.hello }`:
it refers to `hello` under the package of the module, not under `data.other`. -/
theorem Compile_fragment_ignores_override :
    ∃ cr, Compile exampleOverrideEngine 0 none none ⟨[("test.rego", examplePolicy)]⟩
          exampleRuleSelection (some "other") none false none = .ok (some cr, [], none) ∧
      cr.Package = some exampleOtherPackage ∧
      exampleOverrideEngine.ast.RefString exampleOtherPackage.Path = "data.other" ∧
      cr.QueryParseResult.ParsedQuery = [exampleAdHoc] ∧
      exampleOverrideEngine.ast.ParseExpr (adHocText "data.play" "hello") = .ok exampleAdHoc ∧
      exampleOverrideEngine.ast.ParseExpr (adHocText "data.other" "hello") ≠ .ok exampleAdHoc :=
  ⟨_, rfl, rfl, rfl, rfl, by rfl, by
    intro h
    have h2 : exampleOverrideEngine.ast.ParseExpr (adHocText "data.other" "hello") =
        .error (.astErrors [⟨"rego_parse_error", some ⟨1, 37⟩, "unexpected \x7d token"⟩]) := by
      rfl
    rw [h2] at h
    cases h⟩

/-- C28: in every `Compile` call on exactly one module `m` that returns a
compile result for a non-empty selection without package statement, the
expressions of the query are those of the plain bodies and, for each rule `R`
without arguments at its first definition, the parse of
`__R__ := { __x__ | __x__ := P.R }` where `P` is the package path of `m`,
which is the module `one`. The package resolved for the query is that of `m`
when there is no override and the compiler holds one module; with a non-empty
override it is the parse of the override, and the fragment still uses the
package of `m`. -/
theorem Compile_fragment_package (eng : CompileEngine) (k : Nat) (input data : Option Json)
    (policies : GoMap String) (query : String) (qp : Option String)
    (qi : Option (List String)) (strict : Bool) (rv : Option Int) (cr : CompileResult)
    (ig : Ignored) (stmts : List Statement) (name : String) (m : Module)
    (h : Compile eng k input data policies query qp qi strict rv = .ok (some cr, ig, none))
    (hsole : cr.Modules = [(name, m)])
    (hq : query ≠ "")
    (hparse : eng.ast.ParseStatementsWithOpts "" query (Compile.parserOpts cr.Imports) =
      .ok stmts)
    (hpkg : ∀ s ∈ stmts, s.isPackage = false) :
    Compile.one k ⟨cr.Modules⟩ = some m ∧
      cr.QueryParseResult.ParsedQuery =
        appendAll [] (selectionExprs eng.ast (some m) [] stmts) ∧
      (∀ R e, adHocExpr eng.ast (some m) R = some e →
        eng.ast.ParseExpr (adHocText (eng.ast.RefString m.Package.Path) R) = .ok e) ∧
      (qp = none → cr.Compiler.Modules.length = 1 → cr.Package = some m.Package) ∧
      (∀ s, qp = some s → s ≠ "" →
        ∃ p, eng.ParsePackage ("package " ++ s) = .ok p ∧ cr.Package = some p) := by
  have hone : Compile.one k ⟨cr.Modules⟩ = some m := by
    simp [hsole, Compile.one, Nat.mod_one]
  have h1 := (Compile_success eng k input data policies query qp qi strict rv cr ig h).1
  rw [hone] at h1
  obtain ⟨hp, _, _, _, _, _, q, hq1, hpq⟩ := finish_success _ _ _ _ _ _ _ _ _ _ _ h1
  have hq2 : q = query := by
    simp [Compile.query, hq] at hq1
    exact hq1.symm
  subst hq2
  refine ⟨hone, ?_, fun R e he => ?_, fun hnone hlen => ?_, fun s hs hne => ?_⟩
  · simp only [parseQuery, hparse] at hpq
    have := parseQueryLoop_result _ _ _ _ _ hpkg hpq
    have h3 := congrArg (fun r => r.1.ParsedQuery) this
    simpa using h3
  · obtain ⟨m1, hm1, hpe⟩ := adHocExpr_some _ _ _ _ he
    cases hm1
    exact hpe
  · subst hnone
    simp only [Compile.package, hlen, if_true] at hp
    have := Except.ok.inj (Except.ok.inj hp)
    exact this.symm
  · subst hs
    simp only [Compile.package, hne, if_false] at hp
    have hp2 := Except.ok.inj hp
    cases hpp : eng.ParsePackage ("package " ++ s) with
    | error e => simp [hpp, Except.map] at hp2
    | ok p =>
      simp only [hpp, Except.map] at hp2
      exact ⟨p, rfl, (Except.ok.inj hp2).symm⟩

/-- Witness of C28: the sole module `package play`, its rule `hello` selected,
no override. -/
theorem Compile_fragment_package_witness :
    ∃ cr, Compile exampleOverrideEngine 0 none none ⟨[("test.rego", examplePolicy)]⟩
          exampleRuleSelection none none false none = .ok (some cr, [], none) ∧
      cr.QueryParseResult.ParsedQuery = [exampleAdHoc] ∧
      cr.Package = some examplePlayPackage :=
  ⟨_, rfl,
    (Compile_fragment_package exampleOverrideEngine 0 none none
      ⟨[("test.rego", examplePolicy)]⟩ exampleRuleSelection none none false none _ []
      [.rule exampleDefaultHello, .rule exampleHello] "test.rego" examplePlayModule rfl rfl
      (by decide) (by rfl) (by decide)).2.1.trans (by rfl),
    ((Compile_fragment_package exampleOverrideEngine 0 none none
      ⟨[("test.rego", examplePolicy)]⟩ exampleRuleSelection none none false none _ []
      [.rule exampleDefaultHello, .rule exampleHello] "test.rego" examplePlayModule rfl rfl
      (by decide) (by rfl) (by decide)).2.2.2.1 rfl (by rfl)).trans (by rfl)⟩

/-! ## Strict built-in errors -/

/-- C21: with strict built-in errors requested, `Eval` hands the strict flag to
the engine, together with the error list exactly when collect-all is requested
too. When the engine then halts at the first failure `e` and returns it as the
error of the evaluation, `Eval` returns no result and the classified error
whose cause is the single failure `e`, status 400 for a built-in error,
whatever the engine put on the list: the error of the evaluation is returned
before the list is looked at. -/
theorem Eval_strict_reports_first (engine : Engine) (input : CompileResult)
    (options : EvalOptions) (rs : ResultSet) (e : TopdownError)
    (hstrict : options.BuiltInErrorsStrict = true)
    (hprep : (engine.run (Eval.regoArgs input options)).prepare = .returns none)
    (heval : (engine.run (Eval.regoArgs input options)).eval =
      .returns (rs, some (.topdown e))) :
    (Eval.regoArgs input options).StrictBuiltinErrors = true ∧
      (Eval.regoArgs input options).BuiltinErrorList = options.BuiltInErrorsAll ∧
      Eval engine input options = (none, some (handleTopdownErr (some (.topdown e)))) ∧
      (e.Code = BuiltinErr →
        Eval engine input options = (none, some ⟨some (.topdown e), 400⟩)) := by
  have hmain : Eval engine input options =
      (none, some (handleTopdownErr (some (.topdown e)))) := by
    simp [Eval, Eval.body, hprep, heval]
  refine ⟨by simp [Eval.regoArgs, hstrict], rfl, hmain, fun hc => ?_⟩
  rw [hmain]
  simp [handleTopdownErr, hc, BuiltinErr, CancelErr, InternalErr, newError, StatusBadRequest]

/-- Witness of C21: strict and collect-all are both set as in
`TestEvalWithStrictBuiltInErrors`; the engine halts at the failure of line 5 and
puts it on the list, and `Eval` returns that one failure, not a list. -/
theorem Eval_strict_reports_first_witness :
    (exampleStrictEngine.run
        (Eval.regoArgs exampleCompileResult ⟨false, false, true, true⟩)).builtinErrors =
        [exampleFirstDivError] ∧
      Eval exampleStrictEngine exampleCompileResult ⟨false, false, true, true⟩ =
        (none, some ⟨some (.topdown exampleFirstDivError), 400⟩) ∧
      exampleErrorText exampleFirstDivError =
        "play.rego:5: eval_builtin_error: div: divide by zero" :=
  ⟨by rfl,
    (Eval_strict_reports_first exampleStrictEngine exampleCompileResult
      ⟨false, false, true, true⟩ [] exampleFirstDivError rfl rfl rfl).2.2.2 (by decide),
    by decide⟩

/-! ## Properties of `VarsForSelection` -/

theorem stringsLe_total : ∀ a b : List Char, stringsLe a b = true ∨ stringsLe b a = true
  | [], _ => Or.inl rfl
  | _ :: _, [] => Or.inr rfl
  | a :: as, b :: bs => by
    simp only [stringsLe]
    rcases Nat.lt_trichotomy a.toNat b.toNat with h | h | h
    · simp [h]
    · have h1 : ¬ a.toNat < b.toNat := by omega
      have h2 : ¬ b.toNat < a.toNat := by omega
      simp only [h1, h2, if_false]
      exact stringsLe_total as bs
    · simp [h]

theorem stringsLe_trans : ∀ a b c : List Char,
    stringsLe a b = true → stringsLe b c = true → stringsLe a c = true
  | [], _, _, _, _ => rfl
  | _ :: _, [], _, h, _ => by simp [stringsLe] at h
  | _ :: _, _ :: _, [], _, h => by simp [stringsLe] at h
  | a :: as, b :: bs, c :: cs, h1, h2 => by
    simp only [stringsLe] at h1 h2 ⊢
    by_cases hab : a.toNat < b.toNat
    · by_cases hbc : b.toNat < c.toNat
      · have : a.toNat < c.toNat := by omega
        simp [this]
      · by_cases hcb : c.toNat < b.toNat
        · simp [hbc, hcb] at h2
        · have : a.toNat < c.toNat := by omega
          simp [this]
    · by_cases hba : b.toNat < a.toNat
      · simp [hab, hba] at h1
      · simp only [hab, hba, if_false] at h1
        by_cases hbc : b.toNat < c.toNat
        · have : a.toNat < c.toNat := by omega
          simp [this]
        · by_cases hcb : c.toNat < b.toNat
          · simp [hbc, hcb] at h2
          · simp only [hbc, hcb, if_false] at h2
            have h3 : ¬ a.toNat < c.toNat := by omega
            have h4 : ¬ c.toNat < a.toNat := by omega
            simp only [h3, h4, if_false]
            exact stringsLe_trans as bs cs h1 h2

theorem sorted_varSetSorted (s : List String) :
    List.Sorted (fun a b => Var.le a b = true) (VarSet.Sorted s) := by
  haveI : IsTotal String (fun a b => Var.le a b = true) :=
    ⟨fun a b => stringsLe_total a.data b.data⟩
  haveI : IsTrans String (fun a b => Var.le a b = true) :=
    ⟨fun a b c => stringsLe_trans a.data b.data c.data⟩
  exact List.sorted_insertionSort _ s

theorem vars_eq (table : GoMap String) (vs : List String) :
    VarsForSelection.vars table vs =
      (vs.map (fun v => (table.get v).getD v)).filter (fun v => !Var.IsWildcard v) := by
  induction vs with
  | nil => rfl
  | cons v rest ih =>
    cases hget : table.get v with
    | none =>
      by_cases hw : Var.IsWildcard v = true
      · simp [VarsForSelection.vars, hget, hw, ih]
      · simp [VarsForSelection.vars, hget, hw, ih, Var.String]
    | some r =>
      by_cases hw : Var.IsWildcard r = true
      · simp [VarsForSelection.vars, hget, hw, ih]
      · simp [VarsForSelection.vars, hget, hw, ih, Var.String]

/-- C22: for the module `package p` and the selection `z := 1; a := 2` the
compiler renames `z` to `__localq0__` and `a` to `__localq1__`. The variables
are sorted under these names, `__localq0__` before `__localq1__`, and translated
back afterwards: `VarsForSelection` succeeds and returns `z` before `a`, a list
that is not in ascending order. -/
theorem VarsForSelection_not_sorted :
    VarSet.Sorted (exampleVarsEngine.Vars exampleTwoLocalsResolved) =
        ["__localq0__", "__localq1__"] ∧
      VarsForSelection exampleVarsEngine "package p" "z := 1; a := 2" =
        .ok (some ⟨["z", "a"]⟩, none) ∧
      Var.le "z" "a" = false ∧
      ¬ List.Sorted (fun a b => Var.le a b = true) ["z", "a"] := by
  refine ⟨by decide, by rfl, by decide, by decide⟩

/-- When `VarsForSelection` returns a result, its list is made from the
variables of the resolved body, sorted in ascending order of the names they
have after the compiler's rewriting, by replacing every name found in the
rewrite table by its source-level name and dropping the wildcards. The list
holds no wildcard; it is in ascending order when no variable of the resolved
body is in the rewrite table. -/
theorem VarsForSelection_vars (eng : VarsEngine) (rawModule rawSelection : String)
    (result : ParseResult)
    (h : VarsForSelection eng rawModule rawSelection = .ok (some result, none)) :
    ∃ body m compiler run resolved,
      eng.ParseBody rawSelection = .ok body ∧
      eng.ParseModule "policy.rego" rawModule = .ok (some m) ∧
      eng.CompileModules [("policy.rego", some m)] = .ok compiler ∧
      eng.CompileQuery compiler (some m.Package) body = .ok run ∧
      (run.stageInput = .ok resolved ∨
        (resolved = [] ∧ ∃ err, run.stageInput = .error err ∧
          GoError.Error eng.Error err = "STOP")) ∧
      result.Vars =
        ((VarSet.Sorted (eng.Vars resolved)).map
          (fun v => (run.RewrittenVars.get v).getD v)).filter (fun v => !Var.IsWildcard v) ∧
      (∀ v ∈ result.Vars, Var.IsWildcard v = false) ∧
      ((∀ v ∈ eng.Vars resolved, run.RewrittenVars.get v = none) →
        List.Sorted (fun a b => Var.le a b = true) result.Vars) := by
  unfold VarsForSelection at h
  cases hb : eng.ParseBody rawSelection with
  | error e => simp [hb] at h
  | ok body =>
    simp only [hb] at h
    cases hm : eng.ParseModule "policy.rego" rawModule with
    | error e => simp [hm] at h
    | ok mod =>
      simp only [hm] at h
      cases hc : eng.CompileModules [("policy.rego", mod)] with
      | error p => simp [hc] at h
      | ok compiler =>
        simp only [hc] at h
        by_cases hf : compiler.Failed = true
        · simp [hf] at h
        · simp only [hf] at h
          cases mod with
          | none => simp at h
          | some m =>
            simp only at h
            cases hq : eng.CompileQuery compiler (some m.Package) body with
            | error p => simp [hq] at h
            | ok run =>
              simp only [hq] at h
              have key : ∀ resolved : Body,
                  result.Vars = VarsForSelection.vars run.RewrittenVars
                    (VarSet.Sorted (eng.Vars resolved)) →
                  result.Vars =
                      ((VarSet.Sorted (eng.Vars resolved)).map
                        (fun v => (run.RewrittenVars.get v).getD v)).filter
                        (fun v => !Var.IsWildcard v) ∧
                    (∀ v ∈ result.Vars, Var.IsWildcard v = false) ∧
                    ((∀ v ∈ eng.Vars resolved, run.RewrittenVars.get v = none) →
                      List.Sorted (fun a b => Var.le a b = true) result.Vars) := by
                intro resolved hr
                rw [vars_eq] at hr
                refine ⟨hr, fun v hv => ?_, fun hnone => ?_⟩
                · rw [hr] at hv
                  simpa using (List.mem_filter.mp hv).2
                · rw [hr]
                  have hid : (VarSet.Sorted (eng.Vars resolved)).map
                      (fun v => (run.RewrittenVars.get v).getD v) =
                      VarSet.Sorted (eng.Vars resolved) := by
                    conv_rhs => rw [← List.map_id (VarSet.Sorted (eng.Vars resolved))]
                    apply List.map_congr_left
                    intro v hv
                    have hv1 : v ∈ eng.Vars resolved :=
                      (List.perm_insertionSort _ _).mem_iff.mp hv
                    simp [hnone v hv1]
                  rw [hid]
                  exact List.Pairwise.filter _ (sorted_varSetSorted _)
              cases hs : run.stageInput with
              | error e =>
                simp only [hs] at h
                by_cases hstop : GoError.Error eng.Error e = "STOP"
                · simp only [hstop, ne_eq, not_true_eq_false, if_false] at h
                  have hr : result.Vars = VarsForSelection.vars run.RewrittenVars
                      (VarSet.Sorted (eng.Vars [])) := by
                    have := (Prod.mk.inj (Except.ok.inj h)).1
                    simp only [Option.some.injEq] at this
                    rw [← this]
                  exact ⟨body, m, compiler, run, [], rfl, rfl, hc, hq,
                    Or.inr ⟨rfl, e, hs, hstop⟩, key [] hr⟩
                · simp [hstop] at h
              | ok b =>
                simp only [hs, shortCircuit, GoError.Error, ne_eq, not_true_eq_false,
                  if_false] at h
                have hr : result.Vars = VarsForSelection.vars run.RewrittenVars
                    (VarSet.Sorted (eng.Vars b)) := by
                  have := (Prod.mk.inj (Except.ok.inj h)).1
                  simp only [Option.some.injEq] at this
                  rw [← this]
                exact ⟨body, m, compiler, run, b, rfl, rfl, hc, hq, Or.inl hs, key b hr⟩

/-- For the module `package p` and the selection `some x in [1,2,3]` the list
is `x`. -/
theorem VarsForSelection_vars_witness :
    VarsForSelection exampleVarsEngine "package p" "some x in [1,2,3]" =
        .ok (some ⟨["x"]⟩, none) ∧
      ∀ v ∈ ["x"], Var.IsWildcard v = false :=
  ⟨by rfl,
    (VarsForSelection_vars exampleVarsEngine "package p" "some x in [1,2,3]" ⟨["x"]⟩
      (by rfl)).elim (fun _ h1 => h1.elim (fun _ h2 => h2.elim (fun _ h3 => h3.elim
        (fun _ h4 => h4.elim (fun _ h5 => h5.2.2.2.2.2.2.1)))))⟩

/-! ## Share keys: decoding undoes encoding -/

theorem decodeMapURL_encodeURL (n : Nat) (h : n < 64) : decodeMapURL (encodeURL n) = some n := by
  unfold encodeURL decodeMapURL
  split_ifs <;> first | omega | (simp; omega) | simp

theorem base64Values_encode (vs : List Nat) (h : ∀ v ∈ vs, v < 64) :
    base64Values (vs.map encodeURL) = some vs := by
  induction vs with
  | nil => rfl
  | cons v vs ih =>
    have hv := h v (List.mem_cons_self _ _)
    have ih1 := ih (fun x hx => h x (List.mem_cons_of_mem _ hx))
    simp [base64Values, decodeMapURL_encodeURL v hv, ih1]

theorem base64Encode_eq : ∀ bs : Bytes,
    base64EncodeToString bs = (base64Sextets bs).map encodeURL
  | [] => rfl
  | [_] => rfl
  | [_, _] => rfl
  | a :: b :: c :: rest => by
    simp [base64EncodeToString, base64Sextets, base64Encode_eq rest]

theorem base64Sextets_lt : ∀ bs : Bytes, ∀ v ∈ base64Sextets bs, v < 64
  | [], v, hv => by simp [base64Sextets] at hv
  | [a], v, hv => by
    simp only [base64Sextets, List.mem_cons, List.mem_singleton, List.not_mem_nil, or_false] at hv
    rcases hv with h | h <;> omega
  | [a, b], v, hv => by
    simp only [base64Sextets, List.mem_cons, List.mem_singleton, List.not_mem_nil, or_false] at hv
    rcases hv with h | h | h <;> omega
  | a :: b :: c :: rest, v, hv => by
    simp only [base64Sextets, List.mem_cons] at hv
    rcases hv with h | h | h | h | h
    · omega
    · omega
    · omega
    · omega
    · exact base64Sextets_lt rest v h

theorem base64Quanta_sextets : ∀ bs : Bytes, (∀ b ∈ bs, b < 256) →
    base64Quanta (base64Sextets bs) = some bs
  | [], _ => rfl
  | [a], h => by
    have ha := h a (by simp)
    simp only [base64Sextets, base64Quanta, Option.some.injEq, List.cons.injEq, and_true]
    omega
  | [a, b], h => by
    have ha := h a (by simp)
    have hb := h b (by simp)
    simp only [base64Sextets, base64Quanta, Option.some.injEq, List.cons.injEq, and_true]
    constructor <;> omega
  | a :: b :: c :: rest, h => by
    have ha := h a (by simp)
    have hb := h b (by simp)
    have hc := h c (by simp)
    have ih := base64Quanta_sextets rest (fun x hx => h x (by simp [hx]))
    simp only [base64Sextets, base64Quanta, ih, Option.map_some', Option.some.injEq,
      List.cons.injEq, and_true]
    refine ⟨?_, ?_, ?_⟩ <;> omega

theorem base64Decode_encode (bs : Bytes) (h : ∀ b ∈ bs, b < 256) :
    base64DecodeString (base64EncodeToString bs) = some bs := by
  simp [base64DecodeString, base64Encode_eq, base64Values_encode _ (base64Sextets_lt bs),
    base64Quanta_sextets bs h]

theorem hextable_of_lowerHex (c : Nat) (h : isLowerHex c = true) :
    ∃ a, fromHexChar c = some a ∧ a < 16 ∧ hextable a = c := by
  simp only [isLowerHex, Bool.or_eq_true, Bool.and_eq_true, decide_eq_true_eq] at h
  unfold fromHexChar hextable
  rcases h with h | h
  · refine ⟨c - 48, by simp [h], by omega, ?_⟩
    split_ifs <;> omega
  · have h1 : ¬ (48 ≤ c ∧ c ≤ 57) := by omega
    refine ⟨c - 97 + 10, by simp [h1, h], by omega, ?_⟩
    split_ifs <;> omega

theorem hexDecode_lowerHex : ∀ rev : Bytes, (∀ c ∈ rev, isLowerHex c = true) →
    rev.length % 2 = 0 →
    ∃ raw, hexDecodeString rev = .ok raw ∧ hexEncodeToString raw = rev ∧ ∀ b ∈ raw, b < 256
  | [], _, _ => ⟨[], rfl, rfl, by simp⟩
  | [p], _, hlen => by simp at hlen
  | p :: q :: rest, h, hlen => by
    obtain ⟨a, ha, ha16, hpa⟩ := hextable_of_lowerHex p (h p (by simp))
    obtain ⟨b, hb, hb16, hqb⟩ := hextable_of_lowerHex q (h q (by simp))
    obtain ⟨raw, hraw, henc, hlt⟩ := hexDecode_lowerHex rest (fun x hx => h x (by simp [hx]))
      (by simp only [List.length_cons] at hlen; omega)
    refine ⟨(a * 16 + b) :: raw, by simp [hexDecodeString, ha, hb, hraw], ?_, ?_⟩
    · have h1 : (a * 16 + b) / 16 = a := by omega
      have h2 : (a * 16 + b) % 16 = b := by omega
      simp [hexEncodeToString, h1, h2, hpa, hqb, henc]
    · intro x hx
      simp only [List.mem_cons] at hx
      rcases hx with hx | hx
      · omega
      · exact hlt x hx

theorem stringsCut_append (sep : Nat) (before after : Bytes) (h : sep ∉ before) :
    stringsCut sep (before ++ sep :: after) = (before, after, true) := by
  induction before with
  | nil => simp [stringsCut]
  | cons c rest ih =>
    have hc : c ≠ sep := fun e => h (by simp [e])
    have ih1 := ih (fun hm => h (List.mem_cons_of_mem _ hm))
    simp [stringsCut, hc, ih1]

/-- C24: for every gist key whose identifier, a Go string and so a sequence of
bytes below 256, holds no underscore and whose revision is a lowercase
hexadecimal text of even length, `toOpaque` returns, without error, a text that
starts with `g_`, and `storeKeyFromOpaque` of that text returns the key itself:
a gist key with the same identifier and the same revision. Nothing is asked of
the bytes of the revision or of the base64 text, which may hold underscores. -/
theorem storeKeyFromOpaque_toOpaque (k : StoreKey) (hgist : k.KeyType = .KeyTypeGist)
    (hbytes : ∀ b ∈ k.Id, b < 256) (hid : 95 ∉ k.Id)
    (hhex : ∀ c ∈ k.Revision, isLowerHex c = true) (heven : k.Revision.length % 2 = 0) :
    ∃ o, StoreKey.toOpaque (some k) = .returns (o, none) ∧
      gistPrefix.isPrefixOf o = true ∧ storeKeyFromOpaque o = .ok k := by
  obtain ⟨raw, hraw, henc, hlt⟩ := hexDecode_lowerHex k.Revision hhex heven
  have hall : ∀ b ∈ k.Id ++ [95] ++ raw, b < 256 := by
    intro b hb
    simp only [List.mem_append, List.mem_singleton] at hb
    rcases hb with (hb | hb) | hb
    · exact hbytes b hb
    · omega
    · exact hlt b hb
  refine ⟨gistPrefix ++ base64EncodeToString (k.Id ++ [95] ++ raw), ?_, ?_, ?_⟩
  · simp [StoreKey.toOpaque, hgist, hraw]
  · simp [gistPrefix, List.isPrefixOf]
  · have hpre : gistPrefix.isPrefixOf
        (gistPrefix ++ base64EncodeToString (k.Id ++ [95] ++ raw)) = true := by
      simp [gistPrefix, List.isPrefixOf]
    have hcut : stringsCut 95 (k.Id ++ [95] ++ raw) = (k.Id, raw, true) := by
      simpa using stringsCut_append 95 k.Id raw hid
    obtain ⟨id, rev, kt⟩ := k
    simp only at hgist henc hcut hall hpre ⊢
    subst hgist
    simp only [storeKeyFromOpaque, hpre, not_true_eq_false, if_false, List.drop_left,
      base64Decode_encode _ hall, hcut, henc]

set_option maxRecDepth 100000 in
/-- Witness of C24: the two keys of `TestGistOpaque` and their expected texts;
the bytes of the revision of the second hold an underscore, and so does its
base64 text. -/
theorem storeKeyFromOpaque_toOpaque_witness :
    StoreKey.toOpaque (some exampleGistKey) =
        .returns (bytesOf
          "g_NGYzZDRlYjllNWVkYjQ1ZmE1NzQ5ZGZlYTJlYzIyMjRf2Zspw1hHf4lF4DHRVRXSjRyiIDA", none) ∧
      StoreKey.toOpaque (some exampleUnderscoreKey) =
        .returns (bytesOf
          "g_ODhlNzVlMGI0ODViOWE1YmFkZTcxMDMyMDQ5NmJiYjVfUGjH-YjeZKR_es4Gzd76X9AX-vc", none) ∧
      storeKeyFromOpaque (bytesOf
          "g_ODhlNzVlMGI0ODViOWE1YmFkZTcxMDMyMDQ5NmJiYjVfUGjH-YjeZKR_es4Gzd76X9AX-vc") =
        .ok exampleUnderscoreKey ∧
      (∃ o, StoreKey.toOpaque (some exampleGistKey) = .returns (o, none) ∧
        gistPrefix.isPrefixOf o = true ∧ storeKeyFromOpaque o = .ok exampleGistKey) ∧
      ∃ o, StoreKey.toOpaque (some exampleUnderscoreKey) = .returns (o, none) ∧
        gistPrefix.isPrefixOf o = true ∧ storeKeyFromOpaque o = .ok exampleUnderscoreKey :=
  ⟨by rfl, by rfl, by rfl,
    storeKeyFromOpaque_toOpaque exampleGistKey rfl (by decide) (by decide) (by decide)
      (by decide),
    storeKeyFromOpaque_toOpaque exampleUnderscoreKey rfl (by decide) (by decide) (by decide)
      (by decide)⟩

/-! ## The query handler -/

theorem doHandleQuery_of_compile (env : QueryEnv) (bs : Bytes) (msg : DataRequest)
    (hmsg : env.UnmarshalJSON bs = .ok msg) (hmods : msg.RegoModules.entries ≠ [])
    (versions : List Int) (regoVersion : Int) (cr : Option CompileResult) (ig : Ignored)
    (err : Option GoError)
    (hc : doHandleQuery.compile
        (doHandleQuery.compileWithVersion env (doHandleQuery.relaxed msg)
          (doHandleQuery.policies msg.RegoModules.entries GoMap.empty []).1)
        (doHandleQuery.relaxed msg).RegoVersion = .ok (versions, regoVersion, cr, ig, err)) :
    doHandleQuery env (.ok bs) =
      match err with
      | some e =>
        .ok ⟨(doHandleQuery.policies msg.RegoModules.entries GoMap.empty []).2 ++
            [.apiError 400 apiCodeParseError (.of e) ig],
          versions.map (fun v =>
            ((doHandleQuery.policies msg.RegoModules.entries GoMap.empty []).1, v))⟩
      | none =>
        (doHandleQuery.respond env (doHandleQuery.relaxed msg) regoVersion cr ig).map
          (fun w =>
            ⟨(doHandleQuery.policies msg.RegoModules.entries GoMap.empty []).2 ++ w,
              versions.map (fun v =>
                ((doHandleQuery.policies msg.RegoModules.entries GoMap.empty []).1, v))⟩) := by
  have hlen : ¬ msg.RegoModules.entries.length = 0 := by
    intro h
    exact hmods (List.length_eq_zero.mp h)
  simp only [doHandleQuery, hmsg, hlen, if_false, hc]
  cases err with
  | some e => rfl
  | none =>
    simp only
    cases doHandleQuery.respond env (doHandleQuery.relaxed msg) regoVersion cr ig with
    | error p => rfl
    | ok w => rfl

theorem relaxed_version (msg : DataRequest) :
    (doHandleQuery.relaxed msg).RegoVersion = msg.RegoVersion := by
  unfold doHandleQuery.relaxed
  split <;> rfl

/-- C23: in the query handler, once the request is decoded and holds a module,
the first compile runs under the requested version, version 1 when the request
has none, and when it succeeds it is the only one and the response is built
with that version. When it fails under version 1 the compile is run once more,
with the same arguments, under version 0: when that succeeds its result and
diagnostics are adopted and the response is built with version 0; when it
fails too, the handler answers 400 `parse_error` with the error and the
diagnostics of the attempt under version 1. When the first compile fails under
another version, 0 included, it is the only one and the handler answers 400
`parse_error` with its error and diagnostics. A response built with a version
reports that version. -/
theorem doHandleQuery_fallback (env : QueryEnv) (bs : Bytes) (msg0 : DataRequest)
    (hmsg : env.UnmarshalJSON bs = .ok msg0) (hmods : msg0.RegoModules.entries ≠ []) :
    (∀ cr ig,
        doHandleQuery.compileWithVersion env (doHandleQuery.relaxed msg0)
          (doHandleQuery.policies msg0.RegoModules.entries GoMap.empty []).1
          (msg0.RegoVersion.getD 1) = .ok (cr, ig, none) →
        doHandleQuery env (.ok bs) =
          (doHandleQuery.respond env (doHandleQuery.relaxed msg0) (msg0.RegoVersion.getD 1)
            cr ig).map (fun w =>
              ⟨(doHandleQuery.policies msg0.RegoModules.entries GoMap.empty []).2 ++ w,
                [((doHandleQuery.policies msg0.RegoModules.entries GoMap.empty []).1,
                  msg0.RegoVersion.getD 1)]⟩)) ∧
      (∀ cr1 ig1 err1 cr0 ig0, msg0.RegoVersion.getD 1 = 1 →
        doHandleQuery.compileWithVersion env (doHandleQuery.relaxed msg0)
          (doHandleQuery.policies msg0.RegoModules.entries GoMap.empty []).1 1 =
            .ok (cr1, ig1, some err1) →
        doHandleQuery.compileWithVersion env (doHandleQuery.relaxed msg0)
          (doHandleQuery.policies msg0.RegoModules.entries GoMap.empty []).1 0 =
            .ok (cr0, ig0, none) →
        doHandleQuery env (.ok bs) =
          (doHandleQuery.respond env (doHandleQuery.relaxed msg0) 0 cr0 ig0).map (fun w =>
            ⟨(doHandleQuery.policies msg0.RegoModules.entries GoMap.empty []).2 ++ w,
              [((doHandleQuery.policies msg0.RegoModules.entries GoMap.empty []).1, 1),
                ((doHandleQuery.policies msg0.RegoModules.entries GoMap.empty []).1, 0)]⟩)) ∧
      (∀ cr1 ig1 err1 cr0 ig0 err0, msg0.RegoVersion.getD 1 = 1 →
        doHandleQuery.compileWithVersion env (doHandleQuery.relaxed msg0)
          (doHandleQuery.policies msg0.RegoModules.entries GoMap.empty []).1 1 =
            .ok (cr1, ig1, some err1) →
        doHandleQuery.compileWithVersion env (doHandleQuery.relaxed msg0)
          (doHandleQuery.policies msg0.RegoModules.entries GoMap.empty []).1 0 =
            .ok (cr0, ig0, some err0) →
        doHandleQuery env (.ok bs) =
          .ok ⟨(doHandleQuery.policies msg0.RegoModules.entries GoMap.empty []).2 ++
              [.apiError 400 "parse_error" (.of err1) ig1],
            [((doHandleQuery.policies msg0.RegoModules.entries GoMap.empty []).1, 1),
              ((doHandleQuery.policies msg0.RegoModules.entries GoMap.empty []).1, 0)]⟩) ∧
      (∀ cr ig err, msg0.RegoVersion.getD 1 ≠ 1 →
        doHandleQuery.compileWithVersion env (doHandleQuery.relaxed msg0)
          (doHandleQuery.policies msg0.RegoModules.entries GoMap.empty []).1
          (msg0.RegoVersion.getD 1) = .ok (cr, ig, some err) →
        doHandleQuery env (.ok bs) =
          .ok ⟨(doHandleQuery.policies msg0.RegoModules.entries GoMap.empty []).2 ++
              [.apiError 400 "parse_error" (.of err) ig],
            [((doHandleQuery.policies msg0.RegoModules.entries GoMap.empty []).1,
              msg0.RegoVersion.getD 1)]⟩) ∧
      (∀ msg v cr ig result,
        env.Eval cr ⟨msg.Trace, msg.Coverage, msg.BuiltInErrorsAll, msg.BuiltInErrorsStrict⟩ =
          (some result, none) →
        ∃ r, doHandleQuery.respond env msg v (some cr) ig = .ok [.json 200 r] ∧
          r.RegoVersion = some v ∧ r.Ignored = ig) := by
  have hv : ∀ (f : Int → Except PanicValue (Option CompileResult × Ignored × Option GoError)),
      doHandleQuery.compile f (doHandleQuery.relaxed msg0).RegoVersion =
        doHandleQuery.compile f msg0.RegoVersion := by
    intro f
    rw [relaxed_version]
  have hreq : ∀ (f : Int → Except PanicValue (Option CompileResult × Ignored × Option GoError)),
      doHandleQuery.compile f msg0.RegoVersion =
        match f (msg0.RegoVersion.getD 1) with
        | .error p => .error p
        | .ok (compileResult, ignored, none) =>
          .ok ([msg0.RegoVersion.getD 1], msg0.RegoVersion.getD 1, compileResult, ignored, none)
        | .ok (compileResult, ignored, some err) =>
          if msg0.RegoVersion.getD 1 = 1 then
            match f 0 with
            | .error p => .error p
            | .ok (compileResultv0, ignoredv0, none) =>
              .ok ([msg0.RegoVersion.getD 1, 0], 0, compileResultv0, ignoredv0, none)
            | .ok (_, _, some _) =>
              .ok ([msg0.RegoVersion.getD 1, 0], msg0.RegoVersion.getD 1, compileResult,
                ignored, some err)
          else
            .ok ([msg0.RegoVersion.getD 1], msg0.RegoVersion.getD 1, compileResult, ignored,
              some err) := by
    intro f
    unfold doHandleQuery.compile
    cases msg0.RegoVersion <;> rfl
  refine ⟨?_, ?_, ?_, ?_, ?_⟩
  · intro cr ig h1
    rw [doHandleQuery_of_compile env bs msg0 hmsg hmods [msg0.RegoVersion.getD 1]
      (msg0.RegoVersion.getD 1) cr ig none (by rw [hv, hreq, h1])]
    rfl
  · intro cr1 ig1 err1 cr0 ig0 hone h1 h0
    rw [doHandleQuery_of_compile env bs msg0 hmsg hmods [1, 0] 0 cr0 ig0 none
      (by rw [hv, hreq, hone, h1]; simp [h0])]
    rfl
  · intro cr1 ig1 err1 cr0 ig0 err0 hone h1 h0
    rw [doHandleQuery_of_compile env bs msg0 hmsg hmods [1, 0] 1 cr1 ig1 (some err1)
      (by rw [hv, hreq, hone, h1]; simp [h0])]
    rfl
  · intro cr ig err hne h1
    rw [doHandleQuery_of_compile env bs msg0 hmsg hmods [msg0.RegoVersion.getD 1]
      (msg0.RegoVersion.getD 1) cr ig (some err) (by rw [hv, hreq, h1]; simp [hne])]
    rfl
  · intro msg v cr ig result he
    simp only [doHandleQuery.respond, he]
    exact ⟨_, rfl, rfl, rfl⟩

/-- Witness of C23: without version, the policy of the tests, written without
`if`, fails under version 1 and compiles under version 0; the response is 200
and reports version 0. With version 0 and a module that does not parse, the
compile runs once and the answer is 400. -/
theorem doHandleQuery_fallback_witness :
    (∃ r, doHandleQuery (exampleQueryEnv exampleV0Request) (.ok []) =
        .ok ⟨[.json 200 r],
          [(⟨[("test.rego", examplePolicy)]⟩, 1), (⟨[("test.rego", examplePolicy)]⟩, 0)]⟩ ∧
      r.RegoVersion = some 0) ∧
      doHandleQuery (exampleQueryEnv exampleBrokenRequest) (.ok []) =
        .ok ⟨[.apiError 400 "parse_error"
            (.of (.astErrors [⟨"rego_parse_error", none, "unexpected token"⟩])) []],
          [(⟨[("test.rego", "package")]⟩, 0)]⟩ :=
  ⟨⟨_, ((doHandleQuery_fallback (exampleQueryEnv exampleV0Request) [] exampleV0Request rfl
      (by simp [exampleV0Request])).2.1 none []
      (.astErrors
        [⟨"rego_parse_error", some ⟨5, 8⟩, "`if` keyword is required before rule body"⟩])
      _ [] rfl rfl rfl).trans rfl, rfl⟩,
    ((doHandleQuery_fallback (exampleQueryEnv exampleBrokenRequest) [] exampleBrokenRequest rfl
      (by simp [exampleBrokenRequest])).2.2.2.1 none []
      (.astErrors [⟨"rego_parse_error", none, "unexpected token"⟩]) (by decide) rfl).trans rfl⟩

/-- C29: the request holds two modules, both texts, under the paths
`play/x.rego` and `other/x.rego`. Both are stored under the name `x.rego`, the
second replacing the first: the policy map has one entry, and `Compile` is
called with that one module. -/
theorem doHandleQuery_modules_collide :
    exampleClashRequest.RegoModules.entries.length = 2 ∧
      exampleClashRequest.RegoModules.entries.map (fun kv => kv.1) =
        ["play/x.rego", "other/x.rego"] ∧
      (∀ kv ∈ exampleClashRequest.RegoModules.entries, ∃ text, kv.2 = .string text) ∧
      doHandleQuery.policies exampleClashRequest.RegoModules.entries GoMap.empty [] =
        (⟨[("x.rego", exampleOtherPolicy)]⟩, []) ∧
      (doHandleQuery.policies exampleClashRequest.RegoModules.entries GoMap.empty
        []).1.entries.length = 1 ∧
      (doHandleQuery (exampleQueryEnv exampleClashRequest) (.ok [])).map
          (fun o => o.compiled) =
        .ok [(⟨[("x.rego", exampleOtherPolicy)]⟩, 1)] := by
  refine ⟨rfl, rfl, ?_, rfl, rfl, rfl⟩
  intro kv hkv
  simp only [exampleClashRequest, DataRequest.zero, List.mem_cons, List.mem_singleton,
    List.not_mem_nil, or_false] at hkv
  rcases hkv with h | h <;> exact ⟨_, by rw [h]⟩

/-! ## The update handler -/

theorem lookup_assign (store : List (Bytes × DataRequest)) (id : Bytes) (dr : DataRequest) :
    (MemoryDataRequestStore.assign store id dr).lookup id = some dr := by
  induction store with
  | nil => simp [MemoryDataRequestStore.assign, List.lookup]
  | cons e rest ih =>
    obtain ⟨id1, dr1⟩ := e
    by_cases h : id1 = id
    · subst h
      simp [MemoryDataRequestStore.assign, List.lookup]
    · have h2 : (id == id1) = false := by
        simp only [beq_eq_false_iff_ne, ne_eq]
        exact fun e => h e.symm
      simp [MemoryDataRequestStore.assign, h, List.lookup, h2, ih]

theorem forbidden_after_put (env : UpdateEnv) (s : MemoryDataRequestStore)
    (principal : Option Principal) (body : Except GoError Bytes) (key : StoreKey)
    (h : (doHandleUpdateDistribute env memoryStore s principal body key).2 =
      .ok [writeError 403 apiCodeInvalidArgument
        (.of (.errorString "cannot update readonly resource"))]) :
    ∃ msg, msg.ReadOnly = true ∧
      ((doHandleUpdateDistribute env memoryStore s principal body key).1.Get key principal) =
        (msg, true, none) := by
  unfold doHandleUpdateDistribute at h ⊢
  cases body with
  | error e => simp [writeError] at h
  | ok bs =>
    simp only at h ⊢
    cases hu : env.UnmarshalJSON bs with
    | error e => simp [hu, writeError] at h
    | ok msg =>
      simp only [hu] at h ⊢
      by_cases hsz : bs.length > maxUploadSizeLimitBytes
      · simp [hsz, writeError, apiCodeFileTooLarge, apiCodeInvalidArgument] at h
      · simp only [hsz, if_false] at h ⊢
        cases he : env.getEtag (env.Marshal msg) with
        | error e => simp [he, writeError] at h
        | ok etag =>
          simp only [he] at h ⊢
          have hget : memoryStore.Get s key principal = MemoryDataRequestStore.Get s key principal :=
            rfl
          cases hl : s.store.lookup key.Id with
          | none =>
            simp [hget, MemoryDataRequestStore.Get, hl, writeError] at h
          | some existing =>
            simp only [hget, MemoryDataRequestStore.Get, hl, not_true_eq_false, if_false,
              Bool.not_eq_true] at h ⊢
            cases hp : doHandleUpdateDistribute.patch env existing { msg with Etag := etag } with
            | mk msg3 perr =>
            simp only [hp] at h ⊢
            cases perr with
            | some e => simp [writeError] at h
            | none =>
              simp only at h ⊢
              have hput : memoryStore.Put s key msg3 principal =
                  ((MemoryDataRequestStore.Put s key msg3 principal).1, some key, none) := by
                simp only [memoryStore, MemoryDataRequestStore.Put]
                split <;> rfl
              simp only [hput] at h ⊢
              by_cases hro : msg3.ReadOnly = true
              · refine ⟨msg3, hro, ?_⟩
                simp only [hro, if_true, MemoryDataRequestStore.Get]
                have : (MemoryDataRequestStore.Put s key msg3 principal).1.store.lookup key.Id =
                    some msg3 := by
                  simp only [MemoryDataRequestStore.Put]
                  split <;> exact lookup_assign _ _ _
                rw [this]
              · simp [hro, writeError] at h

/-- C30: the store holds a request under the key `abc`; an update with another
module and the flag `read_only` is answered 403 `cannot update readonly
resource`, and the store then holds the update under the key: `Put` runs
before the flag is tested, and the flag tested is that of the update, not that
of the stored request. -/
theorem doHandleUpdateDistribute_stores_before_rejecting :
    (doHandleUpdateDistribute (exampleUpdateEnv exampleReadOnlyUpdate) memoryStore exampleStore
        none (.ok []) exampleKey).2 =
        .ok [.apiError 403 "invalid_argument"
          (.of (.errorString "cannot update readonly resource")) []] ∧
      (exampleStore.Get exampleKey none).1.RegoModules =
        ⟨[("m.rego", .string "package a")]⟩ ∧
      (exampleStore.Get exampleKey none).1.ReadOnly = false ∧
      (exampleStore.Get exampleKey none).1.Etag = "\"old\"" ∧
      ((doHandleUpdateDistribute (exampleUpdateEnv exampleReadOnlyUpdate) memoryStore
        exampleStore none (.ok []) exampleKey).1.Get exampleKey none).1.RegoModules =
        ⟨[("m.rego", .string "package b")]⟩ ∧
      ((doHandleUpdateDistribute (exampleUpdateEnv exampleReadOnlyUpdate) memoryStore
        exampleStore none (.ok []) exampleKey).1.Get exampleKey none).1.ReadOnly = true ∧
      ((doHandleUpdateDistribute (exampleUpdateEnv exampleReadOnlyUpdate) memoryStore
        exampleStore none (.ok []) exampleKey).1.Get exampleKey none).1.Etag = "\"new\"" := by
  refine ⟨rfl, rfl, rfl, rfl, rfl, rfl, rfl⟩

end Opa
